import Mathlib

/-!
# BadgerDB buffer manager (`CS564/PP2/src/buffer.cpp`)

A shallow embedding of `BufMgr` and of the collaborators it consumes, followed by the
properties of the clock replacement algorithm and of the page operations.

Conventions of the embedding:

* a `File*` is a natural number, the null pointer being `0`;
* the descriptor table and the frame pool, C++ arrays of `numBufs` entries, are total
  functions on frame numbers of which only the entries below `numBufs` are ever used;
* a C++ operation that may throw returns a pair: the value or the exception, and the
  state in which the operation left the manager and the storage;
* `pinCnt` (a C++ `int`) is a natural number: the code never decrements a zero count, and
  signed overflow is not modelled;
* the counter `num` of `allocBuf` (a `std::uint32_t`) does not wrap as long as
  `numBufs + 1 < 2 ^ 32`, which is assumed throughout.
-/

namespace badgerdb

abbrev FileId := Nat
abbrev PageId := Nat
abbrev FrameId := Nat

/-- Modelled from the spec: the `Page` class is not part of `buffer.cpp`. A page carries
the page number embedded in its contents (`page_number()`) and its payload. -/
structure Page where
  page_number : PageId
  data : Nat
deriving DecidableEq

/-- The exceptions that can leave the buffer manager. -/
inductive Exc where
  | BufferExceededException
  | PageNotPinnedException
  | PagePinnedException
  | BadBufferException
  | HashNotFoundException
  | HashAlreadyPresentException
  | InvalidPageException
deriving DecidableEq

/-- A call received by the storage layer. -/
inductive DiskOp where
  | read (file : FileId) (pageNo : PageId)
  | write (file : FileId) (page : Page)
  | alloc (file : FileId) (pageNo : PageId)
  | delete (file : FileId) (pageNo : PageId)
deriving DecidableEq

/-- Modelled from the spec: the `File` class is not part of `buffer.cpp`. The durable
storage holds, per file, the pages that exist and the next page number to assign; `log`
records every call the storage receives, oldest first. -/
structure Disk where
  pages : FileId → PageId → Option Page
  next : FileId → PageId
  log : List DiskOp

/-- Modelled from the spec: `readPage(pageNumber) -> page contents`, fails if the page does
not exist (`none`). -/
def Disk.readPage (d : Disk) (file : FileId) (pageNo : PageId) : Option Page × Disk :=
  (d.pages file pageNo, { d with log := d.log ++ [DiskOp.read file pageNo] })

/-- Modelled from the spec: `writePage(contents)` persists a page at the identity embedded
in its contents. -/
def Disk.writePage (d : Disk) (file : FileId) (pg : Page) : Disk :=
  { d with
    pages := fun f p => if f = file ∧ p = pg.page_number then some pg else d.pages f p
    log := d.log ++ [DiskOp.write file pg] }

/-- Modelled from the spec: `allocatePage() -> page contents with a freshly assigned page
number`. -/
def Disk.allocatePage (d : Disk) (file : FileId) : Page × Disk :=
  let pg : Page := { page_number := d.next file, data := 0 }
  (pg,
    { pages := fun f p => if f = file ∧ p = pg.page_number then some pg else d.pages f p
      next := fun f => if f = file then d.next file + 1 else d.next f
      log := d.log ++ [DiskOp.alloc file pg.page_number] })

/-- Modelled from the spec: `deletePage(pageNumber)` removes a page permanently. -/
def Disk.deletePage (d : Disk) (file : FileId) (pageNo : PageId) : Disk :=
  { d with
    pages := fun f p => if f = file ∧ p = pageNo then none else d.pages f p
    log := d.log ++ [DiskOp.delete file pageNo] }

/-- Modelled from the spec: the page index `BufHashTbl` is not part of `buffer.cpp`. It
maps (file, page number) to a frame number. -/
abbrev BufHashTbl := FileId → PageId → Option FrameId

/-- Modelled from the spec: `lookup(file, pageNumber) -> frame number`, fails with a
not-found condition when absent. -/
def BufHashTbl.lookup (h : BufHashTbl) (file : FileId) (pageNo : PageId) :
    Except Exc FrameId :=
  match h file pageNo with
  | some frame => Except.ok frame
  | none => Except.error Exc.HashNotFoundException

/-- Modelled from the spec: `insert(file, pageNumber, frameNumber)`, fails if the key
already exists. -/
def BufHashTbl.insert (h : BufHashTbl) (file : FileId) (pageNo : PageId) (frame : FrameId) :
    Except Exc BufHashTbl :=
  match h file pageNo with
  | some _ => Except.error Exc.HashAlreadyPresentException
  | none => Except.ok (fun f p => if f = file ∧ p = pageNo then some frame else h f p)

/-- Modelled from the spec: `remove(file, pageNumber)`, fails if the key is absent. -/
def BufHashTbl.remove (h : BufHashTbl) (file : FileId) (pageNo : PageId) :
    Except Exc BufHashTbl :=
  match h file pageNo with
  | some _ => Except.ok (fun f p => if f = file ∧ p = pageNo then none else h f p)
  | none => Except.error Exc.HashNotFoundException

/-- A frame descriptor (`BufDesc`); `file = 0` is the null pointer. -/
structure BufDesc where
  file : FileId
  pageNo : PageId
  frameNo : FrameId
  pinCnt : Nat
  dirty : Bool
  valid : Bool
  refbit : Bool
deriving DecidableEq

/-- Modelled from the spec: `BufDesc::Clear` is declared in `buffer.h`, which is not part
of the sources. The descriptor is reset to the empty state: identity cleared, flags
cleared, pin count zeroed. -/
def BufDesc.Clear (d : BufDesc) : BufDesc :=
  { d with file := 0, pageNo := 0, pinCnt := 0, dirty := false, valid := false,
           refbit := false }

/-- Modelled from the spec: `BufDesc::Set` is declared in `buffer.h`, which is not part of
the sources. It sets the identity fields and hands the frame over counted as held once:
valid, pin count 1, reference flag set, dirty flag clear. -/
def BufDesc.Set (d : BufDesc) (file : FileId) (pageNo : PageId) : BufDesc :=
  { d with file := file, pageNo := pageNo, pinCnt := 1, dirty := false, valid := true,
           refbit := true }

/-- The buffer manager together with the storage its `File*` arguments reach. -/
structure BufMgr where
  numBufs : Nat
  bufDescTable : FrameId → BufDesc
  bufPool : FrameId → Page
  hashTable : BufHashTbl
  clockHand : FrameId
  disk : Disk

/-- Replace one descriptor of the table. -/
def BufMgr.setDesc (s : BufMgr) (i : FrameId) (d : BufDesc) : BufMgr :=
  { s with bufDescTable := fun j => if j = i then d else s.bufDescTable j }

/-- The constructor `BufMgr::BufMgr(bufs)`, for `bufs ≥ 1`, over a given storage. The
default-constructed descriptors are empty (modelled from the spec: all descriptors are
marked invalid). -/
def BufMgr.new (bufs : Nat) (disk : Disk) : BufMgr :=
  { numBufs := bufs
    bufDescTable := fun i =>
      { file := 0, pageNo := 0, frameNo := i, pinCnt := 0, dirty := false, valid := false,
        refbit := false }
    bufPool := fun _ => { page_number := 0, data := 0 }
    hashTable := fun _ _ => none
    clockHand := bufs - 1
    disk := disk }

/-- The method `BufMgr::advanceClock`. -/
def advanceClock (s : BufMgr) : BufMgr :=
  { s with clockHand := (s.clockHand + 1) % s.numBufs }

/-- The body of the `for` loop of `BufMgr::flushFile`, at frame `i`. -/
def flushFileBody (file : FileId) (i : FrameId) (s : BufMgr) : Except Exc Unit × BufMgr :=
  let d := s.bufDescTable i
  if d.file = file ∧ d.valid = true then
    if d.pinCnt > 0 then
      (Except.error Exc.PagePinnedException, s)
    else
      let s1 : BufMgr :=
        if d.dirty = true then
          { s.setDesc i { d with dirty := false } with
            disk := s.disk.writePage d.file (s.bufPool d.frameNo) }
        else s
      match s1.hashTable.remove d.file d.pageNo with
      | Except.error e => (Except.error e, s1)
      | Except.ok h =>
        (Except.ok (), { s1 with hashTable := h }.setDesc i (s1.bufDescTable i).Clear)
  else if d.file = file ∧ d.valid = false then
    (Except.error Exc.BadBufferException, s)
  else
    (Except.ok (), s)

/-- The `for` loop of `BufMgr::flushFile`: `k` iterations are left, the next one at `i`. -/
def flushFileLoop (file : FileId) : Nat → FrameId → BufMgr → Except Exc Unit × BufMgr
  | 0, _, s => (Except.ok (), s)
  | k + 1, i, s =>
    match flushFileBody file i s with
    | (Except.ok _, s1) => flushFileLoop file k (i + 1) s1
    | (Except.error e, s1) => (Except.error e, s1)

/-- The method `BufMgr::flushFile`. -/
def flushFile (s : BufMgr) (file : FileId) : Except Exc Unit × BufMgr :=
  flushFileLoop file s.numBufs 0 s

/-- The body of the `while` loop of `BufMgr::allocBuf`: the result is `true` when the loop
is left through `break` (a frame was found) and `false` on `continue`. -/
def allocBufBody (s : BufMgr) : Except Exc Bool × BufMgr :=
  let s0 := advanceClock s
  let d := s0.bufDescTable s0.clockHand
  if d.valid = false then
    (Except.ok true, s0)
  else if d.refbit = true then
    (Except.ok false, s0.setDesc s0.clockHand { d with refbit := false })
  else if d.pinCnt > 0 then
    (Except.ok false, s0)
  else
    match flushFile s0 d.file with
    | (Except.ok _, s1) => (Except.ok true, s1)
    | (Except.error e, s1) => (Except.error e, s1)

/-- The `while (num <= numBufs)` loop of `BufMgr::allocBuf` with `k` iterations left; the
result is the value of `checkFoundFrame`. -/
def allocBufLoop : Nat → BufMgr → Except Exc Bool × BufMgr
  | 0, s => (Except.ok false, s)
  | k + 1, s =>
    match allocBufBody s with
    | (Except.ok true, s1) => (Except.ok true, s1)
    | (Except.ok false, s1) => allocBufLoop k s1
    | (Except.error e, s1) => (Except.error e, s1)

/-- The method `BufMgr::allocBuf`: `num` runs from `0` to `numBufs`, so the loop body is
executed at most `numBufs + 1` times. -/
def allocBuf (s : BufMgr) : Except Exc FrameId × BufMgr :=
  match allocBufLoop (s.numBufs + 1) s with
  | (Except.error e, s1) => (Except.error e, s1)
  | (Except.ok false, s1) => (Except.error Exc.BufferExceededException, s1)
  | (Except.ok true, s1) =>
    (Except.ok s1.clockHand, s1.setDesc s1.clockHand (s1.bufDescTable s1.clockHand).Clear)

/-- The method `BufMgr::readPage`; the page handed back is `bufPool[frame]` for the
returned frame. -/
def readPage (s : BufMgr) (file : FileId) (pageNo : PageId) : Except Exc FrameId × BufMgr :=
  match s.hashTable.lookup file pageNo with
  | Except.ok frame =>
    let d := s.bufDescTable frame
    (Except.ok frame, s.setDesc frame { d with refbit := true, pinCnt := d.pinCnt + 1 })
  | Except.error _ =>
    match allocBuf s with
    | (Except.error e, s1) => (Except.error e, s1)
    | (Except.ok frame, s1) =>
      match s1.disk.readPage file pageNo with
      | (none, dk) => (Except.error Exc.InvalidPageException, { s1 with disk := dk })
      | (some pg, dk) =>
        let s2 : BufMgr :=
          { s1 with disk := dk, bufPool := fun j => if j = frame then pg else s1.bufPool j }
        match s2.hashTable.insert file pageNo frame with
        | Except.error e => (Except.error e, s2)
        | Except.ok h =>
          (Except.ok frame,
            { s2 with hashTable := h }.setDesc frame ((s2.bufDescTable frame).Set file pageNo))

/-- The method `BufMgr::unPinPage`. -/
def unPinPage (s : BufMgr) (file : FileId) (pageNo : PageId) (dirty : Bool) :
    Except Exc Unit × BufMgr :=
  match s.hashTable.lookup file pageNo with
  | Except.error e => (Except.error e, s)
  | Except.ok frame =>
    let d := s.bufDescTable frame
    if d.pinCnt = 0 then
      (Except.error Exc.PageNotPinnedException, s)
    else
      let s1 := s.setDesc frame { d with pinCnt := d.pinCnt - 1 }
      if dirty = true then
        (Except.ok (), s1.setDesc frame { s1.bufDescTable frame with dirty := true })
      else
        (Except.ok (), s1)

/-- The method `BufMgr::allocPage`; the result is the new page number and the frame whose
pool entry is handed back. -/
def allocPage (s : BufMgr) (file : FileId) : Except Exc (PageId × FrameId) × BufMgr :=
  let newPage := (s.disk.allocatePage file).1
  let s0 : BufMgr := { s with disk := (s.disk.allocatePage file).2 }
  match allocBuf s0 with
  | (Except.error e, s1) => (Except.error e, s1)
  | (Except.ok frame, s1) =>
    let s2 : BufMgr := { s1 with bufPool := fun j => if j = frame then newPage else s1.bufPool j }
    match s2.hashTable.insert file newPage.page_number frame with
    | Except.error e => (Except.error e, s2)
    | Except.ok h =>
      (Except.ok (newPage.page_number, frame),
        { s2 with hashTable := h }.setDesc frame
          ((s2.bufDescTable frame).Set file newPage.page_number))

/-- The method `BufMgr::disposePage`. -/
def disposePage (s : BufMgr) (file : FileId) (pageNo : PageId) : Except Exc Unit × BufMgr :=
  match s.hashTable.lookup file pageNo with
  | Except.error e => (Except.error e, s)
  | Except.ok frame =>
    let s1 := s.setDesc frame (s.bufDescTable frame).Clear
    match s1.hashTable.remove file pageNo with
    | Except.error e => (Except.error e, s1)
    | Except.ok h =>
      (Except.ok (), { s1 with hashTable := h, disk := s1.disk.deletePage file pageNo })

/-- The states a freshly constructed manager of capacity at least one can be brought into by
calls of the public operations, whether they return or throw. -/
inductive Reachable : BufMgr → Prop where
  | init (bufs : Nat) (disk : Disk) (h : 1 ≤ bufs) : Reachable (BufMgr.new bufs disk)
  | readPage (s : BufMgr) (file : FileId) (pageNo : PageId) :
      Reachable s → Reachable (readPage s file pageNo).2
  | unPinPage (s : BufMgr) (file : FileId) (pageNo : PageId) (dirty : Bool) :
      Reachable s → Reachable (unPinPage s file pageNo dirty).2
  | flushFile (s : BufMgr) (file : FileId) :
      Reachable s → Reachable (flushFile s file).2
  | allocPage (s : BufMgr) (file : FileId) :
      Reachable s → Reachable (allocPage s file).2
  | disposePage (s : BufMgr) (file : FileId) (pageNo : PageId) :
      Reachable s → Reachable (disposePage s file pageNo).2

/-! ## Auxiliary notions: invariant, intermediate states, relations between states -/

/-- The frame holds a page some caller still uses. -/
def BufMgr.pinned (s : BufMgr) (i : Nat) : Prop :=
  (s.bufDescTable i).valid = true ∧ 0 < (s.bufDescTable i).pinCnt

/-- The empty descriptor of frame `i`. -/
def BufDesc.empty (i : Nat) : BufDesc :=
  { file := 0, pageNo := 0, frameNo := i, pinCnt := 0, dirty := false, valid := false,
    refbit := false }

/-- The representation invariant of the manager. -/
structure Inv (s : BufMgr) : Prop where
  cap : 1 ≤ s.numBufs
  hand : s.clockHand < s.numBufs
  frameNo : ∀ i, (s.bufDescTable i).frameNo = i
  empty : ∀ i, (s.bufDescTable i).valid = false → s.bufDescTable i = BufDesc.empty i
  outside : ∀ i, s.numBufs ≤ i → (s.bufDescTable i).valid = false
  index : ∀ f p N, s.hashTable f p = some N ↔
    (N < s.numBufs ∧ (s.bufDescTable N).valid = true ∧ (s.bufDescTable N).file = f ∧
      (s.bufDescTable N).pageNo = p)

/-- Frame `i` of `s` with its dirty page written back: lines 162-165 of `flushFile`. -/
def writeBack (s : BufMgr) (i : Nat) : BufMgr :=
  if (s.bufDescTable i).dirty = true then
    { s.setDesc i { s.bufDescTable i with dirty := false } with
      disk := s.disk.writePage (s.bufDescTable i).file (s.bufPool (s.bufDescTable i).frameNo) }
  else s

/-- Frame `i` of `s` written back, unmapped and cleared: lines 162-169 of `flushFile`. -/
def evictFrame (s : BufMgr) (i : Nat) : BufMgr :=
  { writeBack s i with
    hashTable := fun f p =>
      if f = (s.bufDescTable i).file ∧ p = (s.bufDescTable i).pageNo then none
      else s.hashTable f p
    bufDescTable := fun j => if j = i then (s.bufDescTable i).Clear else s.bufDescTable j }

/-- The state `s'` is `s` after some unpinned pages were evicted and some reference flags
cleared, the pool contents being untouched. -/
structure Sweep (s s' : BufMgr) : Prop where
  numBufs : s'.numBufs = s.numBufs
  pool : s'.bufPool = s.bufPool
  desc : ∀ i,
    (s'.bufDescTable i = { s.bufDescTable i with refbit := (s'.bufDescTable i).refbit } ∧
      ((s'.bufDescTable i).refbit = true → (s.bufDescTable i).refbit = true)) ∨
    ((s.bufDescTable i).valid = true ∧ (s.bufDescTable i).pinCnt = 0 ∧
      s'.bufDescTable i = (s.bufDescTable i).Clear)
  hash : ∀ f p N, s'.hashTable f p = some N ↔
    (s.hashTable f p = some N ∧ (s'.bufDescTable N).valid = true)

/-- The state `s'` is `s` after the clock hand moved and some reference flags were
cleared; nothing else differs. -/
structure RefCleared (s s' : BufMgr) : Prop where
  numBufs : s'.numBufs = s.numBufs
  pool : s'.bufPool = s.bufPool
  hash : s'.hashTable = s.hashTable
  disk : s'.disk = s.disk
  hand : 0 < s.numBufs → s.clockHand < s.numBufs → s'.clockHand < s.numBufs
  desc : ∀ i,
    s'.bufDescTable i = { s.bufDescTable i with refbit := (s'.bufDescTable i).refbit } ∧
      ((s'.bufDescTable i).refbit = true → (s.bufDescTable i).refbit = true)

/-- What `allocBuf` makes of the outcome of the `flushFile` call of its last branch. -/
def foundAfterFlush (x : Except Exc Unit × BufMgr) : Except Exc Bool × BufMgr :=
  match x with
  | (Except.ok _, s1) => (Except.ok true, s1)
  | (Except.error e, s1) => (Except.error e, s1)

/-- Frame `i` of `s` still holds the same page in `s'`: valid, same identity, same pool
entry, and mapped by the page index. -/
def Kept (s s' : BufMgr) (i : Nat) : Prop :=
  (s'.bufDescTable i).valid = true ∧
  (s'.bufDescTable i).file = (s.bufDescTable i).file ∧
  (s'.bufDescTable i).pageNo = (s.bufDescTable i).pageNo ∧
  s'.bufPool i = s.bufPool i ∧
  s'.hashTable (s.bufDescTable i).file (s.bufDescTable i).pageNo = some i

/-- The state after a free frame has been given a page: lines 123-124 of `readPage` and
lines 189-190 of `allocPage`. -/
def install (s : BufMgr) (frame file pageNo : Nat) : BufMgr :=
  { s with
    hashTable := fun f p => if f = file ∧ p = pageNo then some frame else s.hashTable f p
    bufDescTable := fun j =>
      if j = frame then (s.bufDescTable frame).Set file pageNo else s.bufDescTable j }

/-- The state after the storage read of `readPage` has filled the frame: line 122. -/
def loadPage (s : BufMgr) (frame file pageNo : Nat) (pg : Page) : BufMgr :=
  { s with
    disk := (s.disk.readPage file pageNo).2
    bufPool := fun j => if j = frame then pg else s.bufPool j }

/-- The state after `allocPage` has copied the new page into the frame: line 186. -/
def storePage (s : BufMgr) (frame : Nat) (pg : Page) : BufMgr :=
  { s with bufPool := fun j => if j = frame then pg else s.bufPool j }

/-- The state in which `allocPage` calls `allocBuf`: the storage has allocated the page. -/
def afterAllocate (s : BufMgr) (file : Nat) : BufMgr :=
  { s with disk := (s.disk.allocatePage file).2 }

instance (s : BufMgr) (i : Nat) : Decidable (s.pinned i) := by
  unfold BufMgr.pinned
  infer_instance

/-- Fetch the pages of a list one after the other with `readPage`, none being released;
`none` when one of the calls throws. -/
def fetchAll : BufMgr → List (FileId × PageId) → Option BufMgr
  | s, [] => some s
  | s, k :: ks =>
    match readPage s k.1 k.2 with
    | (Except.ok _, s1) => fetchAll s1 ks
    | (Except.error _, _) => none

/-- A storage in which page `p` of every file exists and holds the payload `7`. -/
def stubDisk : Disk :=
  { pages := fun _ p => some { page_number := p, data := 7 }
    next := fun _ => 100
    log := [] }

/-- Capacity 2: page 1 of file 1 and page 2 of file 2 have been fetched and are both
pinned, in frames 0 and 1. -/
def bothPinned : BufMgr :=
  (readPage (readPage (BufMgr.new 2 stubDisk) 1 1).2 2 2).2

/-- Capacity 2: page 1 of file 1 is pinned in frame 0; page 2 of file 2 was fetched into
frame 1 and released. -/
def onePinned : BufMgr :=
  (unPinPage bothPinned 2 2 false).2

/-- The state `onePinned` after a fetch of page 3 of file 3 has failed: both reference
flags are clear and the clock hand stands on frame 0. -/
def onePinnedSwept : BufMgr :=
  (readPage onePinned 3 3).2

/-- Capacity 2, pages A = (1, 1), B = (1, 2) and C = (1, 3) of one file: A and B were
fetched, the fetch of C failed, and A was released. -/
def sameFileScenario : BufMgr :=
  (unPinPage (readPage (readPage (readPage (BufMgr.new 2 stubDisk) 1 1).2 1 2).2 1 3).2
    1 1 false).2

/-- The shape of the manager after `n` distinct pages, the ones listed in `keys`, have been
fetched into a fresh manager and none released: frames `0 .. n-1` are pinned, the other
frames are free, and the next advance of the clock hand lands on frame `n`. -/
structure Filled (s : BufMgr) (n : Nat) (keys : List (FileId × PageId)) : Prop where
  inv : Inv s
  le : n ≤ s.numBufs
  pinned : ∀ i, i < n → s.pinned i
  free : ∀ i, n ≤ i → (s.bufDescTable i).valid = false
  hand : n < s.numBufs → (s.clockHand + 1) % s.numBufs = n
  keys : ∀ f p N, s.hashTable f p = some N → (f, p) ∈ keys

/-- Capacity 1: page 1 of file 1 was fetched and released with `markDirty`; it sits in
frame 0, dirty and not pinned. -/
def dirtyReleased : BufMgr :=
  (unPinPage (readPage (BufMgr.new 1 stubDisk) 1 1).2 1 1 true).2

/-- Capacity 3: pages 1 and 2 of file 1 sit in frames 0 and 1, both released; page 1 of
file 2 sits in frame 2, pinned. -/
def twoOfOneFile : BufMgr :=
  (unPinPage (unPinPage (readPage (readPage (readPage (BufMgr.new 3 stubDisk) 1 1).2 1 2).2
    2 1).2 1 1 false).2 1 2 false).2

/-- Capacity 1: page 1 of file 1 was fetched twice and released once with `markDirty`; it
sits in frame 0, dirty, with pin count 1. -/
def dirtyPinned : BufMgr :=
  (unPinPage (readPage (readPage (BufMgr.new 1 stubDisk) 1 1).2 1 1).2 1 1 true).2

/-- Frame `j` stops `flushFile file`: its descriptor names `file` as owner and is invalid or
pinned. -/
def BufMgr.blocks (s : BufMgr) (file : FileId) (j : Nat) : Prop :=
  (s.bufDescTable j).file = file ∧
    ((s.bufDescTable j).valid = false ∨ 0 < (s.bufDescTable j).pinCnt)

instance (s : BufMgr) (file : FileId) (j : Nat) : Decidable (s.blocks file j) := by
  unfold BufMgr.blocks
  infer_instance

/-- The frames below `m` that hold a dirty page of `file`, in increasing order. -/
def dirtyFrames (s : BufMgr) (file : FileId) (m : Nat) : List Nat :=
  (List.range m).filter fun j =>
    decide ((s.bufDescTable j).file = file) && (s.bufDescTable j).valid &&
      (s.bufDescTable j).dirty

/-- The pages `flushFile file` hands to `writePage` while it processes the frames below
`m`, in the order of the calls. -/
def flushWrites (s : BufMgr) (file : FileId) (m : Nat) : List Page :=
  (dirtyFrames s file m).map fun j => s.bufPool (s.bufDescTable j).frameNo

/-- The storage after `writePage` calls for the pages of a list, first to last. -/
def Disk.writeAll (d : Disk) (file : FileId) (pgs : List Page) : Disk :=
  pgs.foldl (fun d1 pg => d1.writePage file pg) d

/-- The state `flushFile file` has reached when it has processed the frames below `m`
without throwing: each such frame that held a page of `file` has been written back if
dirty, removed from the page index and cleared; nothing else has changed. -/
def flushedUpTo (s : BufMgr) (file : FileId) (m : Nat) : BufMgr :=
  { s with
    bufDescTable := fun j =>
      if j < m ∧ (s.bufDescTable j).file = file ∧ (s.bufDescTable j).valid = true then
        (s.bufDescTable j).Clear
      else s.bufDescTable j
    hashTable := fun f p =>
      match s.hashTable f p with
      | some N =>
        if N < m ∧ (s.bufDescTable N).file = file ∧ (s.bufDescTable N).valid = true then none
        else some N
      | none => none
    disk := s.disk.writeAll file (flushWrites s file m) }

/-- The caller overwrites, through the `Page*` it was handed, the contents of a frame. -/
def writeCached (s : BufMgr) (frame : FrameId) (pg : Page) : BufMgr :=
  { s with bufPool := fun j => if j = frame then pg else s.bufPool j }

/-- The `for` loop of the destructor `BufMgr::~BufMgr`: `k` iterations are left, the next
one at frame `i`. -/
def destructorLoop : Nat → FrameId → BufMgr → Except Exc Unit × BufMgr
  | 0, _, s => (Except.ok (), s)
  | k + 1, i, s =>
    if (s.bufDescTable i).dirty = true then
      match flushFile s (s.bufDescTable i).file with
      | (Except.ok _, s1) => destructorLoop k (i + 1) s1
      | (Except.error e, s1) => (Except.error e, s1)
    else destructorLoop k (i + 1) s

/-- The destructor `BufMgr::~BufMgr` up to the release of the pool and of the descriptor
table, which the embedding does not represent. -/
def destroy (s : BufMgr) : Except Exc Unit × BufMgr :=
  destructorLoop s.numBufs 0 s

/-- The round trip through storage: fetch page `P` of file `F`, overwrite the cached
contents with the data `D` under the same page number, release the page as dirty, flush
the file and fetch the page again; the result is the page the last fetch hands back, and
`none` when one of the four calls throws. -/
def roundTrip (s : BufMgr) (F : FileId) (P : PageId) (D : Nat) : Option Page :=
  match readPage s F P with
  | (Except.error _, _) => none
  | (Except.ok f, s1) =>
    match unPinPage (writeCached s1 f { page_number := P, data := D }) F P true with
    | (Except.error _, _) => none
    | (Except.ok _, s3) =>
      match flushFile s3 F with
      | (Except.error _, _) => none
      | (Except.ok _, s4) =>
        match readPage s4 F P with
        | (Except.error _, _) => none
        | (Except.ok g, s5) => some (s5.bufPool g)

/-- A call of `readPage` or of `unPinPage`. -/
inductive Call where
  | read (file : FileId) (pageNo : PageId)
  | unpin (file : FileId) (pageNo : PageId) (dirty : Bool)

/-- Whether an outcome is a normal return rather than an exception. -/
def returned {α : Type} : Except Exc α → Bool
  | Except.ok _ => true
  | Except.error _ => false

/-- The state in which a call leaves the manager. -/
def Call.run (c : Call) (s : BufMgr) : BufMgr :=
  match c with
  | Call.read file pageNo => (readPage s file pageNo).2
  | Call.unpin file pageNo dirty => (unPinPage s file pageNo dirty).2

/-- The call, made in state `s`, is a successful `readPage` of page (`f`, `p`). -/
def Call.fetches (c : Call) (s : BufMgr) (f : FileId) (p : PageId) : Bool :=
  match c with
  | Call.read file pageNo =>
    decide (file = f ∧ pageNo = p) && returned (readPage s file pageNo).1
  | Call.unpin _ _ _ => false

/-- The call, made in state `s`, is a successful `unPinPage` of page (`f`, `p`). -/
def Call.releases (c : Call) (s : BufMgr) (f : FileId) (p : PageId) : Bool :=
  match c with
  | Call.read _ _ => false
  | Call.unpin file pageNo dirty =>
    decide (file = f ∧ pageNo = p) && returned (unPinPage s file pageNo dirty).1

/-- The state after a sequence of calls, made one after the other from `s`. -/
def runCalls : BufMgr → List Call → BufMgr
  | s, [] => s
  | s, c :: cs => runCalls (c.run s) cs

/-- The number of successful `readPage` calls for page (`f`, `p`) in a sequence of calls
made from `s`. -/
def fetchCount : BufMgr → List Call → FileId → PageId → Nat
  | _, [], _, _ => 0
  | s, c :: cs, f, p => (if c.fetches s f p then 1 else 0) + fetchCount (c.run s) cs f p

/-- The number of successful `unPinPage` calls for page (`f`, `p`) in a sequence of calls
made from `s`. -/
def unpinCount : BufMgr → List Call → FileId → PageId → Nat
  | _, [], _, _ => 0
  | s, c :: cs, f, p => (if c.releases s f p then 1 else 0) + unpinCount (c.run s) cs f p

/-- The function `b` gives the pin count of every resident page and is zero at every page
that is not resident. -/
def Balanced (s : BufMgr) (b : FileId → PageId → Nat) : Prop :=
  ∀ f p, (∀ N, s.hashTable f p = some N → (s.bufDescTable N).pinCnt = b f p) ∧
    (s.hashTable f p = none → b f p = 0)

/-- Every page the storage holds bears the page number it is filed under, as in a storage
that pages enter only through `writePage` and `allocatePage`. -/
def Disk.wellFormed (d : Disk) : Prop :=
  ∀ f p pg, d.pages f p = some pg → pg.page_number = p

/-- Every resident frame caches a page that bears the page number of the frame's key. -/
def BufMgr.poolMatches (s : BufMgr) : Prop :=
  ∀ j, (s.bufDescTable j).valid = true →
    (s.bufPool j).page_number = (s.bufDescTable j).pageNo

/-- The states a fresh manager of capacity at least one, over a well-formed storage, can be
brought into by calls of the public operations, whether they return or throw, and by
callers overwriting the data of a cached page while keeping its page number. -/
inductive ReachableWF : BufMgr → Prop where
  | init (bufs : Nat) (disk : Disk) (h : 1 ≤ bufs) (hd : disk.wellFormed) :
      ReachableWF (BufMgr.new bufs disk)
  | readPage (s : BufMgr) (file : FileId) (pageNo : PageId) :
      ReachableWF s → ReachableWF (readPage s file pageNo).2
  | unPinPage (s : BufMgr) (file : FileId) (pageNo : PageId) (dirty : Bool) :
      ReachableWF s → ReachableWF (unPinPage s file pageNo dirty).2
  | flushFile (s : BufMgr) (file : FileId) :
      ReachableWF s → ReachableWF (flushFile s file).2
  | allocPage (s : BufMgr) (file : FileId) :
      ReachableWF s → ReachableWF (allocPage s file).2
  | disposePage (s : BufMgr) (file : FileId) (pageNo : PageId) :
      ReachableWF s → ReachableWF (disposePage s file pageNo).2
  | overwrite (s : BufMgr) (frame : FrameId) (data : Nat) :
      ReachableWF s →
      ReachableWF
        (writeCached s frame { page_number := (s.bufPool frame).page_number, data := data })

/-- The invariant of the states of `ReachableWF`: the representation invariant, a
well-formed storage, and cached pages that bear the page numbers of their keys. -/
structure WF (s : BufMgr) : Prop where
  inv : Inv s
  disk : s.disk.wellFormed
  pool : s.poolMatches

/-- The state of the round trip before its flush: page `P` of file `F` was fetched, the
contents cached in frame `f` were overwritten with the data `D` under page number `P`, and
the page was released with `unPinPage(F, P, true)`. -/
def released (s : BufMgr) (F : FileId) (P : PageId) (D : Nat) (f : FrameId) : BufMgr :=
  (unPinPage (writeCached (readPage s F P).2 f { page_number := P, data := D }) F P true).2

/-- The state of the round trip after its `flushFile(F)`. -/
def flushed (s : BufMgr) (F : FileId) (P : PageId) (D : Nat) (f : FrameId) : BufMgr :=
  (flushFile (released s F P D f) F).2

/-- The round trip from the state `s` went through storage: the first `readPage(F, P)`
returned frame `f`; `unPinPage(F, P, true)` returned, leaving the data `D` cached in `f`,
which is among the dirty frames of `F`; `flushFile(F)` returned, its writes are exactly one
`writePage` per dirty frame of `F` (that of frame `f` among them), after it the storage
holds `D` under `(F, P)` and the page index has no entry for `(F, P)`; so the last
`readPage(F, P)` took its miss branch: `allocBuf` returned frame `g` and left `D` in
storage under `(F, P)`, and the call read the page from storage into frame `g`, entered it
in the page index and returned `g`; the page the round trip hands back holds `D`. -/
structure ThroughStorage (s : BufMgr) (F : FileId) (P : PageId) (D : Nat)
    (f g : FrameId) : Prop where
  fetched : (readPage s F P).1 = Except.ok f
  released_ok :
    (unPinPage (writeCached (readPage s F P).2 f { page_number := P, data := D })
      F P true).1 = Except.ok ()
  cached : (released s F P D f).bufPool f = { page_number := P, data := D }
  dirty : f ∈ dirtyFrames (released s F P D f) F (released s F P D f).numBufs
  flushed_ok : (flushFile (released s F P D f) F).1 = Except.ok ()
  written : (flushed s F P D f).disk.log =
    (released s F P D f).disk.log ++
      (dirtyFrames (released s F P D f) F (released s F P D f).numBufs).map
        (fun j => DiskOp.write F ((released s F P D f).bufPool j))
  stored : (flushed s F P D f).disk.pages F P = some { page_number := P, data := D }
  absent : (flushed s F P D f).hashTable F P = none
  reloaded : ∃ a, allocBuf (flushed s F P D f) = (Except.ok g, a) ∧
    a.disk.pages F P = some { page_number := P, data := D } ∧
    readPage (flushed s F P D f) F P =
      (Except.ok g, install (loadPage a g F P { page_number := P, data := D }) g F P)
  result : roundTrip s F P D = some { page_number := P, data := D }

/-! ## Properties of the loops and of the operations -/

theorem flushFileBody_cases (file : Nat) (i : Nat) (s : BufMgr) :
    ((s.bufDescTable i).file = file ∧ (s.bufDescTable i).valid = true ∧
        0 < (s.bufDescTable i).pinCnt ∧
        flushFileBody file i s = (Except.error Exc.PagePinnedException, s)) ∨
    ((s.bufDescTable i).file = file ∧ (s.bufDescTable i).valid = true ∧
        (s.bufDescTable i).pinCnt = 0 ∧
        s.hashTable (s.bufDescTable i).file (s.bufDescTable i).pageNo = none ∧
        flushFileBody file i s = (Except.error Exc.HashNotFoundException, writeBack s i)) ∨
    ((s.bufDescTable i).file = file ∧ (s.bufDescTable i).valid = true ∧
        (s.bufDescTable i).pinCnt = 0 ∧
        (∃ N, s.hashTable (s.bufDescTable i).file (s.bufDescTable i).pageNo = some N) ∧
        flushFileBody file i s = (Except.ok (), evictFrame s i)) ∨
    ((s.bufDescTable i).file = file ∧ (s.bufDescTable i).valid = false ∧
        flushFileBody file i s = (Except.error Exc.BadBufferException, s)) ∨
    ((s.bufDescTable i).file ≠ file ∧ flushFileBody file i s = (Except.ok (), s)) := by
  by_cases hf : (s.bufDescTable i).file = file
  · subst hf
    by_cases hv : (s.bufDescTable i).valid = true
    · by_cases hp : 0 < (s.bufDescTable i).pinCnt
      · left
        refine ⟨rfl, hv, hp, ?_⟩
        simp [flushFileBody, hv, hp]
      · have hp0 : (s.bufDescTable i).pinCnt = 0 := by omega
        right
        cases hh : s.hashTable (s.bufDescTable i).file (s.bufDescTable i).pageNo with
        | none =>
          left
          refine ⟨rfl, hv, hp0, rfl, ?_⟩
          by_cases hd : (s.bufDescTable i).dirty = true
          · simp [flushFileBody, hv, hp0, writeBack, hd, BufHashTbl.remove, BufMgr.setDesc,
              hh]
          · simp [flushFileBody, hv, hp0, writeBack, hd, BufHashTbl.remove, BufMgr.setDesc,
              hh]
        | some N =>
          right; left
          refine ⟨rfl, hv, hp0, ⟨N, rfl⟩, ?_⟩
          by_cases hd : (s.bufDescTable i).dirty = true
          · simp [flushFileBody, hv, hp0, writeBack, evictFrame, hd, BufHashTbl.remove,
              BufMgr.setDesc, hh, BufDesc.Clear]
            funext j
            by_cases hj : j = i <;> simp [hj]
          · simp [flushFileBody, hv, hp0, writeBack, evictFrame, hd, BufHashTbl.remove,
              BufMgr.setDesc, hh]
    · right; right; right; left
      have hv0 : (s.bufDescTable i).valid = false := by simpa using hv
      refine ⟨rfl, hv0, ?_⟩
      simp [flushFileBody, hv0]
  · right; right; right; right
    refine ⟨hf, ?_⟩
    simp [flushFileBody, hf]

theorem Inv.valid_lt {s : BufMgr} (h : Inv s) {i : Nat}
    (hv : (s.bufDescTable i).valid = true) : i < s.numBufs := by
  by_contra hlt
  have := h.outside i (Nat.le_of_not_lt hlt)
  simp [hv] at this

theorem Inv.lookup_of_valid {s : BufMgr} (h : Inv s) {i : Nat}
    (hv : (s.bufDescTable i).valid = true) :
    s.hashTable (s.bufDescTable i).file (s.bufDescTable i).pageNo = some i :=
  (h.index _ _ i).2 ⟨h.valid_lt hv, hv, rfl, rfl⟩

theorem Sweep.sweep_refl {s : BufMgr} (h : Inv s) : Sweep s s where
  numBufs := rfl
  pool := rfl
  desc := fun _ => Or.inl ⟨rfl, fun h => h⟩
  hash := fun f p N => ⟨fun hN => ⟨hN, ((h.index f p N).1 hN).2.1⟩, fun hN => hN.1⟩

theorem Sweep.valid_mono {s s' : BufMgr} (h : Sweep s s') {i : Nat}
    (hv : (s'.bufDescTable i).valid = true) :
    (s.bufDescTable i).valid = true ∧ (s'.bufDescTable i).file = (s.bufDescTable i).file ∧
      (s'.bufDescTable i).pageNo = (s.bufDescTable i).pageNo ∧
      (s'.bufDescTable i).pinCnt = (s.bufDescTable i).pinCnt ∧
      (s'.bufDescTable i).dirty = (s.bufDescTable i).dirty := by
  rcases h.desc i with ⟨h1, _⟩ | ⟨_, _, h3⟩
  · rw [h1] at hv ⊢
    exact ⟨hv, rfl, rfl, rfl, rfl⟩
  · rw [h3] at hv
    simp [BufDesc.Clear] at hv

theorem Sweep.sweep_trans {s s1 s2 : BufMgr} (h1 : Sweep s s1) (h2 : Sweep s1 s2) : Sweep s s2 where
  numBufs := h2.numBufs.trans h1.numBufs
  pool := h2.pool.trans h1.pool
  desc := by
    intro i
    rcases h2.desc i with ⟨a2, b2⟩ | ⟨v2, p2, c2⟩
    · rcases h1.desc i with ⟨a1, b1⟩ | ⟨v1, p1, c1⟩
      · left
        refine ⟨?_, fun hr => b1 (b2 hr)⟩
        rw [a2, a1]
      · right
        refine ⟨v1, p1, ?_⟩
        have hr : (s2.bufDescTable i).refbit = false := by
          cases hb : (s2.bufDescTable i).refbit with
          | false => rfl
          | true =>
            have := b2 hb
            rw [c1] at this
            simp [BufDesc.Clear] at this
        rw [a2, hr, c1]
        simp [BufDesc.Clear]
    · rcases h1.desc i with ⟨a1, _⟩ | ⟨_, _, c1⟩
      · right
        rw [a1] at v2 p2
        refine ⟨v2, p2, ?_⟩
        rw [c2, a1]
        simp [BufDesc.Clear]
      · rw [c1] at v2
        simp [BufDesc.Clear] at v2
  hash := by
    intro f p N
    rw [h2.hash, h1.hash]
    constructor
    · rintro ⟨⟨a, _⟩, c⟩
      exact ⟨a, c⟩
    · rintro ⟨a, c⟩
      exact ⟨⟨a, (h2.valid_mono c).1⟩, c⟩

@[simp] theorem writeBack_numBufs (s : BufMgr) (i : Nat) :
    (writeBack s i).numBufs = s.numBufs := by
  unfold writeBack; split <;> rfl

@[simp] theorem writeBack_clockHand (s : BufMgr) (i : Nat) :
    (writeBack s i).clockHand = s.clockHand := by
  unfold writeBack; split <;> rfl

@[simp] theorem writeBack_bufPool (s : BufMgr) (i : Nat) :
    (writeBack s i).bufPool = s.bufPool := by
  unfold writeBack; split <;> rfl

@[simp] theorem writeBack_hashTable (s : BufMgr) (i : Nat) :
    (writeBack s i).hashTable = s.hashTable := by
  unfold writeBack; split <;> rfl

@[simp] theorem evictFrame_numBufs (s : BufMgr) (i : Nat) :
    (evictFrame s i).numBufs = s.numBufs := by
  simp [evictFrame]

@[simp] theorem evictFrame_clockHand (s : BufMgr) (i : Nat) :
    (evictFrame s i).clockHand = s.clockHand := by
  simp [evictFrame]

@[simp] theorem evictFrame_bufPool (s : BufMgr) (i : Nat) :
    (evictFrame s i).bufPool = s.bufPool := by
  simp [evictFrame]

theorem evictFrame_desc (s : BufMgr) (i j : Nat) :
    (evictFrame s i).bufDescTable j =
      if j = i then (s.bufDescTable i).Clear else s.bufDescTable j := rfl

theorem evictFrame_hash (s : BufMgr) (i : Nat) (f : Nat) (p : Nat) :
    (evictFrame s i).hashTable f p =
      if f = (s.bufDescTable i).file ∧ p = (s.bufDescTable i).pageNo then none
      else s.hashTable f p := rfl

theorem evictFrame_Inv {s : BufMgr} (h : Inv s) {i : Nat}
    (hv : (s.bufDescTable i).valid = true) : Inv (evictFrame s i) where
  cap := by simpa using h.cap
  hand := by simpa using h.hand
  frameNo := by
    intro j
    rw [evictFrame_desc]
    split
    · next hj => subst hj; simpa [BufDesc.Clear] using h.frameNo j
    · exact h.frameNo j
  empty := by
    intro j
    rw [evictFrame_desc]
    split
    · next hj =>
      subst hj
      intro _
      simp [BufDesc.Clear, BufDesc.empty, h.frameNo j]
    · exact h.empty j
  outside := by
    intro j hj
    rw [evictFrame_desc]
    split
    · simp [BufDesc.Clear]
    · exact h.outside j (by simpa using hj)
  index := by
    intro f p N
    rw [evictFrame_hash, evictFrame_desc, evictFrame_numBufs]
    by_cases hk : f = (s.bufDescTable i).file ∧ p = (s.bufDescTable i).pageNo
    · rw [if_pos hk]
      constructor
      · intro hc; cases hc
      · rintro ⟨hN, hv', hf, hp⟩
        by_cases hNi : N = i
        · rw [if_pos hNi] at hv'
          simp [BufDesc.Clear] at hv'
        · rw [if_neg hNi] at hv' hf hp
          have h1 := (h.index f p N).2 ⟨hN, hv', hf, hp⟩
          have h2 := h.lookup_of_valid hv
          rw [← hk.1, ← hk.2, h1] at h2
          exact absurd (Option.some.inj h2) hNi
    · rw [if_neg hk, h.index]
      by_cases hNi : N = i
      · subst hNi
        rw [if_pos rfl]
        constructor
        · rintro ⟨_, _, hf, hp⟩
          exact absurd ⟨hf.symm, hp.symm⟩ hk
        · rintro ⟨_, hv', _, _⟩
          simp [BufDesc.Clear] at hv'
      · rw [if_neg hNi]

theorem evictFrame_Sweep {s : BufMgr} (h : Inv s) {i : Nat}
    (hv : (s.bufDescTable i).valid = true) (hp : (s.bufDescTable i).pinCnt = 0) :
    Sweep s (evictFrame s i) where
  numBufs := by simp
  pool := by simp
  desc := by
    intro j
    rw [evictFrame_desc]
    by_cases hj : j = i
    · subst hj
      right
      exact ⟨hv, hp, by simp⟩
    · left
      simp [hj]
  hash := by
    intro f p N
    rw [evictFrame_hash, evictFrame_desc]
    by_cases hk : f = (s.bufDescTable i).file ∧ p = (s.bufDescTable i).pageNo
    · rw [if_pos hk]
      constructor
      · intro hc; cases hc
      · rintro ⟨h1, hv'⟩
        have h2 := h.lookup_of_valid hv
        rw [← hk.1, ← hk.2, h1] at h2
        have hNi : N = i := Option.some.inj h2
        rw [if_pos hNi] at hv'
        simp [BufDesc.Clear] at hv'
    · rw [if_neg hk]
      constructor
      · intro h1
        refine ⟨h1, ?_⟩
        have h3 := (h.index f p N).1 h1
        by_cases hNi : N = i
        · subst hNi
          exact absurd ⟨h3.2.2.1.symm, h3.2.2.2.symm⟩ hk
        · rw [if_neg hNi]
          exact h3.2.1
      · exact fun h1 => h1.1

theorem flushFileBody_sound {s s' : BufMgr} {file : Nat} {i : Nat}
    {r : Except Exc Unit} (h : Inv s) (hb : flushFileBody file i s = (r, s')) :
    Inv s' ∧ Sweep s s' ∧ s'.clockHand = s.clockHand ∧
      (∀ j, j ≠ i → s'.bufDescTable j = s.bufDescTable j) ∧
      (r = Except.ok () → (s.bufDescTable i).file = file →
        (s'.bufDescTable i).valid = false) := by
  rcases flushFileBody_cases file i s with ⟨_, _, _, e⟩ | ⟨_, hv, _, hn, _⟩ |
      ⟨_, hv, hp, _, e⟩ | ⟨_, _, e⟩ | ⟨hf, e⟩
  · rw [e] at hb
    cases hb
    exact ⟨h, Sweep.sweep_refl h, rfl, fun _ _ => rfl, fun hr => by cases hr⟩
  · rw [h.lookup_of_valid hv] at hn
    cases hn
  · rw [e] at hb
    cases hb
    refine ⟨evictFrame_Inv h hv, evictFrame_Sweep h hv hp, by simp, ?_, ?_⟩
    · intro j hj
      simp [evictFrame_desc, hj]
    · intro _ _
      simp [evictFrame_desc, BufDesc.Clear]
  · rw [e] at hb
    cases hb
    exact ⟨h, Sweep.sweep_refl h, rfl, fun _ _ => rfl, fun hr => by cases hr⟩
  · rw [e] at hb
    cases hb
    exact ⟨h, Sweep.sweep_refl h, rfl, fun _ _ => rfl, fun _ hf' => absurd hf' hf⟩

theorem flushFileLoop_sound {file : Nat} (k : Nat) :
    ∀ (i : Nat) (s s' : BufMgr) (r : Except Exc Unit), Inv s →
      flushFileLoop file k i s = (r, s') →
      Inv s' ∧ Sweep s s' ∧ s'.clockHand = s.clockHand ∧
        (∀ j, j < i → s'.bufDescTable j = s.bufDescTable j) ∧
        (r = Except.ok () → ∀ j, i ≤ j → j < i + k → (s.bufDescTable j).file = file →
          (s'.bufDescTable j).valid = false) := by
  induction k with
  | zero =>
    intro i s s' r h hl
    simp only [flushFileLoop] at hl
    cases hl
    exact ⟨h, Sweep.sweep_refl h, rfl, fun _ _ => rfl, fun _ j h1 h2 => by omega⟩
  | succ k ih =>
    intro i s s' r h hl
    simp only [flushFileLoop] at hl
    cases hb : flushFileBody file i s with
    | mk r1 s1 =>
      obtain ⟨hI1, hS1, hc1, hd1, hv1⟩ := flushFileBody_sound h hb
      rw [hb] at hl
      cases r1 with
      | error e =>
        simp only at hl
        cases hl
        exact ⟨hI1, hS1, hc1, fun j hj => hd1 j (by omega), fun hr => by cases hr⟩
      | ok u =>
        simp only at hl
        obtain ⟨hI2, hS2, hc2, hd2, hv2⟩ := ih (i + 1) s1 s' r hI1 hl
        refine ⟨hI2, hS1.sweep_trans hS2, hc2.trans hc1, ?_, ?_⟩
        · intro j hj
          rw [hd2 j (by omega), hd1 j (by omega)]
        · intro hr j hij hjk hf
          by_cases hji : j = i
          · subst hji
            have hinv : (s1.bufDescTable j).valid = false := hv1 rfl hf
            cases hvv : (s'.bufDescTable j).valid with
            | false => rfl
            | true =>
              have := (hS2.valid_mono hvv).1
              rw [hinv] at this
              cases this
          · apply hv2 hr j (by omega) (by omega)
            rw [hd1 j hji]
            exact hf

theorem flushFile_sound {s s' : BufMgr} {file : Nat} {r : Except Exc Unit} (h : Inv s)
    (hf : flushFile s file = (r, s')) :
    Inv s' ∧ Sweep s s' ∧ s'.clockHand = s.clockHand ∧
      (r = Except.ok () → ∀ j, j < s.numBufs → (s.bufDescTable j).file = file →
        (s'.bufDescTable j).valid = false) := by
  obtain ⟨h1, h2, h3, _, h5⟩ := flushFileLoop_sound s.numBufs 0 s s' r h hf
  exact ⟨h1, h2, h3, fun hr j hj hfile => h5 hr j (Nat.zero_le j) (by omega) hfile⟩

theorem RefCleared.rc_refl (s : BufMgr) : RefCleared s s where
  numBufs := rfl
  pool := rfl
  hash := rfl
  disk := rfl
  hand := fun _ h => h
  desc := fun _ => ⟨rfl, fun h => h⟩

theorem RefCleared.rc_trans {s s1 s2 : BufMgr} (h1 : RefCleared s s1) (h2 : RefCleared s1 s2) :
    RefCleared s s2 where
  numBufs := h2.numBufs.trans h1.numBufs
  pool := h2.pool.trans h1.pool
  hash := h2.hash.trans h1.hash
  disk := h2.disk.trans h1.disk
  hand := fun hc hh => h2.hand (by rw [h1.numBufs]; exact hc)
    (by rw [h1.numBufs]; exact h1.hand hc hh) |> fun h => by rw [h1.numBufs] at h; exact h
  desc := by
    intro i
    obtain ⟨a1, b1⟩ := h1.desc i
    obtain ⟨a2, b2⟩ := h2.desc i
    refine ⟨?_, fun hr => b1 (b2 hr)⟩
    rw [a2, a1]

theorem RefCleared.advance (s : BufMgr) (hc : 0 < s.numBufs) :
    RefCleared s (advanceClock s) where
  numBufs := rfl
  pool := rfl
  hash := rfl
  disk := rfl
  hand := fun _ _ => Nat.mod_lt _ hc
  desc := fun _ => ⟨rfl, fun h => h⟩

theorem RefCleared.clearRef (s : BufMgr) (i : Nat) :
    RefCleared s (s.setDesc i { s.bufDescTable i with refbit := false }) where
  numBufs := rfl
  pool := rfl
  hash := rfl
  disk := rfl
  hand := fun _ h => h
  desc := by
    intro j
    by_cases hj : j = i
    · subst hj
      simp [BufMgr.setDesc]
    · simp [BufMgr.setDesc, hj]

theorem RefCleared.keeps_inv {s s' : BufMgr} (h : Inv s) (hr : RefCleared s s') : Inv s' where
  cap := by rw [hr.numBufs]; exact h.cap
  hand := by rw [hr.numBufs]; exact hr.hand h.cap h.hand
  frameNo := by
    intro i
    rw [(hr.desc i).1]
    exact h.frameNo i
  empty := by
    intro i hv
    have hd := (hr.desc i).1
    rw [hd] at hv
    have he := h.empty i hv
    have hb : (s'.bufDescTable i).refbit = false := by
      cases hb : (s'.bufDescTable i).refbit with
      | false => rfl
      | true =>
        have := (hr.desc i).2 hb
        rw [he] at this
        simp [BufDesc.empty] at this
    rw [hd, hb, he]
    rfl
  outside := by
    intro i hi
    rw [(hr.desc i).1]
    exact h.outside i (by rw [← hr.numBufs]; exact hi)
  index := by
    intro f p N
    rw [hr.hash, hr.numBufs, h.index, (hr.desc N).1]

theorem RefCleared.sweep {s s' : BufMgr} (h : Inv s) (hr : RefCleared s s') : Sweep s s' where
  numBufs := hr.numBufs
  pool := hr.pool
  desc := fun i => Or.inl (hr.desc i)
  hash := by
    intro f p N
    rw [hr.hash]
    constructor
    · intro hN
      refine ⟨hN, ?_⟩
      rw [(hr.desc N).1]
      exact ((h.index f p N).1 hN).2.1
    · exact fun hN => hN.1

theorem allocBufBody_cases (s : BufMgr) :
    ((((advanceClock s).bufDescTable (advanceClock s).clockHand).valid = false ∧
        allocBufBody s = (Except.ok true, advanceClock s)) ∨
      (((advanceClock s).bufDescTable (advanceClock s).clockHand).valid = true ∧
        ((advanceClock s).bufDescTable (advanceClock s).clockHand).refbit = true ∧
        allocBufBody s = (Except.ok false, (advanceClock s).setDesc (advanceClock s).clockHand
          { (advanceClock s).bufDescTable (advanceClock s).clockHand with refbit := false })) ∨
      (((advanceClock s).bufDescTable (advanceClock s).clockHand).valid = true ∧
        ((advanceClock s).bufDescTable (advanceClock s).clockHand).refbit = false ∧
        0 < ((advanceClock s).bufDescTable (advanceClock s).clockHand).pinCnt ∧
        allocBufBody s = (Except.ok false, advanceClock s)) ∨
      (((advanceClock s).bufDescTable (advanceClock s).clockHand).valid = true ∧
        ((advanceClock s).bufDescTable (advanceClock s).clockHand).refbit = false ∧
        ((advanceClock s).bufDescTable (advanceClock s).clockHand).pinCnt = 0 ∧
        allocBufBody s = foundAfterFlush (flushFile (advanceClock s)
          ((advanceClock s).bufDescTable (advanceClock s).clockHand).file))) := by
  cases hv : ((advanceClock s).bufDescTable (advanceClock s).clockHand).valid with
  | false =>
    left
    exact ⟨rfl, by simp [allocBufBody, hv]⟩
  | true =>
    right
    cases hr : ((advanceClock s).bufDescTable (advanceClock s).clockHand).refbit with
    | true =>
      left
      exact ⟨rfl, rfl, by simp [allocBufBody, hv, hr]⟩
    | false =>
      right
      by_cases hp : 0 < ((advanceClock s).bufDescTable (advanceClock s).clockHand).pinCnt
      · left
        exact ⟨rfl, rfl, hp, by simp [allocBufBody, hv, hr, hp]⟩
      · right
        have hp0 : ((advanceClock s).bufDescTable (advanceClock s).clockHand).pinCnt = 0 := by
          omega
        refine ⟨rfl, rfl, hp0, ?_⟩
        simp only [allocBufBody, hv, hr, hp0, foundAfterFlush]
        simp

/-- How a run of the `allocBuf` loop ends: after a sweep that only moved the clock hand and
cleared reference flags, reaching the state `s1`, the loop either ran out of iterations, or
met an invalid frame, or met a valid frame with reference flag clear and pin count zero and
called `flushFile` on its file. -/
theorem allocBufLoop_cases (k : Nat) :
    ∀ (s s' : BufMgr) (r : Except Exc Bool), 0 < s.numBufs → allocBufLoop k s = (r, s') →
      ∃ s1, RefCleared s s1 ∧
        ((r = Except.ok false ∧ s' = s1) ∨
         (r = Except.ok true ∧ s' = s1 ∧ (s1.bufDescTable s1.clockHand).valid = false) ∨
         ((s1.bufDescTable s1.clockHand).valid = true ∧
           (s1.bufDescTable s1.clockHand).refbit = false ∧
           (s1.bufDescTable s1.clockHand).pinCnt = 0 ∧
           (r, s') = foundAfterFlush (flushFile s1 (s1.bufDescTable s1.clockHand).file))) := by
  induction k with
  | zero =>
    intro s s' r _ hl
    simp only [allocBufLoop] at hl
    cases hl
    exact ⟨s, RefCleared.rc_refl s, Or.inl ⟨rfl, rfl⟩⟩
  | succ k ih =>
    intro s s' r hc hl
    simp only [allocBufLoop] at hl
    rcases allocBufBody_cases s with ⟨hv, e⟩ | ⟨_, _, e⟩ | ⟨_, _, _, e⟩ | ⟨hv, hr, hp, e⟩
    · rw [e] at hl
      cases hl
      exact ⟨advanceClock s, RefCleared.advance s hc, Or.inr (Or.inl ⟨rfl, rfl, hv⟩)⟩
    · rw [e] at hl
      simp only at hl
      have hR : RefCleared s ((advanceClock s).setDesc (advanceClock s).clockHand
          { (advanceClock s).bufDescTable (advanceClock s).clockHand with refbit := false }) :=
        (RefCleared.advance s hc).rc_trans (RefCleared.clearRef _ _)
      obtain ⟨s1, h1, h2⟩ := ih _ s' r (by rw [hR.numBufs]; exact hc) hl
      exact ⟨s1, hR.rc_trans h1, h2⟩
    · rw [e] at hl
      simp only at hl
      obtain ⟨s1, h1, h2⟩ := ih (advanceClock s) s' r hc hl
      exact ⟨s1, (RefCleared.advance s hc).rc_trans h1, h2⟩
    · refine ⟨advanceClock s, RefCleared.advance s hc, Or.inr (Or.inr ⟨hv, hr, hp, ?_⟩)⟩
      rw [e] at hl
      cases hx : flushFile (advanceClock s)
          ((advanceClock s).bufDescTable (advanceClock s).clockHand).file with
      | mk r1 s2 =>
        rw [hx] at hl
        cases r1 with
        | error e1 =>
          simp only [foundAfterFlush] at hl ⊢
          exact hl.symm
        | ok u =>
          simp only [foundAfterFlush] at hl ⊢
          exact hl.symm

theorem allocBufLoop_sound {k : Nat} {s s' : BufMgr} {r : Except Exc Bool} (h : Inv s)
    (hl : allocBufLoop k s = (r, s')) :
    Inv s' ∧ Sweep s s' ∧
      (r = Except.ok true → (s'.bufDescTable s'.clockHand).valid = false) := by
  obtain ⟨s1, hR, hc⟩ := allocBufLoop_cases k s s' r h.cap hl
  have hI1 : Inv s1 := hR.keeps_inv h
  rcases hc with ⟨hr, hs⟩ | ⟨_, hs, hv⟩ | ⟨hv, _, _, hx⟩
  · subst hs
    subst hr
    exact ⟨hI1, hR.sweep h, fun hc => by cases hc⟩
  · subst hs
    exact ⟨hI1, hR.sweep h, fun _ => hv⟩
  · cases hf : flushFile s1 (s1.bufDescTable s1.clockHand).file with
    | mk r1 s2 =>
      obtain ⟨hI2, hS2, hh2, hv2⟩ := flushFile_sound hI1 hf
      rw [hf] at hx
      cases r1 with
      | error e1 =>
        simp only [foundAfterFlush] at hx
        cases hx
        exact ⟨hI2, (hR.sweep h).sweep_trans hS2, fun hc => by cases hc⟩
      | ok u =>
        simp only [foundAfterFlush] at hx
        cases hx
        refine ⟨hI2, (hR.sweep h).sweep_trans hS2, fun _ => ?_⟩
        rw [hh2]
        exact hv2 rfl _ hI1.hand rfl

theorem setDesc_Clear_of_invalid {s : BufMgr} (h : Inv s) {i : Nat}
    (hv : (s.bufDescTable i).valid = false) : s.setDesc i (s.bufDescTable i).Clear = s := by
  have he := h.empty i hv
  have : (s.bufDescTable i).Clear = s.bufDescTable i := by
    rw [he]; rfl
  rw [this]
  cases s
  simp only [BufMgr.setDesc, BufMgr.mk.injEq, and_true, true_and]
  funext j
  by_cases hj : j = i
  · simp [hj]
  · simp [hj]

theorem allocBuf_sound {s s' : BufMgr} {r : Except Exc Nat} (h : Inv s)
    (ha : allocBuf s = (r, s')) :
    Inv s' ∧ Sweep s s' ∧
      (∀ f, r = Except.ok f →
        f = s'.clockHand ∧ f < s.numBufs ∧ (s'.bufDescTable f).valid = false) := by
  unfold allocBuf at ha
  cases hl : allocBufLoop (s.numBufs + 1) s with
  | mk r1 s1 =>
    obtain ⟨hI, hS, hv⟩ := allocBufLoop_sound h hl
    rw [hl] at ha
    cases r1 with
    | error e =>
      simp only at ha
      cases ha
      exact ⟨hI, hS, fun f hf => by cases hf⟩
    | ok b =>
      cases b with
      | false =>
        simp only at ha
        cases ha
        exact ⟨hI, hS, fun f hf => by cases hf⟩
      | true =>
        simp only at ha
        rw [setDesc_Clear_of_invalid hI (hv rfl)] at ha
        cases ha
        refine ⟨hI, hS, fun f hf => ?_⟩
        cases hf
        exact ⟨rfl, by rw [← hS.numBufs]; exact hI.hand, hv rfl⟩

theorem Inv.congr {s s' : BufMgr} (h : Inv s) (h1 : s'.numBufs = s.numBufs)
    (h2 : s'.clockHand = s.clockHand) (h3 : s'.bufDescTable = s.bufDescTable)
    (h4 : s'.hashTable = s.hashTable) : Inv s' where
  cap := by rw [h1]; exact h.cap
  hand := by rw [h1, h2]; exact h.hand
  frameNo := by rw [h3]; exact h.frameNo
  empty := by rw [h3]; exact h.empty
  outside := by rw [h1, h3]; exact h.outside
  index := by rw [h1, h3, h4]; exact h.index

theorem Sweep.kept {s s' : BufMgr} (h : Inv s) (hS : Sweep s s') {i : Nat}
    (hp : s.pinned i) : Kept s s' i ∧ s'.pinned i := by
  obtain ⟨hv, hpin⟩ := hp
  rcases hS.desc i with ⟨a, _⟩ | ⟨_, p0, _⟩
  · have hv' : (s'.bufDescTable i).valid = true := by rw [a]; exact hv
    refine ⟨⟨hv', by rw [a], by rw [a], by rw [hS.pool], ?_⟩, hv', by rw [a]; exact hpin⟩
    exact (hS.hash _ _ i).2 ⟨h.lookup_of_valid hv, hv'⟩
  · omega

theorem Sweep.lookup_none {s s' : BufMgr} (hS : Sweep s s') {f p : Nat}
    (hn : s.hashTable f p = none) : s'.hashTable f p = none := by
  cases hh : s'.hashTable f p with
  | none => rfl
  | some N =>
    have := ((hS.hash f p N).1 hh).1
    rw [hn] at this
    cases this

theorem BufMgr.new_Inv (bufs : Nat) (disk : Disk) (h : 1 ≤ bufs) :
    Inv (BufMgr.new bufs disk) where
  cap := h
  hand := Nat.sub_lt h Nat.one_pos
  frameNo := fun _ => rfl
  empty := fun _ _ => rfl
  outside := fun _ _ => rfl
  index := by
    intro f p N
    simp [BufMgr.new]

/-- Replacing a valid descriptor by one with the same identity keeps the invariant. -/
theorem Inv.setDesc_same {s : BufMgr} (h : Inv s) {i : Nat} {d : BufDesc}
    (hv : (s.bufDescTable i).valid = true) (hv' : d.valid = true)
    (hf : d.file = (s.bufDescTable i).file) (hp : d.pageNo = (s.bufDescTable i).pageNo)
    (hn : d.frameNo = (s.bufDescTable i).frameNo) : Inv (s.setDesc i d) where
  cap := h.cap
  hand := h.hand
  frameNo := by
    intro j
    by_cases hj : j = i
    · subst hj
      simpa [BufMgr.setDesc, hn] using h.frameNo j
    · simpa [BufMgr.setDesc, hj] using h.frameNo j
  empty := by
    intro j
    by_cases hj : j = i
    · subst hj
      simp [BufMgr.setDesc, hv']
    · simpa [BufMgr.setDesc, hj] using h.empty j
  outside := by
    intro j hj
    have hji : j ≠ i := by
      intro hji
      subst hji
      have := h.valid_lt hv
      have hj' : s.numBufs ≤ j := hj
      omega
    simpa [BufMgr.setDesc, hji] using h.outside j hj
  index := by
    intro f p N
    have := h.index f p N
    by_cases hj : N = i
    · subst hj
      simpa [BufMgr.setDesc, hv', hf, hp, hv] using this
    · simpa [BufMgr.setDesc, hj] using this

theorem install_Inv {s : BufMgr} (h : Inv s) {frame file pageNo : Nat}
    (hlt : frame < s.numBufs) (hv : (s.bufDescTable frame).valid = false)
    (hn : s.hashTable file pageNo = none) : Inv (install s frame file pageNo) where
  cap := h.cap
  hand := h.hand
  frameNo := by
    intro j
    by_cases hj : j = frame
    · subst hj
      simpa [install, BufDesc.Set] using h.frameNo j
    · simpa [install, hj] using h.frameNo j
  empty := by
    intro j
    by_cases hj : j = frame
    · subst hj
      simp [install, BufDesc.Set]
    · simpa [install, hj] using h.empty j
  outside := by
    intro j hj
    have hj' : s.numBufs ≤ j := hj
    have hji : j ≠ frame := by omega
    simpa [install, hji] using h.outside j hj'
  index := by
    intro f p N
    by_cases hk : f = file ∧ p = pageNo
    · obtain ⟨rfl, rfl⟩ := hk
      by_cases hN : N = frame
      · subst hN
        simp [install, BufDesc.Set, hlt]
      · have h1 : ¬ (N < s.numBufs ∧ (s.bufDescTable N).valid = true ∧
            (s.bufDescTable N).file = f ∧ (s.bufDescTable N).pageNo = p) := by
          intro hc
          rw [(h.index f p N).2 hc] at hn
          cases hn
        have hN' : frame ≠ N := fun e => hN e.symm
        simpa [install, hN, hN'] using h1
    · by_cases hN : N = frame
      · subst hN
        have h1 := h.index f p N
        rw [hv] at h1
        have h2 : s.hashTable f p ≠ some N := by
          intro hc
          have := h1.1 hc
          simp at this
        have hk' : ¬ (file = f ∧ pageNo = p) := fun e => hk ⟨e.1.symm, e.2.symm⟩
        simp [install, BufDesc.Set, hk, h2, hk']
      · simpa [install, hk, hN] using h.index f p N

theorem install_kept {s : BufMgr} (h : Inv s) {frame file pageNo i : Nat}
    (hv : (s.bufDescTable frame).valid = false)
    (hn : s.hashTable file pageNo = none) (hi : (s.bufDescTable i).valid = true) :
    Kept s (install s frame file pageNo) i := by
  have hne : i ≠ frame := by
    intro e
    subst e
    rw [hv] at hi
    cases hi
  have hl := h.lookup_of_valid hi
  have hk : ¬ ((s.bufDescTable i).file = file ∧ (s.bufDescTable i).pageNo = pageNo) := by
    rintro ⟨e1, e2⟩
    rw [e1, e2, hn] at hl
    cases hl
  refine ⟨?_, ?_, ?_, rfl, ?_⟩
  · simpa [install, hne] using hi
  · simp [install, hne]
  · simp [install, hne]
  · simpa [install, hk] using hl

theorem readPage_hit {s : BufMgr} {file pageNo frame : Nat}
    (hh : s.hashTable file pageNo = some frame) :
    readPage s file pageNo =
      (Except.ok frame, s.setDesc frame { s.bufDescTable frame with
        refbit := true, pinCnt := (s.bufDescTable frame).pinCnt + 1 }) := by
  simp [readPage, BufHashTbl.lookup, hh]

theorem readPage_miss_fail {s s1 : BufMgr} {file pageNo : Nat} {e : Exc}
    (hh : s.hashTable file pageNo = none) (ha : allocBuf s = (Except.error e, s1)) :
    readPage s file pageNo = (Except.error e, s1) := by
  simp [readPage, BufHashTbl.lookup, hh, ha]

theorem readPage_miss_noPage {s s1 : BufMgr} {file pageNo frame : Nat}
    (hh : s.hashTable file pageNo = none) (ha : allocBuf s = (Except.ok frame, s1))
    (hd : s1.disk.pages file pageNo = none) :
    readPage s file pageNo =
      (Except.error Exc.InvalidPageException,
        { s1 with disk := (s1.disk.readPage file pageNo).2 }) := by
  simp [readPage, BufHashTbl.lookup, hh, ha, Disk.readPage, hd]

theorem readPage_miss_ok {s s1 : BufMgr} {file pageNo frame : Nat} {pg : Page}
    (hh : s.hashTable file pageNo = none) (ha : allocBuf s = (Except.ok frame, s1))
    (hd : s1.disk.pages file pageNo = some pg) (hn : s1.hashTable file pageNo = none) :
    readPage s file pageNo =
      (Except.ok frame, install (loadPage s1 frame file pageNo pg) frame file pageNo) := by
  simp [readPage, BufHashTbl.lookup, hh, ha, Disk.readPage, hd, BufHashTbl.insert, hn,
    install, loadPage, BufMgr.setDesc]

theorem readPage_miss_dup {s s1 : BufMgr} {file pageNo frame N : Nat} {pg : Page}
    (hh : s.hashTable file pageNo = none) (ha : allocBuf s = (Except.ok frame, s1))
    (hd : s1.disk.pages file pageNo = some pg) (hn : s1.hashTable file pageNo = some N) :
    readPage s file pageNo =
      (Except.error Exc.HashAlreadyPresentException, loadPage s1 frame file pageNo pg) := by
  simp [readPage, BufHashTbl.lookup, hh, ha, Disk.readPage, hd, BufHashTbl.insert, hn,
    loadPage]

theorem allocPage_fail {s s1 : BufMgr} {file : Nat} {e : Exc}
    (ha : allocBuf (afterAllocate s file) = (Except.error e, s1)) :
    allocPage s file = (Except.error e, s1) := by
  simp only [afterAllocate] at ha
  simp [allocPage, ha]

theorem allocPage_ok {s s1 : BufMgr} {file frame : Nat}
    (ha : allocBuf (afterAllocate s file) = (Except.ok frame, s1))
    (hn : s1.hashTable file (s.disk.allocatePage file).1.page_number = none) :
    allocPage s file =
      (Except.ok ((s.disk.allocatePage file).1.page_number, frame),
        install (storePage s1 frame (s.disk.allocatePage file).1) frame file
          (s.disk.allocatePage file).1.page_number) := by
  simp only [afterAllocate] at ha
  simp [allocPage, ha, BufHashTbl.insert, hn, install, storePage, BufMgr.setDesc]

theorem allocPage_dup {s s1 : BufMgr} {file frame N : Nat}
    (ha : allocBuf (afterAllocate s file) = (Except.ok frame, s1))
    (hn : s1.hashTable file (s.disk.allocatePage file).1.page_number = some N) :
    allocPage s file =
      (Except.error Exc.HashAlreadyPresentException,
        storePage s1 frame (s.disk.allocatePage file).1) := by
  simp only [afterAllocate] at ha
  simp [allocPage, ha, BufHashTbl.insert, hn, storePage]

theorem unPinPage_miss {s : BufMgr} {file pageNo : Nat} (dirty : Bool)
    (hh : s.hashTable file pageNo = none) :
    unPinPage s file pageNo dirty = (Except.error Exc.HashNotFoundException, s) := by
  simp [unPinPage, BufHashTbl.lookup, hh]

theorem unPinPage_zero {s : BufMgr} {file pageNo frame : Nat} (dirty : Bool)
    (hh : s.hashTable file pageNo = some frame) (hp : (s.bufDescTable frame).pinCnt = 0) :
    unPinPage s file pageNo dirty = (Except.error Exc.PageNotPinnedException, s) := by
  simp [unPinPage, BufHashTbl.lookup, hh, hp]

theorem unPinPage_ok {s : BufMgr} {file pageNo frame : Nat} (dirty : Bool)
    (hh : s.hashTable file pageNo = some frame) (hp : 0 < (s.bufDescTable frame).pinCnt) :
    unPinPage s file pageNo dirty =
      (Except.ok (), s.setDesc frame { s.bufDescTable frame with
        pinCnt := (s.bufDescTable frame).pinCnt - 1
        dirty := (s.bufDescTable frame).dirty || dirty }) := by
  have hp' : (s.bufDescTable frame).pinCnt ≠ 0 := by omega
  cases dirty with
  | true =>
    simp only [unPinPage, BufHashTbl.lookup, hh, hp', if_false, if_true, BufMgr.setDesc,
      Bool.or_true]
    simp
    funext j
    by_cases hj : j = frame <;> simp [hj]
  | false =>
    simp only [unPinPage, BufHashTbl.lookup, hh, hp', if_false, BufMgr.setDesc, Bool.or_false]
    simp

theorem disposePage_miss {s : BufMgr} {file pageNo : Nat}
    (hh : s.hashTable file pageNo = none) :
    disposePage s file pageNo = (Except.error Exc.HashNotFoundException, s) := by
  simp [disposePage, BufHashTbl.lookup, hh]

theorem disposePage_hit {s : BufMgr} {file pageNo frame : Nat}
    (hh : s.hashTable file pageNo = some frame) :
    disposePage s file pageNo =
      (Except.ok (),
        { s with
          bufDescTable := fun j => if j = frame then (s.bufDescTable frame).Clear
            else s.bufDescTable j
          hashTable := fun f p => if f = file ∧ p = pageNo then none else s.hashTable f p
          disk := s.disk.deletePage file pageNo }) := by
  simp [disposePage, BufHashTbl.lookup, hh, BufHashTbl.remove, BufMgr.setDesc]

theorem Kept.kept_trans {s s1 s2 : BufMgr} {i : Nat} (h1 : Kept s s1 i) (h2 : Kept s1 s2 i) :
    Kept s s2 i := by
  obtain ⟨_, f1, p1, b1, _⟩ := h1
  obtain ⟨v2, f2, p2, b2, k2⟩ := h2
  refine ⟨v2, f2.trans f1, p2.trans p1, b2.trans b1, ?_⟩
  rw [← f1, ← p1]
  exact k2

theorem kept_of_eq {s s' : BufMgr} (h : Inv s) {i : Nat}
    (hv : (s.bufDescTable i).valid = true) (hd : s'.bufDescTable i = s.bufDescTable i)
    (hp : s'.bufPool i = s.bufPool i) (hh : s'.hashTable = s.hashTable) : Kept s s' i := by
  refine ⟨by rw [hd]; exact hv, by rw [hd], by rw [hd], hp, ?_⟩
  rw [hh]
  exact h.lookup_of_valid hv

theorem setDesc_kept {s : BufMgr} (h : Inv s) {i frame : Nat} {d : BufDesc}
    (hi : (s.bufDescTable i).valid = true) (hv' : d.valid = true)
    (hf : d.file = (s.bufDescTable frame).file)
    (hp : d.pageNo = (s.bufDescTable frame).pageNo) : Kept s (s.setDesc frame d) i := by
  have hl := h.lookup_of_valid hi
  by_cases hj : i = frame
  · subst hj
    exact ⟨by simp [BufMgr.setDesc, hv'], by simp [BufMgr.setDesc, hf],
      by simp [BufMgr.setDesc, hp], rfl, hl⟩
  · exact ⟨by simpa [BufMgr.setDesc, hj] using hi, by simp [BufMgr.setDesc, hj],
      by simp [BufMgr.setDesc, hj], rfl, hl⟩

theorem readPage_sound {s : BufMgr} (h : Inv s) (file pageNo : Nat) :
    Inv (readPage s file pageNo).2 ∧
      ∀ i, s.pinned i → Kept s (readPage s file pageNo).2 i := by
  cases hh : s.hashTable file pageNo with
  | some frame =>
    rw [readPage_hit hh]
    have hv := ((h.index _ _ _).1 hh).2.1
    exact ⟨h.setDesc_same hv hv rfl rfl rfl, fun i hi => setDesc_kept h hi.1 hv rfl rfl⟩
  | none =>
    cases ha : allocBuf s with
    | mk r s1 =>
      obtain ⟨hI, hS, hpost⟩ := allocBuf_sound h ha
      cases r with
      | error e =>
        rw [readPage_miss_fail hh ha]
        exact ⟨hI, fun i hi => (hS.kept h hi).1⟩
      | ok frame =>
        obtain ⟨_, hlt, hinv⟩ := hpost frame rfl
        cases hd : s1.disk.pages file pageNo with
        | none =>
          rw [readPage_miss_noPage hh ha hd]
          exact ⟨hI.congr rfl rfl rfl rfl, fun i hi => (hS.kept h hi).1⟩
        | some pg =>
          have hn := hS.lookup_none hh
          rw [readPage_miss_ok hh ha hd hn]
          have hI2 : Inv (loadPage s1 frame file pageNo pg) := hI.congr rfl rfl rfl rfl
          refine ⟨install_Inv hI2 (by rw [← hS.numBufs] at hlt; exact hlt) hinv hn, ?_⟩
          intro i hi
          obtain ⟨hk, hp1⟩ := hS.kept h hi
          have hne : i ≠ frame := by
            intro e
            subst e
            rw [BufMgr.pinned, hinv] at hp1
            exact absurd hp1.1 (by simp)
          have hk2 : Kept s1 (loadPage s1 frame file pageNo pg) i :=
            kept_of_eq hI hp1.1 rfl (by simp [loadPage, hne]) rfl
          exact (hk.kept_trans hk2).kept_trans (install_kept hI2 hinv hn hp1.1)

theorem allocPage_sound {s : BufMgr} (h : Inv s) (file : Nat) :
    Inv (allocPage s file).2 ∧ ∀ i, s.pinned i → Kept s (allocPage s file).2 i := by
  have h0 : Inv (afterAllocate s file) := h.congr rfl rfl rfl rfl
  cases ha : allocBuf (afterAllocate s file) with
  | mk r s1 =>
    obtain ⟨hI, hS, hpost⟩ := allocBuf_sound h0 ha
    have hkept : ∀ i, s.pinned i → Kept s s1 i ∧ s1.pinned i :=
      fun i hi => hS.kept h0 (i := i) hi
    cases r with
    | error e =>
      rw [allocPage_fail ha]
      exact ⟨hI, fun i hi => (hkept i hi).1⟩
    | ok frame =>
      obtain ⟨_, hlt, hinv⟩ := hpost frame rfl
      have hne : ∀ i, s1.pinned i → i ≠ frame := by
        intro i hp1 e
        subst e
        rw [BufMgr.pinned, hinv] at hp1
        exact absurd hp1.1 (by simp)
      have hk2 : ∀ i, s1.pinned i →
          Kept s1 (storePage s1 frame (s.disk.allocatePage file).1) i :=
        fun i hp1 => kept_of_eq hI hp1.1 rfl (by simp [storePage, hne i hp1]) rfl
      have hI2 : Inv (storePage s1 frame (s.disk.allocatePage file).1) :=
        hI.congr rfl rfl rfl rfl
      cases hn : s1.hashTable file (s.disk.allocatePage file).1.page_number with
      | some N =>
        rw [allocPage_dup ha hn]
        exact ⟨hI2, fun i hi => (hkept i hi).1.kept_trans (hk2 i (hkept i hi).2)⟩
      | none =>
        rw [allocPage_ok ha hn]
        refine ⟨install_Inv hI2 (by rw [← hS.numBufs] at hlt; exact hlt) hinv hn, ?_⟩
        intro i hi
        exact ((hkept i hi).1.kept_trans (hk2 i (hkept i hi).2)).kept_trans
          (install_kept hI2 hinv hn (hkept i hi).2.1)

theorem unPinPage_sound {s : BufMgr} (h : Inv s) (file pageNo : Nat) (dirty : Bool) :
    Inv (unPinPage s file pageNo dirty).2 ∧
      ∀ i, s.pinned i → Kept s (unPinPage s file pageNo dirty).2 i := by
  cases hh : s.hashTable file pageNo with
  | none =>
    rw [unPinPage_miss dirty hh]
    exact ⟨h, fun i hi => kept_of_eq h hi.1 rfl rfl rfl⟩
  | some frame =>
    by_cases hp : 0 < (s.bufDescTable frame).pinCnt
    · rw [unPinPage_ok dirty hh hp]
      have hv := ((h.index _ _ _).1 hh).2.1
      exact ⟨h.setDesc_same hv hv rfl rfl rfl, fun i hi => setDesc_kept h hi.1 hv rfl rfl⟩
    · rw [unPinPage_zero dirty hh (by omega)]
      exact ⟨h, fun i hi => kept_of_eq h hi.1 rfl rfl rfl⟩

theorem flushFile_keeps {s : BufMgr} (h : Inv s) (file : Nat) :
    Inv (flushFile s file).2 ∧ ∀ i, s.pinned i → Kept s (flushFile s file).2 i := by
  cases hf : flushFile s file with
  | mk r s1 =>
    obtain ⟨hI, hS, _, _⟩ := flushFile_sound h hf
    exact ⟨hI, fun i hi => (hS.kept h hi).1⟩

theorem allocBuf_keeps {s : BufMgr} (h : Inv s) :
    Inv (allocBuf s).2 ∧ ∀ i, s.pinned i → Kept s (allocBuf s).2 i := by
  cases hf : allocBuf s with
  | mk r s1 =>
    obtain ⟨hI, hS, _⟩ := allocBuf_sound h hf
    exact ⟨hI, fun i hi => (hS.kept h hi).1⟩

theorem disposePage_Inv {s : BufMgr} (h : Inv s) (file pageNo : Nat) :
    Inv (disposePage s file pageNo).2 := by
  cases hh : s.hashTable file pageNo with
  | none =>
    rw [disposePage_miss hh]
    exact h
  | some frame =>
    rw [disposePage_hit hh]
    obtain ⟨_, hv, hf, hp⟩ := (h.index _ _ _).1 hh
    refine (evictFrame_Inv h hv).congr (by simp) (by simp) rfl ?_
    funext f p
    simp [evictFrame_hash, hf, hp]

theorem Reachable.has_inv {s : BufMgr} (h : Reachable s) : Inv s := by
  induction h with
  | init bufs disk hb => exact BufMgr.new_Inv bufs disk hb
  | readPage s file pageNo _ ih => exact (readPage_sound ih file pageNo).1
  | unPinPage s file pageNo dirty _ ih => exact (unPinPage_sound ih file pageNo dirty).1
  | flushFile s file _ ih => exact (flushFile_keeps ih file).1
  | allocPage s file _ ih => exact (allocPage_sound ih file).1
  | disposePage s file pageNo _ ih => exact disposePage_Inv ih file pageNo

theorem flushFileLoop_hand (k i : Nat) (s : BufMgr) (file : Nat) :
    (flushFileLoop file k i s).2.clockHand = s.clockHand := by
  induction k generalizing i s with
  | zero => rfl
  | succ k ih =>
    simp only [flushFileLoop]
    have hb : (flushFileBody file i s).2.clockHand = s.clockHand := by
      rcases flushFileBody_cases file i s with ⟨_, _, _, e⟩ | ⟨_, _, _, _, e⟩ |
        ⟨_, _, _, _, e⟩ | ⟨_, _, e⟩ | ⟨_, e⟩ <;> rw [e] <;> simp
    cases hx : flushFileBody file i s with
    | mk r1 s1 =>
      rw [hx] at hb
      cases r1 with
      | error e => exact hb
      | ok u =>
        simp only
        rw [ih (i + 1) s1]
        exact hb

theorem allocBufLoop_allPinned (k : Nat) :
    ∀ s : BufMgr, 0 < s.numBufs → (∀ i, i < s.numBufs → s.pinned i) →
      (allocBufLoop k s).1 = Except.ok false := by
  induction k with
  | zero => intro s _ _; rfl
  | succ k ih =>
    intro s hc hall
    have hlt : (advanceClock s).clockHand < s.numBufs := Nat.mod_lt _ hc
    have hp := hall _ hlt
    simp only [allocBufLoop]
    rcases allocBufBody_cases s with ⟨hv, _⟩ | ⟨_, _, e⟩ | ⟨_, _, _, e⟩ | ⟨_, _, hp0, _⟩
    · have := hp.1
      rw [show (s.bufDescTable (advanceClock s).clockHand) =
        ((advanceClock s).bufDescTable (advanceClock s).clockHand) from rfl, hv] at this
      cases this
    · rw [e]
      simp only
      apply ih
      · exact hc
      · intro i hi
        have hpi := hall i hi
        by_cases hj : i = (advanceClock s).clockHand
        · subst hj
          exact ⟨by simpa [BufMgr.setDesc] using hp.1, by simpa [BufMgr.setDesc] using hp.2⟩
        · exact ⟨by simpa [BufMgr.setDesc, hj] using hpi.1,
            by simpa [BufMgr.setDesc, hj] using hpi.2⟩
    · rw [e]
      simp only
      exact ih (advanceClock s) hc hall
    · have := hp.2
      rw [show (s.bufDescTable (advanceClock s).clockHand) =
        ((advanceClock s).bufDescTable (advanceClock s).clockHand) from rfl, hp0] at this
      omega

theorem allocBuf_allPinned {s : BufMgr} (hc : 0 < s.numBufs)
    (hall : ∀ i, i < s.numBufs → s.pinned i) :
    (allocBuf s).1 = Except.error Exc.BufferExceededException := by
  have h := allocBufLoop_allPinned (s.numBufs + 1) s hc hall
  unfold allocBuf
  cases hl : allocBufLoop (s.numBufs + 1) s with
  | mk r s1 =>
    rw [hl] at h
    simp only at h
    subst h
    rfl

theorem readPage_allPinned {s : BufMgr} (hc : 0 < s.numBufs)
    (hall : ∀ i, i < s.numBufs → s.pinned i) {file pageNo : Nat}
    (hh : s.hashTable file pageNo = none) :
    (readPage s file pageNo).1 = Except.error Exc.BufferExceededException := by
  have h := allocBuf_allPinned hc hall
  cases ha : allocBuf s with
  | mk r s1 =>
    rw [ha] at h
    simp only at h
    subst h
    rw [readPage_miss_fail hh ha]

theorem allocPage_allPinned {s : BufMgr} (hc : 0 < s.numBufs)
    (hall : ∀ i, i < s.numBufs → s.pinned i) (file : Nat) :
    (allocPage s file).1 = Except.error Exc.BufferExceededException := by
  have h : (allocBuf (afterAllocate s file)).1 = Except.error Exc.BufferExceededException :=
    allocBuf_allPinned (s := afterAllocate s file) hc hall
  cases ha : allocBuf (afterAllocate s file) with
  | mk r s1 =>
    rw [ha] at h
    simp only at h
    subst h
    rw [allocPage_fail ha]

theorem allocBuf_at_free {s : BufMgr} (h : Inv s)
    (hv : (s.bufDescTable ((s.clockHand + 1) % s.numBufs)).valid = false) :
    allocBuf s = (Except.ok ((s.clockHand + 1) % s.numBufs), advanceClock s) := by
  have hI : Inv (advanceClock s) := (RefCleared.advance s h.cap).keeps_inv h
  have hv' : ((advanceClock s).bufDescTable (advanceClock s).clockHand).valid = false := hv
  have hb : allocBufBody s = (Except.ok true, advanceClock s) := by
    rcases allocBufBody_cases s with ⟨_, e⟩ | ⟨hv1, _⟩ | ⟨hv1, _⟩ | ⟨hv1, _⟩
    · exact e
    · rw [hv'] at hv1; cases hv1
    · rw [hv'] at hv1; cases hv1
    · rw [hv'] at hv1; cases hv1
  have hl : allocBufLoop (s.numBufs + 1) s = (Except.ok true, advanceClock s) := by
    simp only [allocBufLoop, hb]
  unfold allocBuf
  rw [hl]
  simp only
  rw [setDesc_Clear_of_invalid hI hv']
  rfl

theorem Filled.init (N : Nat) (disk : Disk) (hN : 1 ≤ N) : Filled (BufMgr.new N disk) 0 [] where
  inv := BufMgr.new_Inv N disk hN
  le := Nat.zero_le _
  pinned := fun i hi => absurd hi (Nat.not_lt_zero i)
  free := fun _ _ => rfl
  hand := by
    intro _
    show (N - 1 + 1) % N = 0
    rw [Nat.sub_add_cancel hN, Nat.mod_self]
  keys := by
    intro f p N h
    simp [BufMgr.new] at h

theorem Filled.step {s : BufMgr} {n : Nat} {keys : List (Nat × Nat)} (h : Filled s n keys)
    {f p : Nat} (hk : (f, p) ∉ keys) (frame : Nat)
    (hr : (readPage s f p).1 = Except.ok frame) :
    Filled (readPage s f p).2 (n + 1) ((f, p) :: keys) ∧
      (readPage s f p).2.numBufs = s.numBufs := by
  have hh : s.hashTable f p = none := by
    cases hx : s.hashTable f p with
    | none => rfl
    | some N => exact absurd (h.keys f p N hx) hk
  have hlt : n < s.numBufs := by
    by_contra hge
    have hn : n = s.numBufs := Nat.le_antisymm h.le (Nat.le_of_not_lt hge)
    have := readPage_allPinned h.inv.cap (fun i hi => h.pinned i (hn ▸ hi)) hh
    rw [this] at hr
    cases hr
  have hhand := h.hand hlt
  have hv : (s.bufDescTable ((s.clockHand + 1) % s.numBufs)).valid = false := by
    rw [hhand]
    exact h.free n (Nat.le_refl n)
  have ha := allocBuf_at_free h.inv hv
  rw [hhand] at ha
  have hsound := (readPage_sound h.inv f p).1
  cases hd : (advanceClock s).disk.pages f p with
  | none =>
    rw [readPage_miss_noPage hh ha hd] at hr
    cases hr
  | some pg =>
    have hn : (advanceClock s).hashTable f p = none := hh
    rw [readPage_miss_ok hh ha hd hn] at hsound ⊢
    have hc : (advanceClock s).clockHand = n := hhand
    refine ⟨⟨hsound, hlt, ?_, ?_, ?_, ?_⟩, rfl⟩
    · intro i hi
      by_cases hin : i = n
      · subst hin
        exact ⟨by simp [install, BufDesc.Set], by simp [install, BufDesc.Set]⟩
      · have hp := h.pinned i (by omega)
        exact ⟨by simpa [install, hin, loadPage, advanceClock] using hp.1,
          by simpa [install, hin, loadPage, advanceClock] using hp.2⟩
    · intro i hi
      have hin : i ≠ n := by omega
      simpa [install, hin, loadPage, advanceClock] using h.free i (by omega)
    · intro hlt'
      show ((advanceClock s).clockHand + 1) % s.numBufs = n + 1
      rw [hc]
      exact Nat.mod_eq_of_lt hlt'
    · intro f' p' N hN
      by_cases hkk : f' = f ∧ p' = p
      · obtain ⟨rfl, rfl⟩ := hkk
        exact List.mem_cons_self _ _
      · have : s.hashTable f' p' = some N := by
          simpa [install, hkk, loadPage, advanceClock] using hN
        exact List.mem_cons_of_mem _ (h.keys f' p' N this)

theorem Filled.fetchAll (ks : List (Nat × Nat)) :
    ∀ (s s' : BufMgr) (n : Nat) (keys : List (Nat × Nat)), Filled s n keys → ks.Nodup →
      (∀ k, k ∈ ks → k ∉ keys) → fetchAll s ks = some s' →
      Filled s' (n + ks.length) (ks.reverse ++ keys) ∧ s'.numBufs = s.numBufs := by
  induction ks with
  | nil =>
    intro s s' n keys h _ _ hf
    simp only [badgerdb.fetchAll, Option.some.injEq] at hf
    subst hf
    exact ⟨by simpa using h, rfl⟩
  | cons k ks ih =>
    intro s s' n keys h hnd hdis hf
    simp only [badgerdb.fetchAll] at hf
    cases hr : readPage s k.1 k.2 with
    | mk r s1 =>
      rw [hr] at hf
      cases r with
      | error e => simp at hf
      | ok frame =>
        simp only at hf
        have hk : (k.1, k.2) ∉ keys := hdis k (List.mem_cons_self _ _)
        have hstep := h.step hk frame (by rw [hr])
        rw [hr] at hstep
        have hnd' := List.nodup_cons.1 hnd
        have := ih s1 s' (n + 1) ((k.1, k.2) :: keys) hstep.1 hnd'.2
          (by
            intro k' hk' hmem
            rcases List.mem_cons.1 hmem with e | e
            · have e' : k' = k := e
              exact hnd'.1 (e' ▸ hk')
            · exact hdis k' (List.mem_cons_of_mem _ hk') e)
          hf
        have e1 : n + 1 + ks.length = n + (k :: ks).length := by
          simp only [List.length_cons]; omega
        have e2 : ks.reverse ++ (k.1, k.2) :: keys = (k :: ks).reverse ++ keys := by
          simp
        rw [e1, e2] at this
        exact ⟨this.1, this.2.trans hstep.2⟩

theorem flushFileLoop_error (file : Nat) (k : Nat) :
    ∀ (i : Nat) (s : BufMgr) (e : Exc), (flushFileLoop file k i s).1 = Except.error e →
      e = Exc.PagePinnedException ∨ e = Exc.HashNotFoundException ∨
        e = Exc.BadBufferException := by
  induction k with
  | zero =>
    intro i s e h
    simp [flushFileLoop] at h
  | succ k ih =>
    intro i s e h
    simp only [flushFileLoop] at h
    rcases flushFileBody_cases file i s with ⟨_, _, _, e1⟩ | ⟨_, _, _, _, e1⟩ |
      ⟨_, _, _, _, e1⟩ | ⟨_, _, e1⟩ | ⟨_, e1⟩ <;> rw [e1] at h <;> simp only at h
    · cases h; exact Or.inl rfl
    · cases h; exact Or.inr (Or.inl rfl)
    · exact ih _ _ e h
    · cases h; exact Or.inr (Or.inr rfl)
    · exact ih _ _ e h

theorem flushFile_error (s : BufMgr) (file : Nat) (e : Exc)
    (h : (flushFile s file).1 = Except.error e) :
    e = Exc.PagePinnedException ∨ e = Exc.HashNotFoundException ∨
      e = Exc.BadBufferException :=
  flushFileLoop_error file s.numBufs 0 s e h

theorem allocBufLoop_hand (k : Nat) :
    ∀ (s s' : BufMgr), allocBufLoop k s = (Except.ok false, s') →
      s'.clockHand % s.numBufs = (s.clockHand + k) % s.numBufs := by
  induction k with
  | zero =>
    intro s s' h
    simp only [allocBufLoop, Prod.mk.injEq, true_and] at h
    subst h
    rfl
  | succ k ih =>
    intro s s' h
    simp only [allocBufLoop] at h
    have step : ∀ s1 : BufMgr, s1.numBufs = s.numBufs →
        s1.clockHand = (s.clockHand + 1) % s.numBufs →
        allocBufLoop k s1 = (Except.ok false, s') →
        s'.clockHand % s.numBufs = (s.clockHand + (k + 1)) % s.numBufs := by
      intro s1 hn hh hl
      have := ih s1 s' hl
      rw [hn, hh, Nat.mod_add_mod] at this
      rw [this]
      congr 1
      omega
    rcases allocBufBody_cases s with ⟨_, e⟩ | ⟨_, _, e⟩ | ⟨_, _, _, e⟩ | ⟨_, _, _, e⟩
    · rw [e] at h
      simp at h
    · rw [e] at h
      exact step _ (by rfl) (by rfl) h
    · rw [e] at h
      exact step _ (by rfl) (by rfl) h
    · rw [e] at h
      cases hx : flushFile (advanceClock s)
          ((advanceClock s).bufDescTable (advanceClock s).clockHand).file with
      | mk r1 s2 =>
        rw [hx] at h
        cases r1 with
        | error e1 => simp [foundAfterFlush] at h
        | ok u => simp [foundAfterFlush] at h

theorem allocBuf_exceeded {s : BufMgr} (hc : 1 ≤ s.numBufs)
    (hf : (allocBuf s).1 = Except.error Exc.BufferExceededException) :
    allocBufLoop (s.numBufs + 1) s = (Except.ok false, (allocBuf s).2) := by
  unfold allocBuf at hf ⊢
  cases hl : allocBufLoop (s.numBufs + 1) s with
  | mk r s2 =>
    rw [hl] at hf
    obtain ⟨s1, _, hcase⟩ := allocBufLoop_cases _ s s2 r hc hl
    rcases hcase with ⟨hr, _⟩ | ⟨hr, _, _⟩ | ⟨_, _, _, hx⟩
    · subst hr
      rfl
    · subst hr
      simp at hf
    · cases hfl : flushFile s1 (s1.bufDescTable s1.clockHand).file with
      | mk r1 s3 =>
        have herr := fun e => flushFile_error s1 (s1.bufDescTable s1.clockHand).file e
        rw [hfl] at hx herr
        cases r1 with
        | ok u =>
          simp only [foundAfterFlush] at hx
          cases hx
          simp at hf
        | error e1 =>
          simp only [foundAfterFlush] at hx
          cases hx
          simp only [Except.error.injEq] at hf
          subst hf
          rcases herr _ rfl with h1 | h1 | h1 <;> cases h1

theorem BufMgr.ext_fields {s t : BufMgr} (h1 : s.numBufs = t.numBufs)
    (h2 : s.bufDescTable = t.bufDescTable) (h3 : s.bufPool = t.bufPool)
    (h4 : s.hashTable = t.hashTable) (h5 : s.clockHand = t.clockHand)
    (h6 : s.disk = t.disk) : s = t := by
  cases s
  cases t
  simp only at h1 h2 h3 h4 h5 h6
  subst h1 h2 h3 h4 h5 h6
  rfl

theorem flushFileLoop_split (file : Nat) (k1 k2 : Nat) :
    ∀ (i : Nat) (s : BufMgr),
      flushFileLoop file (k1 + k2) i s =
        match flushFileLoop file k1 i s with
        | (Except.ok _, s1) => flushFileLoop file k2 (i + k1) s1
        | (Except.error e, s1) => (Except.error e, s1) := by
  induction k1 with
  | zero =>
    intro i s
    simp [flushFileLoop]
  | succ k1 ih =>
    intro i s
    rw [Nat.succ_add]
    simp only [flushFileLoop]
    cases hb : flushFileBody file i s with
    | mk r s1 =>
      cases r with
      | error e => rfl
      | ok u =>
        simp only
        rw [ih (i + 1) s1]
        have : i + 1 + k1 = i + (k1 + 1) := by omega
        rw [this]

theorem flushFileLoop_skip (file : Nat) (k : Nat) :
    ∀ (i : Nat) (s : BufMgr),
      (∀ j, i ≤ j → j < i + k → (s.bufDescTable j).file ≠ file) →
      flushFileLoop file k i s = (Except.ok (), s) := by
  induction k with
  | zero => intro i s _; rfl
  | succ k ih =>
    intro i s h
    have hi := h i (Nat.le_refl i) (by omega)
    have hb : flushFileBody file i s = (Except.ok (), s) := by
      rcases flushFileBody_cases file i s with ⟨e, _⟩ | ⟨e, _⟩ | ⟨e, _⟩ | ⟨e, _⟩ | ⟨_, e⟩
      · exact absurd e hi
      · exact absurd e hi
      · exact absurd e hi
      · exact absurd e hi
      · exact e
    simp only [flushFileLoop, hb]
    exact ih (i + 1) s (fun j h1 h2 => h j (by omega) (by omega))

theorem dirtyFrames_succ (s : BufMgr) (file m : Nat) :
    dirtyFrames s file (m + 1) =
      if (s.bufDescTable m).file = file ∧ (s.bufDescTable m).valid = true ∧
          (s.bufDescTable m).dirty = true then dirtyFrames s file m ++ [m]
      else dirtyFrames s file m := by
  unfold dirtyFrames
  rw [List.range_succ, List.filter_append]
  by_cases h : (s.bufDescTable m).file = file ∧ (s.bufDescTable m).valid = true ∧
      (s.bufDescTable m).dirty = true
  · rw [if_pos h]
    simp [List.filter, h.1, h.2.1, h.2.2]
  · rw [if_neg h]
    have : (decide ((s.bufDescTable m).file = file) && (s.bufDescTable m).valid &&
        (s.bufDescTable m).dirty) = false := by
      by_contra hc
      simp only [Bool.not_eq_false, Bool.and_eq_true, decide_eq_true_eq] at hc
      exact h ⟨hc.1.1, hc.1.2, hc.2⟩
    simp [List.filter, this]

theorem Disk.writeAll_append (d : Disk) (file : Nat) (xs ys : List Page) :
    d.writeAll file (xs ++ ys) = (d.writeAll file xs).writeAll file ys := by
  simp [Disk.writeAll, List.foldl_append]

theorem Disk.writeAll_log (file : Nat) (pgs : List Page) :
    ∀ d : Disk, (d.writeAll file pgs).log = d.log ++ pgs.map (DiskOp.write file) := by
  induction pgs with
  | nil => intro d; simp [Disk.writeAll]
  | cons pg pgs ih =>
    intro d
    have := ih (d.writePage file pg)
    simp only [Disk.writeAll, List.foldl_cons] at this ⊢
    rw [this]
    simp [Disk.writePage]

theorem Disk.writeAll_next (file : Nat) (pgs : List Page) :
    ∀ d : Disk, (d.writeAll file pgs).next = d.next := by
  induction pgs with
  | nil => intro d; rfl
  | cons pg pgs ih =>
    intro d
    have := ih (d.writePage file pg)
    simp only [Disk.writeAll, List.foldl_cons] at this ⊢
    rw [this]
    rfl

theorem Disk.writeAll_pages_other (file : Nat) (pgs : List Page) :
    ∀ (d : Disk) (f p : Nat), f ≠ file → (d.writeAll file pgs).pages f p = d.pages f p := by
  induction pgs with
  | nil => intro d f p _; rfl
  | cons pg pgs ih =>
    intro d f p hf
    have := ih (d.writePage file pg) f p hf
    simp only [Disk.writeAll, List.foldl_cons] at this ⊢
    rw [this]
    simp [Disk.writePage, hf]

theorem lt_succ_iff_of_ne {a b : Nat} (h : a ≠ b) : a < b + 1 ↔ a < b := by omega

theorem writeBack_disk (s : BufMgr) (i : Nat) :
    (writeBack s i).disk =
      if (s.bufDescTable i).dirty = true then
        s.disk.writePage (s.bufDescTable i).file (s.bufPool (s.bufDescTable i).frameNo)
      else s.disk := by
  unfold writeBack
  split <;> rfl

theorem evictFrame_disk (s : BufMgr) (i : Nat) :
    (evictFrame s i).disk = (writeBack s i).disk := rfl

theorem flushWrites_succ (s : BufMgr) (file m : Nat) :
    flushWrites s file (m + 1) =
      if (s.bufDescTable m).file = file ∧ (s.bufDescTable m).valid = true ∧
          (s.bufDescTable m).dirty = true then
        flushWrites s file m ++ [s.bufPool (s.bufDescTable m).frameNo]
      else flushWrites s file m := by
  unfold flushWrites
  rw [dirtyFrames_succ]
  split <;> simp

theorem flushedUpTo_step_owned {s : BufMgr} (h : Inv s) {file m : Nat}
    (hf : (s.bufDescTable m).file = file) (hv : (s.bufDescTable m).valid = true) :
    evictFrame (flushedUpTo s file m) m = flushedUpTo s file (m + 1) := by
  subst hf
  have hd : (flushedUpTo s (s.bufDescTable m).file m).bufDescTable m = s.bufDescTable m := by
    simp [flushedUpTo]
  apply BufMgr.ext_fields
  · simp [flushedUpTo]
  · funext j
    rw [evictFrame_desc, hd]
    by_cases hj : j = m
    · subst hj
      simp [flushedUpTo, hv]
    · have := lt_succ_iff_of_ne hj
      simp [flushedUpTo, hj, this]
  · simp [flushedUpTo]
  · funext f p
    rw [evictFrame_hash, hd]
    cases hh : s.hashTable f p with
    | none => simp [flushedUpTo, hh]
    | some N =>
      obtain ⟨_, hvN, hfN, hpN⟩ := (h.index f p N).1 hh
      by_cases hN : N = m
      · subst hN
        rw [if_pos ⟨hfN.symm, hpN.symm⟩]
        simp [flushedUpTo, hh, hv]
      · have hk : ¬ (f = (s.bufDescTable m).file ∧ p = (s.bufDescTable m).pageNo) := by
          rintro ⟨e1, e2⟩
          have := h.lookup_of_valid hv
          rw [← e1, ← e2, hh] at this
          exact hN (Option.some.inj this)
        have := lt_succ_iff_of_ne hN
        rw [if_neg hk]
        simp [flushedUpTo, hh, this]
  · simp [flushedUpTo]
  · rw [evictFrame_disk, writeBack_disk, hd]
    show _ = s.disk.writeAll (s.bufDescTable m).file
      (flushWrites s (s.bufDescTable m).file (m + 1))
    rw [flushWrites_succ]
    by_cases hdty : (s.bufDescTable m).dirty = true
    · rw [if_pos hdty, if_pos ⟨rfl, hv, hdty⟩, Disk.writeAll_append]
      rfl
    · rw [if_neg hdty, if_neg (fun hc => hdty hc.2.2)]
      rfl

theorem flushedUpTo_step_other {s : BufMgr} {file m : Nat}
    (hf : (s.bufDescTable m).file ≠ file) :
    flushedUpTo s file m = flushedUpTo s file (m + 1) := by
  apply BufMgr.ext_fields
  · rfl
  · funext j
    by_cases hj : j = m
    · subst hj
      simp [flushedUpTo, hf]
    · have := lt_succ_iff_of_ne hj
      simp [flushedUpTo, this]
  · rfl
  · funext f p
    cases hh : s.hashTable f p with
    | none => simp [flushedUpTo, hh]
    | some N =>
      by_cases hN : N = m
      · subst hN
        simp [flushedUpTo, hh, hf]
      · have := lt_succ_iff_of_ne hN
        simp [flushedUpTo, hh, this]
  · rfl
  · show s.disk.writeAll file (flushWrites s file m) =
      s.disk.writeAll file (flushWrites s file (m + 1))
    rw [flushWrites_succ, if_neg (fun hc => hf hc.1)]

theorem flushFileBody_flushedUpTo {s : BufMgr} (h : Inv s) {file m : Nat}
    (hb : ¬ s.blocks file m) :
    flushFileBody file m (flushedUpTo s file m) = (Except.ok (), flushedUpTo s file (m + 1)) := by
  have hd : (flushedUpTo s file m).bufDescTable m = s.bufDescTable m := by
    simp [flushedUpTo]
  by_cases hf : (s.bufDescTable m).file = file
  · have hv : (s.bufDescTable m).valid = true := by
      cases hv : (s.bufDescTable m).valid with
      | true => rfl
      | false => exact absurd ⟨hf, Or.inl hv⟩ hb
    have hp : (s.bufDescTable m).pinCnt = 0 := by
      by_contra hp
      exact hb ⟨hf, Or.inr (Nat.pos_of_ne_zero hp)⟩
    rcases flushFileBody_cases file m (flushedUpTo s file m) with ⟨_, _, hp', _⟩ |
      ⟨_, _, _, hn, _⟩ | ⟨_, _, _, _, e⟩ | ⟨_, hv', _⟩ | ⟨hf', _⟩
    · rw [hd, hp] at hp'
      exact absurd hp' (Nat.lt_irrefl 0)
    · rw [hd] at hn
      have hl := h.lookup_of_valid hv
      simp [flushedUpTo, hl] at hn
    · rw [e, flushedUpTo_step_owned h hf hv]
    · rw [hd, hv] at hv'
      cases hv'
    · rw [hd] at hf'
      exact absurd hf hf'
  · rcases flushFileBody_cases file m (flushedUpTo s file m) with ⟨e, _⟩ | ⟨e, _⟩ |
      ⟨e, _⟩ | ⟨e, _⟩ | ⟨_, e⟩
    · rw [hd] at e; exact absurd e hf
    · rw [hd] at e; exact absurd e hf
    · rw [hd] at e; exact absurd e hf
    · rw [hd] at e; exact absurd e hf
    · rw [e, flushedUpTo_step_other hf]

theorem flushedUpTo_zero (s : BufMgr) (file : Nat) : flushedUpTo s file 0 = s := by
  apply BufMgr.ext_fields
  · rfl
  · funext j
    simp [flushedUpTo]
  · rfl
  · funext f p
    cases hh : s.hashTable f p <;> simp [flushedUpTo, hh]
  · rfl
  · rfl

theorem flushFileLoop_prefix {s : BufMgr} (h : Inv s) (file : Nat) (m : Nat) :
    (∀ j, j < m → ¬ s.blocks file j) →
      flushFileLoop file m 0 s = (Except.ok (), flushedUpTo s file m) := by
  induction m with
  | zero =>
    intro _
    rw [flushedUpTo_zero]
    rfl
  | succ m ih =>
    intro hb
    rw [flushFileLoop_split file m 1 0 s, ih (fun j hj => hb j (by omega))]
    simp only [Nat.zero_add, flushFileLoop]
    rw [flushFileBody_flushedUpTo h (hb m (Nat.lt_succ_self m))]

/-- The outcome of `flushFile` when no frame stops it. -/
theorem flushFile_ok_of_no_block {s : BufMgr} (h : Inv s) (file : Nat)
    (hb : ∀ j, j < s.numBufs → ¬ s.blocks file j) :
    flushFile s file = (Except.ok (), flushedUpTo s file s.numBufs) :=
  flushFileLoop_prefix h file s.numBufs hb

/-- The outcome of `flushFile` when `m` is the first frame that stops it. -/
theorem flushFile_stops_at {s : BufMgr} (h : Inv s) (file : Nat) (m : Nat)
    (hm : m < s.numBufs) (hblock : s.blocks file m) (hb : ∀ j, j < m → ¬ s.blocks file j) :
    flushFile s file =
      (Except.error (if (s.bufDescTable m).valid = true then Exc.PagePinnedException
        else Exc.BadBufferException), flushedUpTo s file m) := by
  have hd : (flushedUpTo s file m).bufDescTable m = s.bufDescTable m := by
    simp [flushedUpTo]
  have hsplit : s.numBufs = m + ((s.numBufs - m - 1) + 1) := by omega
  unfold flushFile
  rw [hsplit, flushFileLoop_split file m _ 0 s, flushFileLoop_prefix h file m hb]
  simp only [Nat.zero_add, flushFileLoop]
  obtain ⟨hf, hor⟩ := hblock
  cases hv : (s.bufDescTable m).valid with
  | false =>
    rcases flushFileBody_cases file m (flushedUpTo s file m) with ⟨_, hv', _⟩ | ⟨_, hv', _⟩ |
      ⟨_, hv', _⟩ | ⟨_, _, e⟩ | ⟨hf', _⟩
    · rw [hd, hv] at hv'; cases hv'
    · rw [hd, hv] at hv'; cases hv'
    · rw [hd, hv] at hv'; cases hv'
    · rw [e]
      simp
    · rw [hd] at hf'; exact absurd hf hf'
  | true =>
    have hp : 0 < (s.bufDescTable m).pinCnt := by
      rcases hor with h1 | h1
      · rw [hv] at h1; cases h1
      · exact h1
    rcases flushFileBody_cases file m (flushedUpTo s file m) with ⟨_, _, _, e⟩ |
      ⟨_, _, hp', _⟩ | ⟨_, _, hp', _⟩ | ⟨_, hv', _⟩ | ⟨hf', _⟩
    · rw [e]
      simp
    · rw [hd] at hp'; omega
    · rw [hd] at hp'; omega
    · rw [hd, hv] at hv'; cases hv'
    · rw [hd] at hf'; exact absurd hf hf'

/-- Either no frame stops `flushFile`, or there is a first frame that does. -/
theorem first_block (s : BufMgr) (file : Nat) :
    (∀ j, j < s.numBufs → ¬ s.blocks file j) ∨
    ∃ m, m < s.numBufs ∧ s.blocks file m ∧ ∀ j, j < m → ¬ s.blocks file j := by
  by_cases hex : ∃ j, j < s.numBufs ∧ s.blocks file j
  · right
    refine ⟨Nat.find hex, (Nat.find_spec hex).1, (Nat.find_spec hex).2, ?_⟩
    intro j hj hbj
    have := Nat.find_min hex hj
    exact this ⟨Nat.lt_trans hj (Nat.find_spec hex).1, hbj⟩
  · left
    intro j hj hbj
    exact hex ⟨j, hj, hbj⟩

theorem mem_dirtyFrames (s : BufMgr) (file m j : Nat) :
    j ∈ dirtyFrames s file m ↔
      (j < m ∧ (s.bufDescTable j).file = file ∧ (s.bufDescTable j).valid = true ∧
        (s.bufDescTable j).dirty = true) := by
  simp [dirtyFrames, List.mem_filter, and_assoc]

theorem nodup_dirtyFrames (s : BufMgr) (file m : Nat) : (dirtyFrames s file m).Nodup :=
  (List.nodup_range m).filter _

theorem flushWrites_eq {s : BufMgr} (h : Inv s) (file m : Nat) :
    flushWrites s file m = (dirtyFrames s file m).map s.bufPool := by
  unfold flushWrites
  apply List.map_congr_left
  intro j _
  rw [h.frameNo j]

theorem flushedUpTo_log {s : BufMgr} (h : Inv s) (file m : Nat) :
    (flushedUpTo s file m).disk.log =
      s.disk.log ++ (dirtyFrames s file m).map fun j => DiskOp.write file (s.bufPool j) := by
  show (s.disk.writeAll file (flushWrites s file m)).log = _
  rw [Disk.writeAll_log, flushWrites_eq h, List.map_map]
  rfl

theorem flushedUpTo_desc_owned {s : BufMgr} (h : Inv s) {file m j : Nat} (hj : j < m)
    (hf : (s.bufDescTable j).file = file) (hv : (s.bufDescTable j).valid = true) :
    (flushedUpTo s file m).bufDescTable j = BufDesc.empty j := by
  simp [flushedUpTo, hj, hf, hv, BufDesc.Clear, BufDesc.empty, h.frameNo j]

theorem flushedUpTo_desc_other (s : BufMgr) {file m j : Nat}
    (hj : ¬ (j < m ∧ (s.bufDescTable j).file = file ∧ (s.bufDescTable j).valid = true)) :
    (flushedUpTo s file m).bufDescTable j = s.bufDescTable j := by
  simp only [flushedUpTo]
  rw [if_neg hj]

theorem flushedUpTo_hash_kept (s : BufMgr) {file m f p N : Nat}
    (hh : s.hashTable f p = some N)
    (hN : ¬ (N < m ∧ (s.bufDescTable N).file = file ∧ (s.bufDescTable N).valid = true)) :
    (flushedUpTo s file m).hashTable f p = some N := by
  simp only [flushedUpTo, hh]
  rw [if_neg hN]

theorem flushedUpTo_hash_none (s : BufMgr) {file m f p : Nat}
    (hh : s.hashTable f p = none) : (flushedUpTo s file m).hashTable f p = none := by
  simp only [flushedUpTo, hh]

theorem flushedUpTo_hash_removed (s : BufMgr) {file m f p N : Nat}
    (hh : s.hashTable f p = some N)
    (hN : N < m ∧ (s.bufDescTable N).file = file ∧ (s.bufDescTable N).valid = true) :
    (flushedUpTo s file m).hashTable f p = none := by
  simp only [flushedUpTo, hh]
  rw [if_pos hN]

theorem Inv.blocks_pinned {s : BufMgr} (h : Inv s) {file j : Nat} (hfile : file ≠ 0)
    (hb : s.blocks file j) :
    (s.bufDescTable j).file = file ∧ (s.bufDescTable j).valid = true ∧
      0 < (s.bufDescTable j).pinCnt := by
  obtain ⟨hf, hor⟩ := hb
  cases hv : (s.bufDescTable j).valid with
  | false =>
    have := h.empty j hv
    rw [this] at hf
    exact absurd hf.symm hfile
  | true =>
    rcases hor with h1 | h1
    · rw [hv] at h1; cases h1
    · exact ⟨hf, rfl, h1⟩

theorem readPage_into_empty {s : BufMgr} (h : Inv s)
    (hall : ∀ j, (s.bufDescTable j).valid = false) {F P : Nat} {pg : Page}
    (hd : s.disk.pages F P = some pg) :
    readPage s F P =
      (Except.ok ((s.clockHand + 1) % s.numBufs),
        install (loadPage (advanceClock s) ((s.clockHand + 1) % s.numBufs) F P pg)
          ((s.clockHand + 1) % s.numBufs) F P) := by
  have hh : s.hashTable F P = none := by
    cases hx : s.hashTable F P with
    | none => rfl
    | some M =>
      have := ((h.index F P M).1 hx).2.1
      rw [hall M] at this
      cases this
  exact readPage_miss_ok hh (allocBuf_at_free h (hall _)) hd hh

/-- Flushing the file of the only resident page, which is dirty and not pinned. -/
theorem flush_single {t : BufMgr} (h : Inv t) {F g : Nat} (hF : F ≠ 0)
    (hg : (t.bufDescTable g).valid = true) (hgF : (t.bufDescTable g).file = F)
    (hpin : (t.bufDescTable g).pinCnt = 0) (hdirty : (t.bufDescTable g).dirty = true)
    (hothers : ∀ j, j ≠ g → (t.bufDescTable j).valid = false) :
    ∃ s4, flushFile t F = (Except.ok (), s4) ∧ Inv s4 ∧
      (∀ j, (s4.bufDescTable j).valid = false) ∧
      s4.disk.pages F (t.bufPool g).page_number = some (t.bufPool g) := by
  have hglt := h.valid_lt hg
  have hnb : ∀ j, j < t.numBufs → ¬ t.blocks F j := by
    intro j _ hb
    obtain ⟨_, hv, hp⟩ := h.blocks_pinned hF hb
    by_cases hj : j = g
    · subst hj
      omega
    · rw [hothers j hj] at hv
      cases hv
  have hI4 := (flushFile_keeps h F).1
  rw [flushFile_ok_of_no_block h F hnb] at hI4
  simp only at hI4
  refine ⟨_, flushFile_ok_of_no_block h F hnb, hI4, ?_, ?_⟩
  · intro j
    by_cases hj : j = g
    · subst hj
      simp [flushedUpTo, hglt, hgF, hg, BufDesc.Clear]
    · have := hothers j hj
      simp [flushedUpTo, hj, this]
  · have hdf : dirtyFrames t F t.numBufs = [g] := by
      apply List.eq_of_perm_of_sorted (r := (· < ·))
      · rw [List.perm_ext_iff_of_nodup (nodup_dirtyFrames _ _ _) (List.nodup_singleton g)]
        intro j
        rw [mem_dirtyFrames, List.mem_singleton]
        constructor
        · rintro ⟨_, _, hv, _⟩
          by_contra hj
          rw [hothers j hj] at hv
          cases hv
        · rintro rfl
          exact ⟨hglt, hgF, hg, hdirty⟩
      · exact List.Pairwise.sublist (List.filter_sublist _) (List.pairwise_lt_range _)
      · exact List.sorted_singleton g
    show (Disk.writeAll _ F (flushWrites _ F _)).pages F _ = _
    rw [flushWrites_eq h, hdf]
    simp [Disk.writeAll, Disk.writePage]

/-- Releasing as dirty and flushing the only resident page: the page sits in frame `g` of
`s`, pinned once, and every other frame is free. -/
theorem release_and_flush_single {s : BufMgr} (h : Inv s) {F P g : Nat} (hF : F ≠ 0)
    (hg : (s.bufDescTable g).valid = true) (hgF : (s.bufDescTable g).file = F)
    (hgP : (s.bufDescTable g).pageNo = P) (hpin : (s.bufDescTable g).pinCnt = 1)
    (hothers : ∀ j, j ≠ g → (s.bufDescTable j).valid = false) :
    ∃ s3 s4, unPinPage s F P true = (Except.ok (), s3) ∧
      flushFile s3 F = (Except.ok (), s4) ∧ Inv s4 ∧
      (∀ j, (s4.bufDescTable j).valid = false) ∧
      s4.disk.pages F (s.bufPool g).page_number = some (s.bufPool g) := by
  have hl : s.hashTable F P = some g := by
    have := h.lookup_of_valid hg
    rw [hgF, hgP] at this
    exact this
  have h3 := unPinPage_ok true hl (by omega)
  have hI3 := (unPinPage_sound h F P true).1
  rw [h3] at hI3
  obtain ⟨s4, h4, hI4, hall, hd⟩ := flush_single hI3 hF (g := g)
    (by simpa [BufMgr.setDesc] using hg) (by simpa [BufMgr.setDesc] using hgF)
    (by simp [BufMgr.setDesc, hpin]) (by simp [BufMgr.setDesc])
    (by
      intro j hj
      simpa [BufMgr.setDesc, hj] using hothers j hj)
  exact ⟨_, s4, h3, h4, hI4, hall, hd⟩

theorem RefCleared.dirtyFrames_eq {s s1 : BufMgr} (hR : RefCleared s s1) (file m : Nat) :
    dirtyFrames s1 file m = dirtyFrames s file m := by
  unfold dirtyFrames
  apply List.filter_congr
  intro j _
  rw [(hR.desc j).1]

theorem RefCleared.blocks_iff {s s1 : BufMgr} (hR : RefCleared s s1) (file j : Nat) :
    s1.blocks file j ↔ s.blocks file j := by
  unfold BufMgr.blocks
  rw [(hR.desc j).1]

/-- How a successful `allocBuf` proceeds: a sweep that only clears reference flags and
moves the clock hand reaches a state `s1` with the hand on the returned frame `f`; either
`f` is free there and nothing else happens, or `f` holds an unpinned page and the whole
file of that page is flushed without meeting a pinned frame. -/
theorem allocBuf_ok_cases {s s' : BufMgr} {f : Nat} (h : Inv s)
    (ha : allocBuf s = (Except.ok f, s')) :
    ∃ s1, RefCleared s s1 ∧ s1.clockHand = f ∧ f < s.numBufs ∧
      (((s1.bufDescTable f).valid = false ∧ s' = s1) ∨
       ((s1.bufDescTable f).valid = true ∧ (s1.bufDescTable f).pinCnt = 0 ∧
         (s1.bufDescTable f).refbit = false ∧
         (∀ j, j < s1.numBufs → ¬ s1.blocks (s1.bufDescTable f).file j) ∧
         s' = flushedUpTo s1 (s1.bufDescTable f).file s1.numBufs)) := by
  unfold allocBuf at ha
  cases hl : allocBufLoop (s.numBufs + 1) s with
  | mk r s2 =>
    rw [hl] at ha
    obtain ⟨s1, hR, hcase⟩ := allocBufLoop_cases _ s s2 r h.cap hl
    have hI1 : Inv s1 := hR.keeps_inv h
    have hlt : s1.clockHand < s.numBufs := by
      have := hI1.hand
      rw [hR.numBufs] at this
      exact this
    rcases hcase with ⟨hr, _⟩ | ⟨hr, hs, hv⟩ | ⟨hv, hrb, hp, hx⟩
    · subst hr
      simp at ha
    · subst hr
      subst hs
      simp only [Prod.mk.injEq, Except.ok.injEq] at ha
      obtain ⟨hf, hs'⟩ := ha
      subst hf
      rw [setDesc_Clear_of_invalid hI1 hv] at hs'
      exact ⟨s2, hR, rfl, hlt, Or.inl ⟨hv, hs'.symm⟩⟩
    · rcases first_block s1 (s1.bufDescTable s1.clockHand).file with hnone | ⟨m, hm, hbm, hlow⟩
      · rw [flushFile_ok_of_no_block hI1 _ hnone] at hx
        simp only [foundAfterFlush, Prod.mk.injEq] at hx
        obtain ⟨hr, hs2⟩ := hx
        subst hr
        subst hs2
        simp only [Prod.mk.injEq, Except.ok.injEq] at ha
        obtain ⟨hf, hs'⟩ := ha
        have hI3 : Inv (flushedUpTo s1 (s1.bufDescTable s1.clockHand).file s1.numBufs) := by
          have := (flushFile_keeps hI1 (s1.bufDescTable s1.clockHand).file).1
          rw [flushFile_ok_of_no_block hI1 _ hnone] at this
          exact this
        have hc : (flushedUpTo s1 (s1.bufDescTable s1.clockHand).file s1.numBufs).clockHand =
            s1.clockHand := rfl
        rw [hc] at hf hs'
        have hinv : ((flushedUpTo s1 (s1.bufDescTable s1.clockHand).file
            s1.numBufs).bufDescTable s1.clockHand).valid = false := by
          rw [flushedUpTo_desc_owned hI1 hI1.hand rfl hv]
          rfl
        rw [setDesc_Clear_of_invalid hI3 hinv] at hs'
        subst hf
        exact ⟨s1, hR, rfl, hlt, Or.inr ⟨hv, hp, hrb, hnone, hs'.symm⟩⟩
      · rw [flushFile_stops_at hI1 _ m hm hbm hlow] at hx
        simp only [foundAfterFlush, Prod.mk.injEq] at hx
        obtain ⟨hr, _⟩ := hx
        subst hr
        simp at ha

/-- The storage calls of a successful `allocBuf` that returns a frame holding a dirty
page: one `writePage` per dirty frame of the file of that page, in frame order. -/
theorem allocBuf_ok_log {s s' : BufMgr} {f : Nat} (h : Inv s)
    (ha : allocBuf s = (Except.ok f, s')) (hv : (s.bufDescTable f).valid = true) :
    (s.bufDescTable f).pinCnt = 0 ∧
    s'.disk.log = s.disk.log ++
      (dirtyFrames s (s.bufDescTable f).file s.numBufs).map
        (fun j => DiskOp.write (s.bufDescTable f).file (s.bufPool j)) := by
  obtain ⟨s1, hR, _, _, hcase⟩ := allocBuf_ok_cases h ha
  have hd := (hR.desc f).1
  have hfile : (s1.bufDescTable f).file = (s.bufDescTable f).file := by rw [hd]
  rcases hcase with ⟨hv1, _⟩ | ⟨_, hp, _, _, hs'⟩
  · rw [hd] at hv1
    simp only at hv1
    rw [hv] at hv1
    cases hv1
  · refine ⟨by rw [hd] at hp; exact hp, ?_⟩
    rw [hs', flushedUpTo_log (hR.keeps_inv h), hR.disk, hfile, hR.numBufs,
      hR.dirtyFrames_eq, hR.pool]

theorem Balanced.bal_congr {s s' : BufMgr} {b b' : Nat → Nat → Nat} (hb : Balanced s b)
    (h1 : s'.hashTable = s.hashTable) (h2 : s'.bufDescTable = s.bufDescTable)
    (h3 : ∀ f p, b' f p = b f p) : Balanced s' b' := by
  intro f p
  rw [h1, h2, h3]
  exact hb f p

theorem Sweep.balanced {s s' : BufMgr} {b : Nat → Nat → Nat} (h : Inv s) (hS : Sweep s s')
    (hb : Balanced s b) : Balanced s' b := by
  intro f p
  constructor
  · intro N hN
    obtain ⟨h1, hv⟩ := (hS.hash f p N).1 hN
    rw [(hS.valid_mono hv).2.2.2.1]
    exact (hb f p).1 N h1
  · intro hn
    cases hh : s.hashTable f p with
    | none => exact (hb f p).2 hh
    | some N =>
      have hbN := (hb f p).1 N hh
      rcases hS.desc N with ⟨a, _⟩ | ⟨_, p0, _⟩
      · have hv : (s'.bufDescTable N).valid = true := by
          rw [a]
          exact ((h.index f p N).1 hh).2.1
        have := (hS.hash f p N).2 ⟨hh, hv⟩
        rw [hn] at this
        cases this
      · rw [← hbN]
        exact p0

theorem returned_ok {α : Type} (a : α) : returned (Except.ok a : Except Exc α) = true := rfl

theorem returned_error {α : Type} (e : Exc) :
    returned (Except.error e : Except Exc α) = false := rfl

theorem readPage_balanced {s : BufMgr} {b : Nat → Nat → Nat} (h : Inv s)
    (hb : Balanced s b) (f0 p0 : Nat) :
    Balanced (readPage s f0 p0).2
      (fun f p => b f p +
        if (f0 = f ∧ p0 = p) ∧ returned (readPage s f0 p0).1 = true then 1 else 0) := by
  cases hh : s.hashTable f0 p0 with
  | some fr =>
    rw [readPage_hit hh]
    intro f p
    simp only [returned_ok, and_true]
    constructor
    · intro N hN
      have hN' : s.hashTable f p = some N := hN
      by_cases hk : f0 = f ∧ p0 = p
      · obtain ⟨rfl, rfl⟩ := hk
        have hNfr : N = fr := by
          rw [hh] at hN'
          exact (Option.some.inj hN').symm
        subst hNfr
        simp [BufMgr.setDesc, (hb f0 p0).1 N hh]
      · have hne : N ≠ fr := by
          intro e
          subst e
          have h1 := (h.index f p N).1 hN'
          have h2 := (h.index f0 p0 N).1 hh
          exact hk ⟨h2.2.2.1.symm.trans h1.2.2.1, h2.2.2.2.symm.trans h1.2.2.2⟩
        simp [BufMgr.setDesc, hne, hk, (hb f p).1 N hN']
    · intro hn
      have hn' : s.hashTable f p = none := hn
      have hk : ¬ (f0 = f ∧ p0 = p) := by
        rintro ⟨rfl, rfl⟩
        rw [hh] at hn'
        cases hn'
      simp [hk, (hb f p).2 hn']
  | none =>
    cases ha : allocBuf s with
    | mk r s1 =>
      obtain ⟨hI, hS, hpost⟩ := allocBuf_sound h ha
      have hb1 : Balanced s1 b := hS.balanced h hb
      cases r with
      | error e =>
        rw [readPage_miss_fail hh ha]
        exact hb1.bal_congr rfl rfl (fun f p => by simp [returned_error])
      | ok frame =>
        obtain ⟨_, _, hinv⟩ := hpost frame rfl
        cases hd : s1.disk.pages f0 p0 with
        | none =>
          rw [readPage_miss_noPage hh ha hd]
          exact hb1.bal_congr rfl rfl (fun f p => by simp [returned_error])
        | some pg =>
          cases hn : s1.hashTable f0 p0 with
          | some M =>
            rw [readPage_miss_dup hh ha hd hn]
            exact hb1.bal_congr rfl rfl (fun f p => by simp [returned_error])
          | none =>
            rw [readPage_miss_ok hh ha hd hn]
            intro f p
            simp only [returned_ok, and_true]
            by_cases hk : f0 = f ∧ p0 = p
            · obtain ⟨rfl, rfl⟩ := hk
              constructor
              · intro N hN
                have hNf : N = frame := by
                  simp [install] at hN
                  exact hN.symm
                subst hNf
                simp [install, BufDesc.Set, (hb1 f0 p0).2 hn]
              · intro hc
                simp [install] at hc
            · have hk' : ¬ (f = f0 ∧ p = p0) := fun e => hk ⟨e.1.symm, e.2.symm⟩
              constructor
              · intro N hN
                have hN' : s1.hashTable f p = some N := by
                  simpa [install, hk', loadPage] using hN
                have hne : N ≠ frame := by
                  intro e
                  subst e
                  have := ((hI.index f p N).1 hN').2.1
                  rw [hinv] at this
                  cases this
                simp [install, hne, hk, loadPage, (hb1 f p).1 N hN']
              · intro hc
                have hc' : s1.hashTable f p = none := by
                  simpa [install, hk', loadPage] using hc
                simp [hk, (hb1 f p).2 hc']

theorem unPinPage_balanced {s : BufMgr} {b : Nat → Nat → Nat} (h : Inv s)
    (hb : Balanced s b) (f0 p0 : Nat) (dirty : Bool) :
    ∃ b1, Balanced (unPinPage s f0 p0 dirty).2 b1 ∧
      ∀ f p, b1 f p +
        (if (f0 = f ∧ p0 = p) ∧ returned (unPinPage s f0 p0 dirty).1 = true then 1 else 0) =
        b f p := by
  cases hh : s.hashTable f0 p0 with
  | none =>
    rw [unPinPage_miss dirty hh]
    exact ⟨b, hb, fun f p => by simp [returned_error]⟩
  | some fr =>
    by_cases hp : (s.bufDescTable fr).pinCnt = 0
    · rw [unPinPage_zero dirty hh hp]
      exact ⟨b, hb, fun f p => by simp [returned_error]⟩
    · rw [unPinPage_ok dirty hh (Nat.pos_of_ne_zero hp)]
      have hbfr := (hb f0 p0).1 fr hh
      refine ⟨fun f p => b f p - if f0 = f ∧ p0 = p then 1 else 0, ?_, ?_⟩
      · intro f p
        constructor
        · intro N hN
          have hN' : s.hashTable f p = some N := hN
          by_cases hk : f0 = f ∧ p0 = p
          · obtain ⟨rfl, rfl⟩ := hk
            have hNfr : N = fr := by
              rw [hh] at hN'
              exact (Option.some.inj hN').symm
            subst hNfr
            simp [BufMgr.setDesc, hbfr]
          · have hne : N ≠ fr := by
              intro e
              subst e
              have h1 := (h.index f p N).1 hN'
              have h2 := (h.index f0 p0 N).1 hh
              exact hk ⟨h2.2.2.1.symm.trans h1.2.2.1, h2.2.2.2.symm.trans h1.2.2.2⟩
            simp [BufMgr.setDesc, hne, hk, (hb f p).1 N hN']
        · intro hn
          have hn' : s.hashTable f p = none := hn
          simp [(hb f p).2 hn']
      · intro f p
        simp only [returned_ok, and_true]
        by_cases hk : f0 = f ∧ p0 = p
        · obtain ⟨rfl, rfl⟩ := hk
          simp only [and_self, if_true]
          omega
        · simp [hk]

theorem Call.run_inv {s : BufMgr} (h : Inv s) (c : Call) : Inv (c.run s) := by
  cases c with
  | read file pageNo => exact (readPage_sound h file pageNo).1
  | unpin file pageNo dirty => exact (unPinPage_sound h file pageNo dirty).1

theorem Call.run_balanced {s : BufMgr} {b : Nat → Nat → Nat} (h : Inv s)
    (hb : Balanced s b) (c : Call) :
    ∃ b1, Balanced (c.run s) b1 ∧
      ∀ f p, b1 f p + (if c.releases s f p = true then 1 else 0) =
        b f p + (if c.fetches s f p = true then 1 else 0) := by
  cases c with
  | read file pageNo =>
    refine ⟨_, readPage_balanced h hb file pageNo, fun f p => ?_⟩
    simp [Call.releases, Call.fetches]
  | unpin file pageNo dirty =>
    obtain ⟨b1, hb1, he⟩ := unPinPage_balanced h hb file pageNo dirty
    refine ⟨b1, hb1, fun f p => ?_⟩
    have := he f p
    simp only [Call.releases, Call.fetches, Bool.and_eq_true, decide_eq_true_eq]
    simpa using this

theorem runCalls_balanced (cs : List Call) :
    ∀ (s : BufMgr) (b : Nat → Nat → Nat), Inv s → Balanced s b →
      Inv (runCalls s cs) ∧
      ∃ b1, Balanced (runCalls s cs) b1 ∧
        ∀ f p, b1 f p + unpinCount s cs f p = b f p + fetchCount s cs f p := by
  induction cs with
  | nil =>
    intro s b h hb
    exact ⟨h, b, hb, fun f p => rfl⟩
  | cons c cs ih =>
    intro s b h hb
    obtain ⟨b1, hb1, he1⟩ := Call.run_balanced h hb c
    obtain ⟨hI, b2, hb2, he2⟩ := ih (c.run s) b1 (Call.run_inv h c) hb1
    refine ⟨hI, b2, hb2, fun f p => ?_⟩
    have e1 := he1 f p
    have e2 := he2 f p
    simp only [unpinCount, fetchCount]
    omega

/-- A run of the `allocBuf` loop that ends through `break` consists of `j` iterations that
all ended in `continue`, leaving the state `t`, and of one more iteration, run from `t`,
that left the loop. -/
theorem allocBufLoop_found (k : Nat) :
    ∀ (s s2 : BufMgr), allocBufLoop k s = (Except.ok true, s2) →
      ∃ j t, j < k ∧ allocBufLoop j s = (Except.ok false, t) ∧
        allocBufBody t = (Except.ok true, s2) := by
  induction k with
  | zero =>
    intro s s2 h
    simp [allocBufLoop] at h
  | succ k ih =>
    intro s s2 h
    simp only [allocBufLoop] at h
    cases hb : allocBufBody s with
    | mk r s1 =>
      rw [hb] at h
      cases r with
      | error e => simp at h
      | ok b =>
        cases b with
        | true =>
          simp only [Prod.mk.injEq, true_and] at h
          subst h
          exact ⟨0, s, Nat.succ_pos k, rfl, hb⟩
        | false =>
          simp only at h
          obtain ⟨j, t, hj, hl, ht⟩ := ih s1 s2 h
          refine ⟨j + 1, t, Nat.succ_lt_succ hj, ?_, ht⟩
          simp only [allocBufLoop, hb]
          exact hl

theorem allocBufLoop_continued {k : Nat} {s t : BufMgr} (hc : 0 < s.numBufs)
    (h : allocBufLoop k s = (Except.ok false, t)) : RefCleared s t := by
  obtain ⟨s1, hR, hcase⟩ := allocBufLoop_cases k s t _ hc h
  rcases hcase with ⟨_, hs⟩ | ⟨hr, _, _⟩ | ⟨_, _, _, hx⟩
  · rw [hs]
    exact hR
  · cases hr
  · cases hfl : flushFile s1 (s1.bufDescTable s1.clockHand).file with
    | mk r1 s3 =>
      rw [hfl] at hx
      cases r1 with
      | ok u => simp [foundAfterFlush] at hx
      | error e1 => simp [foundAfterFlush] at hx

/-- What the iteration that leaves the `allocBuf` loop has examined: the hand, advanced
from `t`, stands on a frame that is invalid, or valid with pin count 0 and reference flag
clear; the state left has the same clock hand. -/
theorem allocBufBody_break {t s2 : BufMgr} (h : allocBufBody t = (Except.ok true, s2)) :
    s2.clockHand = (advanceClock t).clockHand ∧
    (((advanceClock t).bufDescTable (advanceClock t).clockHand).valid = false ∨
      (((advanceClock t).bufDescTable (advanceClock t).clockHand).valid = true ∧
        ((advanceClock t).bufDescTable (advanceClock t).clockHand).pinCnt = 0 ∧
        ((advanceClock t).bufDescTable (advanceClock t).clockHand).refbit = false)) := by
  rcases allocBufBody_cases t with ⟨hv, e⟩ | ⟨_, _, e⟩ | ⟨_, _, _, e⟩ | ⟨hv, hr, hp, e⟩
  · rw [e] at h
    simp only [Prod.mk.injEq, true_and] at h
    subst h
    exact ⟨rfl, Or.inl hv⟩
  · rw [e] at h
    simp at h
  · rw [e] at h
    simp at h
  · refine ⟨?_, Or.inr ⟨hv, hp, hr⟩⟩
    rw [e] at h
    have hh := flushFileLoop_hand (advanceClock t).numBufs 0 (advanceClock t)
      ((advanceClock t).bufDescTable (advanceClock t).clockHand).file
    cases hfl : flushFile (advanceClock t)
        ((advanceClock t).bufDescTable (advanceClock t).clockHand).file with
    | mk r1 s3 =>
      rw [hfl] at h
      unfold flushFile at hfl
      rw [hfl] at hh
      cases r1 with
      | error e1 => simp [foundAfterFlush] at h
      | ok u =>
        simp only [foundAfterFlush, Prod.mk.injEq, true_and] at h
        subst h
        exact hh

theorem Disk.wellFormed_writePage {d : Disk} (h : d.wellFormed) (file : Nat) (pg : Page) :
    (d.writePage file pg).wellFormed := by
  intro f p pg1 hp
  simp only [Disk.writePage] at hp
  split at hp
  · next hk =>
    cases hp
    exact hk.2.symm
  · exact h f p pg1 hp

theorem Disk.wellFormed_writeAll (file : Nat) (pgs : List Page) :
    ∀ d : Disk, d.wellFormed → (d.writeAll file pgs).wellFormed := by
  induction pgs with
  | nil => intro d h; exact h
  | cons pg pgs ih =>
    intro d h
    exact ih (d.writePage file pg) (Disk.wellFormed_writePage h file pg)

theorem Disk.wellFormed_allocatePage {d : Disk} (h : d.wellFormed) (file : Nat) :
    (d.allocatePage file).2.wellFormed := by
  intro f p pg1 hp
  simp only [Disk.allocatePage] at hp
  split at hp
  · next hk =>
    cases hp
    exact hk.2.symm
  · exact h f p pg1 hp

theorem Disk.wellFormed_deletePage {d : Disk} (h : d.wellFormed) (file pageNo : Nat) :
    (d.deletePage file pageNo).wellFormed := by
  intro f p pg1 hp
  simp only [Disk.deletePage] at hp
  split at hp
  · cases hp
  · exact h f p pg1 hp

theorem Disk.wellFormed_readPage {d : Disk} (h : d.wellFormed) (file pageNo : Nat) :
    (d.readPage file pageNo).2.wellFormed := h

theorem writeBack_disk_wf {s : BufMgr} (h : s.disk.wellFormed) (i : Nat) :
    (writeBack s i).disk.wellFormed := by
  rw [writeBack_disk]
  split
  · exact Disk.wellFormed_writePage h _ _
  · exact h

theorem flushFileLoop_disk_wf (file : Nat) (k : Nat) :
    ∀ (i : Nat) (s : BufMgr), s.disk.wellFormed →
      (flushFileLoop file k i s).2.disk.wellFormed := by
  induction k with
  | zero => intro i s h; exact h
  | succ k ih =>
    intro i s h
    simp only [flushFileLoop]
    rcases flushFileBody_cases file i s with ⟨_, _, _, e⟩ | ⟨_, _, _, _, e⟩ |
      ⟨_, _, _, _, e⟩ | ⟨_, _, e⟩ | ⟨_, e⟩ <;> rw [e] <;> simp only
    · exact h
    · exact writeBack_disk_wf h i
    · exact ih _ _ (writeBack_disk_wf h i)
    · exact h
    · exact ih _ _ h

theorem flushFile_disk_wf {s : BufMgr} (h : s.disk.wellFormed) (file : Nat) :
    (flushFile s file).2.disk.wellFormed :=
  flushFileLoop_disk_wf file s.numBufs 0 s h

theorem allocBufLoop_disk_wf (k : Nat) :
    ∀ s : BufMgr, s.disk.wellFormed → (allocBufLoop k s).2.disk.wellFormed := by
  induction k with
  | zero => intro s h; exact h
  | succ k ih =>
    intro s h
    simp only [allocBufLoop]
    rcases allocBufBody_cases s with ⟨_, e⟩ | ⟨_, _, e⟩ | ⟨_, _, _, e⟩ | ⟨_, _, _, e⟩
    · rw [e]
      exact h
    · rw [e]
      exact ih _ h
    · rw [e]
      exact ih _ h
    · rw [e]
      have hf := flushFile_disk_wf (s := advanceClock s) h
        ((advanceClock s).bufDescTable (advanceClock s).clockHand).file
      cases hx : flushFile (advanceClock s)
          ((advanceClock s).bufDescTable (advanceClock s).clockHand).file with
      | mk r1 s2 =>
        rw [hx] at hf
        cases r1 with
        | error e1 => exact hf
        | ok u => exact hf

theorem allocBuf_disk_wf {s : BufMgr} (h : s.disk.wellFormed) :
    (allocBuf s).2.disk.wellFormed := by
  have := allocBufLoop_disk_wf (s.numBufs + 1) s h
  unfold allocBuf
  cases hl : allocBufLoop (s.numBufs + 1) s with
  | mk r s1 =>
    rw [hl] at this
    cases r with
    | error e => exact this
    | ok b =>
      cases b with
      | false => exact this
      | true => exact this

theorem Sweep.keeps_pool {s s' : BufMgr} (hS : Sweep s s') (hp : s.poolMatches) :
    s'.poolMatches := by
  intro j hv
  obtain ⟨hv0, _, hpn, _, _⟩ := hS.valid_mono hv
  rw [hS.pool, hpn]
  exact hp j hv0

theorem WF.at_init (bufs : Nat) (disk : Disk) (h : 1 ≤ bufs) (hd : disk.wellFormed) :
    WF (BufMgr.new bufs disk) where
  inv := BufMgr.new_Inv bufs disk h
  disk := hd
  pool := by
    intro j hv
    simp [BufMgr.new] at hv

theorem WF.after_setDesc {s : BufMgr} (h : WF s) {i : Nat} {d : BufDesc}
    (hv : (s.bufDescTable i).valid = true) (hv' : d.valid = true)
    (hf : d.file = (s.bufDescTable i).file) (hp : d.pageNo = (s.bufDescTable i).pageNo)
    (hn : d.frameNo = (s.bufDescTable i).frameNo) : WF (s.setDesc i d) where
  inv := h.inv.setDesc_same hv hv' hf hp hn
  disk := h.disk
  pool := by
    intro j hvj
    by_cases hj : j = i
    · subst hj
      simpa [BufMgr.setDesc, hp] using h.pool j hv
    · have hvj' : (s.bufDescTable j).valid = true := by
        simpa [BufMgr.setDesc, hj] using hvj
      simpa [BufMgr.setDesc, hj] using h.pool j hvj'

theorem WF.after_readPage {s : BufMgr} (h : WF s) (file pageNo : Nat) :
    WF (readPage s file pageNo).2 := by
  cases hh : s.hashTable file pageNo with
  | some frame =>
    rw [readPage_hit hh]
    have hv := ((h.inv.index _ _ _).1 hh).2.1
    exact h.after_setDesc hv hv rfl rfl rfl
  | none =>
    cases ha : allocBuf s with
    | mk r s1 =>
      obtain ⟨hI, hS, hpost⟩ := allocBuf_sound h.inv ha
      have hd1 : s1.disk.wellFormed := by
        have := allocBuf_disk_wf h.disk
        rw [ha] at this
        exact this
      have hp1 : s1.poolMatches := hS.keeps_pool h.pool
      cases r with
      | error e =>
        rw [readPage_miss_fail hh ha]
        exact ⟨hI, hd1, hp1⟩
      | ok frame =>
        obtain ⟨_, hlt, hinv⟩ := hpost frame rfl
        cases hd : s1.disk.pages file pageNo with
        | none =>
          rw [readPage_miss_noPage hh ha hd]
          exact ⟨hI.congr rfl rfl rfl rfl, hd1, hp1⟩
        | some pg =>
          have hload : s1.bufPool = s1.bufPool := rfl
          have hp2 : (loadPage s1 frame file pageNo pg).poolMatches := by
            intro j hv
            have hv' : (s1.bufDescTable j).valid = true := hv
            have hne : j ≠ frame := by
              intro e
              subst e
              rw [hinv] at hv'
              cases hv'
            simpa [loadPage, hne] using hp1 j hv'
          cases hn : s1.hashTable file pageNo with
          | some M =>
            rw [readPage_miss_dup hh ha hd hn]
            exact ⟨hI.congr rfl rfl rfl rfl, hd1, hp2⟩
          | none =>
            rw [readPage_miss_ok hh ha hd hn]
            have hI2 : Inv (loadPage s1 frame file pageNo pg) := hI.congr rfl rfl rfl rfl
            refine ⟨install_Inv hI2 (by rw [← hS.numBufs] at hlt; exact hlt) hinv hn, hd1, ?_⟩
            intro j hv
            by_cases hj : j = frame
            · subst hj
              simpa [install, loadPage, BufDesc.Set] using hd1 file pageNo pg hd
            · have hv' : (s1.bufDescTable j).valid = true := by
                simpa [install, hj, loadPage] using hv
              simpa [install, hj, loadPage] using hp1 j hv'

theorem WF.after_allocPage {s : BufMgr} (h : WF s) (file : Nat) : WF (allocPage s file).2 := by
  have h0 : Inv (afterAllocate s file) := h.inv.congr rfl rfl rfl rfl
  have hd0 : (afterAllocate s file).disk.wellFormed :=
    Disk.wellFormed_allocatePage h.disk file
  cases ha : allocBuf (afterAllocate s file) with
  | mk r s1 =>
    obtain ⟨hI, hS, hpost⟩ := allocBuf_sound h0 ha
    have hd1 : s1.disk.wellFormed := by
      have := allocBuf_disk_wf hd0
      rw [ha] at this
      exact this
    have hp1 : s1.poolMatches := hS.keeps_pool (s := afterAllocate s file) h.pool
    cases r with
    | error e =>
      rw [allocPage_fail ha]
      exact ⟨hI, hd1, hp1⟩
    | ok frame =>
      obtain ⟨_, hlt, hinv⟩ := hpost frame rfl
      have hp2 : (storePage s1 frame (s.disk.allocatePage file).1).poolMatches := by
        intro j hv
        have hv' : (s1.bufDescTable j).valid = true := hv
        have hne : j ≠ frame := by
          intro e
          subst e
          rw [hinv] at hv'
          cases hv'
        simpa [storePage, hne] using hp1 j hv'
      have hI2 : Inv (storePage s1 frame (s.disk.allocatePage file).1) :=
        hI.congr rfl rfl rfl rfl
      cases hn : s1.hashTable file (s.disk.allocatePage file).1.page_number with
      | some M =>
        rw [allocPage_dup ha hn]
        exact ⟨hI2, hd1, hp2⟩
      | none =>
        rw [allocPage_ok ha hn]
        refine ⟨install_Inv hI2 (by rw [← hS.numBufs] at hlt; exact hlt) hinv hn, hd1, ?_⟩
        intro j hv
        by_cases hj : j = frame
        · subst hj
          simp [install, storePage, BufDesc.Set]
        · have hv' : (s1.bufDescTable j).valid = true := by
            simpa [install, hj, storePage] using hv
          simpa [install, hj, storePage] using hp1 j hv'

theorem WF.after_unPinPage {s : BufMgr} (h : WF s) (file pageNo : Nat) (dirty : Bool) :
    WF (unPinPage s file pageNo dirty).2 := by
  cases hh : s.hashTable file pageNo with
  | none =>
    rw [unPinPage_miss dirty hh]
    exact h
  | some frame =>
    by_cases hp : 0 < (s.bufDescTable frame).pinCnt
    · rw [unPinPage_ok dirty hh hp]
      have hv := ((h.inv.index _ _ _).1 hh).2.1
      exact h.after_setDesc hv hv rfl rfl rfl
    · rw [unPinPage_zero dirty hh (by omega)]
      exact h

theorem WF.after_flushFile {s : BufMgr} (h : WF s) (file : Nat) : WF (flushFile s file).2 := by
  cases hf : flushFile s file with
  | mk r s1 =>
    obtain ⟨hI, hS, _, _⟩ := flushFile_sound h.inv hf
    have hd := flushFile_disk_wf h.disk file
    rw [hf] at hd
    exact ⟨hI, hd, hS.keeps_pool h.pool⟩

theorem WF.after_disposePage {s : BufMgr} (h : WF s) (file pageNo : Nat) :
    WF (disposePage s file pageNo).2 := by
  have hI := disposePage_Inv h.inv file pageNo
  cases hh : s.hashTable file pageNo with
  | none =>
    rw [disposePage_miss hh]
    exact h
  | some frame =>
    rw [disposePage_hit hh] at hI ⊢
    refine ⟨hI, Disk.wellFormed_deletePage h.disk file pageNo, ?_⟩
    intro j hv
    by_cases hj : j = frame
    · subst hj
      simp [BufDesc.Clear] at hv
    · have hv' : (s.bufDescTable j).valid = true := by
        simpa [hj] using hv
      simpa [hj] using h.pool j hv'

theorem WF.after_overwrite {s : BufMgr} (h : WF s) (frame : Nat) (pg : Page)
    (hpg : (s.bufDescTable frame).valid = true → pg.page_number = (s.bufDescTable frame).pageNo) :
    WF (writeCached s frame pg) where
  inv := h.inv.congr rfl rfl rfl rfl
  disk := h.disk
  pool := by
    intro j hv
    have hv' : (s.bufDescTable j).valid = true := hv
    by_cases hj : j = frame
    · subst hj
      simpa [writeCached] using hpg hv'
    · simpa [writeCached, hj] using h.pool j hv'

theorem ReachableWF.wf {s : BufMgr} (h : ReachableWF s) : WF s := by
  induction h with
  | init bufs disk hb hd => exact WF.at_init bufs disk hb hd
  | readPage s file pageNo _ ih => exact ih.after_readPage file pageNo
  | unPinPage s file pageNo dirty _ ih => exact ih.after_unPinPage file pageNo dirty
  | flushFile s file _ ih => exact ih.after_flushFile file
  | allocPage s file _ ih => exact ih.after_allocPage file
  | disposePage s file pageNo _ ih => exact ih.after_disposePage file pageNo
  | overwrite s frame data _ ih =>
    exact ih.after_overwrite frame _ (fun hv => ih.pool frame hv)

theorem stubDisk_wellFormed : stubDisk.wellFormed := by
  intro f p pg h
  simp only [stubDisk, Option.some.injEq] at h
  rw [← h]

theorem onePinnedSwept_reachableWF : ReachableWF onePinnedSwept :=
  ReachableWF.readPage _ 3 3 (ReachableWF.unPinPage _ 2 2 false
    (ReachableWF.readPage _ 2 2 (ReachableWF.readPage _ 1 1
      (ReachableWF.init 2 stubDisk (by decide) stubDisk_wellFormed))))

theorem Disk.writeAll_pages_mem (file p : Nat) (pg : Page) (hp : pg.page_number = p)
    (pgs : List Page) :
    ∀ d : Disk, pg ∈ pgs → (∀ q, q ∈ pgs → q.page_number = p → q = pg) →
      (d.writeAll file pgs).pages file p = some pg := by
  induction pgs using List.reverseRecOn with
  | nil =>
    intro d hm
    cases hm
  | append_singleton xs x ih =>
    intro d hm hu
    rw [Disk.writeAll_append]
    show ((d.writeAll file xs).writePage file x).pages file p = some pg
    by_cases hx : x.page_number = p
    · have hxp : x = pg := hu x (by simp) hx
      simp [Disk.writePage, hxp, hp]
    · have hne : p ≠ x.page_number := fun e => hx e.symm
      have hm' : pg ∈ xs := by
        rcases List.mem_append.1 hm with h | h
        · exact h
        · have : pg = x := by simpa using h
          rw [this] at hp
          exact absurd hp hx
      simp only [Disk.writePage, hne, and_false, if_false]
      exact ih d hm' (fun q hq hqp => hu q (List.mem_append_left _ hq) hqp)

theorem readPage_ok_resident {s s1 : BufMgr} {F P f : Nat}
    (h1 : readPage s F P = (Except.ok f, s1)) :
    s1.hashTable F P = some f ∧ 0 < (s1.bufDescTable f).pinCnt := by
  cases hh : s.hashTable F P with
  | some frame =>
    rw [readPage_hit hh] at h1
    obtain ⟨e1, e2⟩ := Prod.mk.inj h1
    cases e1
    subst e2
    refine ⟨hh, ?_⟩
    simp [BufMgr.setDesc]
  | none =>
    cases ha : allocBuf s with
    | mk r a =>
      cases r with
      | error e =>
        rw [readPage_miss_fail hh ha] at h1
        cases (Prod.mk.inj h1).1
      | ok frame =>
        cases hd : a.disk.pages F P with
        | none =>
          rw [readPage_miss_noPage hh ha hd] at h1
          cases (Prod.mk.inj h1).1
        | some pg =>
          cases hn : a.hashTable F P with
          | some M =>
            rw [readPage_miss_dup hh ha hd hn] at h1
            cases (Prod.mk.inj h1).1
          | none =>
            rw [readPage_miss_ok hh ha hd hn] at h1
            obtain ⟨e1, e2⟩ := Prod.mk.inj h1
            cases e1
            subst e2
            simp [install, BufDesc.Set]

theorem readPage_pool_others {s s1 : BufMgr} {F P f : Nat} (h : Inv s) (hp : s.poolMatches)
    (h1 : readPage s F P = (Except.ok f, s1)) :
    ∀ j, j ≠ f → (s1.bufDescTable j).valid = true →
      (s1.bufPool j).page_number = (s1.bufDescTable j).pageNo := by
  cases hh : s.hashTable F P with
  | some frame =>
    rw [readPage_hit hh] at h1
    obtain ⟨e1, e2⟩ := Prod.mk.inj h1
    cases e1
    subst e2
    intro j hj hv
    have hv' : (s.bufDescTable j).valid = true := by
      simpa [BufMgr.setDesc, hj] using hv
    simpa [BufMgr.setDesc, hj] using hp j hv'
  | none =>
    cases ha : allocBuf s with
    | mk r a =>
      obtain ⟨_, hS, _⟩ := allocBuf_sound h ha
      have hpa : a.poolMatches := hS.keeps_pool hp
      cases r with
      | error e =>
        rw [readPage_miss_fail hh ha] at h1
        cases (Prod.mk.inj h1).1
      | ok frame =>
        cases hd : a.disk.pages F P with
        | none =>
          rw [readPage_miss_noPage hh ha hd] at h1
          cases (Prod.mk.inj h1).1
        | some pg =>
          cases hn : a.hashTable F P with
          | some M =>
            rw [readPage_miss_dup hh ha hd hn] at h1
            cases (Prod.mk.inj h1).1
          | none =>
            rw [readPage_miss_ok hh ha hd hn] at h1
            obtain ⟨e1, e2⟩ := Prod.mk.inj h1
            cases e1
            subst e2
            intro j hj hv
            have hv' : (a.bufDescTable j).valid = true := by
              simpa [install, hj, loadPage] using hv
            simpa [install, hj, loadPage] using hpa j hv'

theorem flush_stores {t s4 : BufMgr} (h : Inv t) {F P f : Nat}
    (hres : t.hashTable F P = some f) (hd : (t.bufDescTable f).dirty = true)
    (hpf : (t.bufPool f).page_number = P)
    (hoth : ∀ j, j ≠ f → (t.bufDescTable j).valid = true →
      (t.bufPool j).page_number = (t.bufDescTable j).pageNo)
    (h4 : flushFile t F = (Except.ok (), s4)) :
    f ∈ dirtyFrames t F t.numBufs ∧
    s4.disk.log = t.disk.log ++
      (dirtyFrames t F t.numBufs).map (fun j => DiskOp.write F (t.bufPool j)) ∧
    s4.disk.pages F P = some (t.bufPool f) ∧ s4.hashTable F P = none ∧
    (∀ j, (s4.bufDescTable j).valid = true → (s4.bufDescTable j).file ≠ F) := by
  obtain ⟨hfN, hfv, hfF, hfP⟩ := (h.index F P f).1 hres
  rcases first_block t F with hnb | ⟨m, hm, hblock, hb⟩
  · rw [flushFile_ok_of_no_block h F hnb] at h4
    have e : flushedUpTo t F t.numBufs = s4 := (Prod.mk.inj h4).2
    subst e
    have hmem : f ∈ dirtyFrames t F t.numBufs :=
      (mem_dirtyFrames t F t.numBufs f).2 ⟨hfN, hfF, hfv, hd⟩
    refine ⟨hmem, flushedUpTo_log h F t.numBufs, ?_, ?_, ?_⟩
    · show (t.disk.writeAll F (flushWrites t F t.numBufs)).pages F P = some (t.bufPool f)
      rw [flushWrites_eq h]
      apply Disk.writeAll_pages_mem F P (t.bufPool f) hpf
      · exact List.mem_map.2 ⟨f, hmem, rfl⟩
      · intro q hq hqP
        obtain ⟨j, hj, rfl⟩ := List.mem_map.1 hq
        obtain ⟨hjN, hjF, hjv, _⟩ := (mem_dirtyFrames t F t.numBufs j).1 hj
        by_cases e : j = f
        · rw [e]
        · have hjP := hoth j e hjv
          rw [hqP] at hjP
          have hlook : t.hashTable F P = some j :=
            (h.index F P j).2 ⟨hjN, hjv, hjF, hjP.symm⟩
          rw [hres] at hlook
          exact absurd (Option.some.inj hlook).symm e
    · exact flushedUpTo_hash_removed t hres ⟨hfN, hfF, hfv⟩
    · intro j hv hfile
      by_cases c : j < t.numBufs ∧ (t.bufDescTable j).file = F ∧
          (t.bufDescTable j).valid = true
      · rw [flushedUpTo_desc_owned h c.1 c.2.1 c.2.2] at hv
        simp [BufDesc.empty] at hv
      · rw [flushedUpTo_desc_other t c] at hv hfile
        exact c ⟨h.valid_lt hv, hfile, hv⟩
  · rw [flushFile_stops_at h F m hm hblock hb] at h4
    have := (Prod.mk.inj h4).1
    cases this

theorem readPage_reloads {s4 s5 : BufMgr} (h : Inv s4) {F P g : Nat} {pg : Page}
    (hnone : s4.hashTable F P = none)
    (hfile : ∀ j, (s4.bufDescTable j).valid = true → (s4.bufDescTable j).file ≠ F)
    (hd : s4.disk.pages F P = some pg)
    (h5 : readPage s4 F P = (Except.ok g, s5)) :
    ∃ a, allocBuf s4 = (Except.ok g, a) ∧ a.disk.pages F P = some pg ∧
      s5 = install (loadPage a g F P pg) g F P := by
  cases ha : allocBuf s4 with
  | mk r a =>
    cases r with
    | error e =>
      rw [readPage_miss_fail hnone ha] at h5
      cases (Prod.mk.inj h5).1
    | ok frame =>
      have hdisk : a.disk.pages F P = some pg := by
        obtain ⟨t, hRC, _, _, hc⟩ := allocBuf_ok_cases h ha
        rcases hc with ⟨_, e⟩ | ⟨hv, _, _, _, e⟩
        · rw [e, hRC.disk]
          exact hd
        · have hd4 := (hRC.desc frame).1
          have hv4 : (s4.bufDescTable frame).valid = true := by
            rw [hd4] at hv
            exact hv
          have hf4 : (t.bufDescTable frame).file = (s4.bufDescTable frame).file := by
            rw [hd4]
          have hne : F ≠ (t.bufDescTable frame).file := by
            rw [hf4]
            exact fun e => hfile frame hv4 e.symm
          rw [e]
          show (t.disk.writeAll (t.bufDescTable frame).file _).pages F P = some pg
          rw [Disk.writeAll_pages_other _ _ _ _ _ hne, hRC.disk]
          exact hd
      cases hn : a.hashTable F P with
      | some M =>
        rw [readPage_miss_dup hnone ha hdisk hn] at h5
        cases (Prod.mk.inj h5).1
      | none =>
        rw [readPage_miss_ok hnone ha hdisk hn] at h5
        obtain ⟨e1, e2⟩ := Prod.mk.inj h5
        cases e1
        exact ⟨a, rfl, hdisk, e2.symm⟩

theorem roundTrip_eq {s s1 s3 s4 s5 : BufMgr} {F P D f g : Nat}
    (h1 : readPage s F P = (Except.ok f, s1))
    (h3 : unPinPage (writeCached s1 f { page_number := P, data := D }) F P true =
      (Except.ok (), s3))
    (h4 : flushFile s3 F = (Except.ok (), s4))
    (h5 : readPage s4 F P = (Except.ok g, s5)) :
    roundTrip s F P D = some (s5.bufPool g) := by
  simp only [roundTrip, h1, h3, h4, h5]

theorem ThroughStorage.of_run {s : BufMgr} {F P D f g : Nat} (hI : Inv s)
    (hp : s.poolMatches) (h1 : (readPage s F P).1 = Except.ok f)
    (h4 : (flushFile (released s F P D f) F).1 = Except.ok ())
    (h5 : (readPage (flushed s F P D f) F P).1 = Except.ok g) :
    ThroughStorage s F P D f g := by
  have e1 : readPage s F P = (Except.ok f, (readPage s F P).2) := Prod.ext h1 rfl
  have e4 : flushFile (released s F P D f) F = (Except.ok (), flushed s F P D f) :=
    Prod.ext h4 rfl
  have e5 : readPage (flushed s F P D f) F P =
      (Except.ok g, (readPage (flushed s F P D f) F P).2) := Prod.ext h5 rfl
  have hI1 : Inv (readPage s F P).2 := (readPage_sound hI F P).1
  obtain ⟨hres, hpin⟩ := readPage_ok_resident e1
  obtain ⟨hfN, hfv, hfF, hfP⟩ := (hI1.index F P f).1 hres
  have hoth := readPage_pool_others hI hp e1
  have hI2 : Inv (writeCached (readPage s F P).2 f { page_number := P, data := D }) :=
    hI1.congr rfl rfl rfl rfl
  have h3 := unPinPage_ok (s := writeCached (readPage s F P).2 f
    { page_number := P, data := D }) true hres hpin
  have hI3 : Inv (released s F P D f) := (unPinPage_sound hI2 F P true).1
  have hrel : released s F P D f =
      (writeCached (readPage s F P).2 f { page_number := P, data := D }).setDesc f
        { (writeCached (readPage s F P).2 f
            { page_number := P, data := D }).bufDescTable f with
          pinCnt := ((writeCached (readPage s F P).2 f
            { page_number := P, data := D }).bufDescTable f).pinCnt - 1
          dirty := ((writeCached (readPage s F P).2 f
            { page_number := P, data := D }).bufDescTable f).dirty || true } := by
    unfold released
    rw [h3]
  have hres3 : (released s F P D f).hashTable F P = some f := by
    rw [hrel]
    exact hres
  have hd3 : ((released s F P D f).bufDescTable f).dirty = true := by
    rw [hrel]
    simp [BufMgr.setDesc]
  have hc3 : (released s F P D f).bufPool f = { page_number := P, data := D } := by
    rw [hrel]
    simp [BufMgr.setDesc, writeCached]
  have hoth3 : ∀ j, j ≠ f → ((released s F P D f).bufDescTable j).valid = true →
      ((released s F P D f).bufPool j).page_number =
        ((released s F P D f).bufDescTable j).pageNo := by
    intro j hj
    rw [hrel]
    simpa [BufMgr.setDesc, writeCached, hj] using hoth j hj
  obtain ⟨hmem, hlog, hst, habs, hfile⟩ :=
    flush_stores hI3 hres3 hd3 (by rw [hc3]) hoth3 e4
  rw [hc3] at hst
  have hI4 : Inv (flushed s F P D f) := (flushFile_sound hI3 e4).1
  obtain ⟨a, ha, had, h5'⟩ := readPage_reloads hI4 habs hfile hst e5
  have h3' : unPinPage (writeCached (readPage s F P).2 f { page_number := P, data := D })
      F P true = (Except.ok (), released s F P D f) := by
    rw [h3, hrel]
  refine ⟨h1, by rw [h3], hc3, hmem, h4, hlog, hst, habs, ⟨a, ha, had, ?_⟩, ?_⟩
  · rw [← h5']
    exact e5
  · rw [roundTrip_eq e1 h3' e4 e5, h5']
    simp [install, loadPage]

theorem fresh_round_trip_runs (N : Nat) (hN : 1 ≤ N) (disk : Disk) (F P D : Nat)
    (hF : F ≠ 0) (pg : Page) (hpg : disk.pages F P = some pg) :
    (readPage (BufMgr.new N disk) F P).1 = Except.ok 0 ∧
    (flushFile (released (BufMgr.new N disk) F P D 0) F).1 = Except.ok () ∧
    (readPage (flushed (BufMgr.new N disk) F P D 0) F P).1 = Except.ok (1 % N) := by
  have hI0 : Inv (BufMgr.new N disk) := BufMgr.new_Inv N disk hN
  have hhand : ((BufMgr.new N disk).clockHand + 1) % (BufMgr.new N disk).numBufs = 0 :=
    (Filled.init N disk hN).hand hN
  have h1 := readPage_into_empty hI0 (fun _ => rfl) hpg
  rw [hhand] at h1
  have hI1 := (readPage_sound hI0 F P).1
  rw [h1] at hI1
  have hI2 : Inv (writeCached (install (loadPage (advanceClock (BufMgr.new N disk)) 0 F P pg)
      0 F P) 0 { page_number := P, data := D }) := hI1.congr rfl rfl rfl rfl
  obtain ⟨s3, s4, h3, h4, hI4, hall4, hd4⟩ := release_and_flush_single hI2 hF
    (F := F) (P := P) (g := 0) (by simp [writeCached, install, BufDesc.Set])
    (by simp [writeCached, install, BufDesc.Set])
    (by simp [writeCached, install, BufDesc.Set])
    (by simp [writeCached, install, BufDesc.Set])
    (by
      intro j hj
      simp [writeCached, install, hj, loadPage, advanceClock, BufMgr.new])
  have hd4' : s4.disk.pages F P = some { page_number := P, data := D } := by
    simpa [writeCached] using hd4
  have h5 := readPage_into_empty hI4 hall4 hd4'
  have hrel : released (BufMgr.new N disk) F P D 0 = s3 := by
    unfold released
    rw [h1]
    show (unPinPage _ F P true).2 = s3
    rw [h3]
  have hfl : flushed (BufMgr.new N disk) F P D 0 = s4 := by
    unfold flushed
    rw [hrel, h4]
  have hres : (writeCached (install (loadPage (advanceClock (BufMgr.new N disk)) 0 F P pg)
      0 F P) 0 { page_number := P, data := D }).hashTable F P = some 0 := by
    simp [writeCached, install]
  have hpin : 0 < ((writeCached (install (loadPage (advanceClock (BufMgr.new N disk)) 0 F P pg)
      0 F P) 0 { page_number := P, data := D }).bufDescTable 0).pinCnt := by
    simp [writeCached, install, BufDesc.Set]
  have hS3 : s3.clockHand = 0 ∧ s3.numBufs = N := by
    have e := h3
    rw [unPinPage_ok true hres hpin] at e
    rw [← (Prod.mk.inj e).2]
    constructor
    · show (N - 1 + 1) % N = 0
      rw [Nat.sub_add_cancel hN, Nat.mod_self]
    · rfl
  obtain ⟨hI3', hSw, hhand4, _⟩ := flushFile_sound
    (by
      have := (unPinPage_sound hI2 F P true).1
      rw [h3] at this
      exact this) h4
  have hg : (s4.clockHand + 1) % s4.numBufs = 1 % N := by
    rw [hhand4, hSw.numBufs, hS3.1, hS3.2]
  rw [hg] at h5
  refine ⟨by rw [h1], by rw [hrel, h4], by rw [hfl, h5]⟩

theorem bothPinned_reachable : Reachable bothPinned :=
  Reachable.readPage _ 2 2 (Reachable.readPage _ 1 1 (Reachable.init 2 stubDisk (by decide)))

theorem onePinned_reachable : Reachable onePinned :=
  Reachable.unPinPage _ 2 2 false bothPinned_reachable

theorem onePinnedSwept_reachable : Reachable onePinnedSwept :=
  Reachable.readPage _ 3 3 onePinned_reachable

theorem sameFileScenario_reachable : Reachable sameFileScenario :=
  Reachable.unPinPage _ 1 1 false (Reachable.readPage _ 1 3 (Reachable.readPage _ 1 2
    (Reachable.readPage _ 1 1 (Reachable.init 2 stubDisk (by decide)))))

/-! ## The claims -/

/-- C1: in every state reachable from a freshly constructed manager of capacity at least
one, a frame that is valid with pin count > 0 is, after any single call of `readPage`,
`allocPage`, `unPinPage`, `flushFile` or `allocBuf` (returning or throwing), still valid,
with the same (file, page number) identity and the same pool entry, and still mapped by
the page index. -/
theorem C1_pinned_frame_survives (s : BufMgr) (hs : Reachable s) (i : Nat)
    (hp : s.pinned i) :
    (∀ file pageNo, Kept s (readPage s file pageNo).2 i) ∧
    (∀ file, Kept s (allocPage s file).2 i) ∧
    (∀ file pageNo dirty, Kept s (unPinPage s file pageNo dirty).2 i) ∧
    (∀ file, Kept s (flushFile s file).2 i) ∧
    Kept s (allocBuf s).2 i :=
  ⟨fun file pageNo => (readPage_sound hs.has_inv file pageNo).2 i hp,
   fun file => (allocPage_sound hs.has_inv file).2 i hp,
   fun file pageNo dirty => (unPinPage_sound hs.has_inv file pageNo dirty).2 i hp,
   fun file => (flushFile_keeps hs.has_inv file).2 i hp,
   (allocBuf_keeps hs.has_inv).2 i hp⟩

/-- C1 at a concrete state: frame 0 of `bothPinned` is pinned and survives a flush of its
file. -/
theorem C1_pinned_frame_survives_witness :
    bothPinned.pinned 0 ∧ Kept bothPinned (flushFile bothPinned 1).2 0 :=
  ⟨by decide,
    (C1_pinned_frame_survives bothPinned bothPinned_reachable 0 (by decide)).2.2.2.1 1⟩

/-- C2: for every capacity ≥ 1 and every descriptor table, when `allocBuf` returns frame
`f`, its loop ran `j ≤ numBufs` iterations that all ended in `continue`, leaving the state
`t`, and then one iteration that left through `break`: it advanced the clock hand onto `f`,
and in that state `advanceClock t`, the moment `f` was chosen, descriptor `f` was invalid,
or valid with pin count 0 and reference flag clear. That state differs from the initial
one only in the clock hand and in cleared reference flags, and the state returned is what
the last iteration left, with descriptor `f` cleared. The returned frame was not pinned,
and its pin count was zero whenever invalid descriptors carry a zero pin count. -/
theorem C2_allocBuf_never_selects_pinned (s : BufMgr) (f : Nat) (hc : 1 ≤ s.numBufs)
    (ha : (allocBuf s).1 = Except.ok f) :
    (∃ j t s2, j ≤ s.numBufs ∧
      allocBufLoop j s = (Except.ok false, t) ∧
      allocBufBody t = (Except.ok true, s2) ∧
      (advanceClock t).clockHand = f ∧
      (((advanceClock t).bufDescTable f).valid = false ∨
        (((advanceClock t).bufDescTable f).valid = true ∧
          ((advanceClock t).bufDescTable f).pinCnt = 0 ∧
          ((advanceClock t).bufDescTable f).refbit = false)) ∧
      RefCleared s (advanceClock t) ∧
      (allocBuf s).2 = s2.setDesc f (s2.bufDescTable f).Clear) ∧
    ¬ s.pinned f ∧
    ((∀ i, (s.bufDescTable i).valid = false → (s.bufDescTable i).pinCnt = 0) →
      (s.bufDescTable f).pinCnt = 0) := by
  have key : ∃ j t s2, j ≤ s.numBufs ∧
      allocBufLoop j s = (Except.ok false, t) ∧
      allocBufBody t = (Except.ok true, s2) ∧
      (advanceClock t).clockHand = f ∧
      (((advanceClock t).bufDescTable f).valid = false ∨
        (((advanceClock t).bufDescTable f).valid = true ∧
          ((advanceClock t).bufDescTable f).pinCnt = 0 ∧
          ((advanceClock t).bufDescTable f).refbit = false)) ∧
      RefCleared s (advanceClock t) ∧
      (allocBuf s).2 = s2.setDesc f (s2.bufDescTable f).Clear := by
    unfold allocBuf at ha ⊢
    cases hl : allocBufLoop (s.numBufs + 1) s with
    | mk r s2 =>
      rw [hl] at ha
      cases r with
      | error e => simp at ha
      | ok b =>
        cases b with
        | false => simp at ha
        | true =>
          simp only [Except.ok.injEq] at ha
          obtain ⟨j, t, hj, hcont, hbody⟩ := allocBufLoop_found _ s s2 hl
          obtain ⟨hhand, helig⟩ := allocBufBody_break hbody
          have hRt : RefCleared s t := allocBufLoop_continued hc hcont
          have hf : (advanceClock t).clockHand = f := by rw [← hhand]; exact ha
          refine ⟨j, t, s2, Nat.le_of_lt_succ hj, hcont, hbody, hf, ?_, ?_, ?_⟩
          · rw [hf] at helig
            exact helig
          · exact hRt.rc_trans (RefCleared.advance t (by rw [hRt.numBufs]; exact hc))
          · simp only
            rw [ha]
  have ⟨_, t, _, _, _, _, _, hcase, hR, _⟩ := key
  have hd := (hR.desc f).1
  refine ⟨key, ?_, ?_⟩
  · rintro ⟨hv, hp⟩
    rcases hcase with h1 | ⟨_, h2, _⟩
    · rw [hd] at h1
      simp only at h1
      rw [hv] at h1
      cases h1
    · rw [hd] at h2
      simp only at h2
      omega
  · intro hinv
    rcases hcase with h1 | ⟨_, h2, _⟩
    · rw [hd] at h1
      exact hinv f h1
    · rw [hd] at h2
      exact h2

/-- C2 at a concrete table: in `onePinnedSwept` frame 0 is pinned and frame 1 is not;
`allocBuf` returns frame 1, which was not pinned. -/
theorem C2_allocBuf_never_selects_pinned_witness :
    (allocBuf onePinnedSwept).1 = Except.ok 1 ∧ ¬ onePinnedSwept.pinned 1 :=
  ⟨rfl, (C2_allocBuf_never_selects_pinned onePinnedSwept 1 (by decide) rfl).2.1⟩

/-- C3: in every state reachable from a freshly constructed manager by `readPage`,
`unPinPage`, `flushFile`, `allocPage` and `disposePage` calls, returning or throwing, the
page index maps the key (file, page number) to frame `N` exactly when descriptor `N`
exists, is valid and holds that key; hence no two valid descriptors hold the same key. -/
theorem C3_index_and_descriptors_agree (s : BufMgr) (hs : Reachable s) :
    (∀ file pageNo N, s.hashTable file pageNo = some N ↔
      (N < s.numBufs ∧ (s.bufDescTable N).valid = true ∧ (s.bufDescTable N).file = file ∧
        (s.bufDescTable N).pageNo = pageNo)) ∧
    (∀ N M, N < s.numBufs → M < s.numBufs →
      (s.bufDescTable N).valid = true → (s.bufDescTable M).valid = true →
      (s.bufDescTable N).file = (s.bufDescTable M).file →
      (s.bufDescTable N).pageNo = (s.bufDescTable M).pageNo → N = M) := by
  have h := hs.has_inv
  refine ⟨h.index, ?_⟩
  intro N M _ _ hN hM hf hp
  have h1 := h.lookup_of_valid hN
  have h2 := h.lookup_of_valid hM
  rw [hf, hp, h2] at h1
  exact (Option.some.inj h1).symm

/-- C3 at a concrete state: after the failed fetch of `sameFileScenario` the index maps
page 2 of file 1 to frame 1 exactly when descriptor 1 is valid and holds that key. -/
theorem C3_index_and_descriptors_agree_witness :
    (readPage sameFileScenario 1 3).2.hashTable 1 2 = some 1 ↔
      (1 < (readPage sameFileScenario 1 3).2.numBufs ∧
        ((readPage sameFileScenario 1 3).2.bufDescTable 1).valid = true ∧
        ((readPage sameFileScenario 1 3).2.bufDescTable 1).file = 1 ∧
        ((readPage sameFileScenario 1 3).2.bufDescTable 1).pageNo = 2) :=
  (C3_index_and_descriptors_agree (readPage sameFileScenario 1 3).2
    (Reachable.readPage _ 1 3 sameFileScenario_reachable)).1 1 2 1

/-- C4: for every capacity `N ≥ 1`, after `N` distinct pages have been fetched with
`readPage` on a fresh manager and none released, `readPage` of any further page fails with
`BufferExceededException`; and whenever all `N` frames are valid with pin count > 0,
`allocBuf`, `readPage` of a non-resident page and `allocPage` fail with
`BufferExceededException`. -/
theorem C4_pool_exhausted_when_all_pinned (N : Nat) (hN : 1 ≤ N) :
    (∀ (disk : Disk) (keys : List (FileId × PageId)) (s : BufMgr),
      keys.Nodup → keys.length = N → fetchAll (BufMgr.new N disk) keys = some s →
      ∀ file pageNo, (file, pageNo) ∉ keys →
        (readPage s file pageNo).1 = Except.error Exc.BufferExceededException) ∧
    (∀ s : BufMgr, s.numBufs = N → (∀ i, i < N → s.pinned i) →
      (allocBuf s).1 = Except.error Exc.BufferExceededException ∧
      (∀ file pageNo, s.hashTable file pageNo = none →
        (readPage s file pageNo).1 = Except.error Exc.BufferExceededException) ∧
      (∀ file, (allocPage s file).1 = Except.error Exc.BufferExceededException)) := by
  constructor
  · intro disk keys s hnd hlen hf file pageNo hk
    obtain ⟨hF, hnum⟩ := Filled.fetchAll keys (BufMgr.new N disk) s 0 []
      (Filled.init N disk hN) hnd (fun _ _ => List.not_mem_nil _) hf
    have hnum' : s.numBufs = N := hnum
    have hh : s.hashTable file pageNo = none := by
      cases hx : s.hashTable file pageNo with
      | none => rfl
      | some M =>
        have := hF.keys file pageNo M hx
        simp only [List.append_nil, List.mem_reverse] at this
        exact absurd this hk
    exact readPage_allPinned hF.inv.cap
      (fun i hi => hF.pinned i (by omega)) hh
  · intro s hnum hall
    have hc : 0 < s.numBufs := by omega
    have hall' : ∀ i, i < s.numBufs → s.pinned i := fun i hi => hall i (hnum ▸ hi)
    exact ⟨allocBuf_allPinned hc hall', fun file pageNo hh => readPage_allPinned hc hall' hh,
      fun file => allocPage_allPinned hc hall' file⟩

/-- C4 at capacity 2: after pages (1, 1) and (2, 2) have been fetched, fetching (3, 3)
fails with `BufferExceededException`. -/
theorem C4_pool_exhausted_when_all_pinned_witness :
    fetchAll (BufMgr.new 2 stubDisk) [(1, 1), (2, 2)] = some bothPinned ∧
      (readPage bothPinned 3 3).1 = Except.error Exc.BufferExceededException :=
  ⟨rfl, (C4_pool_exhausted_when_all_pinned 2 (by decide)).1 stubDisk [(1, 1), (2, 2)]
    bothPinned (by decide) rfl rfl 3 3 (by decide)⟩

/-- C5, evaluated at the failing input: `onePinned` is reachable (capacity 2; fetch page 1
of file 1, fetch page 2 of file 2, release the latter) and its frame 1 is valid with pin
count 0, yet `allocBuf` reports `BufferExceededException` because the loop gives up after
`numBufs + 1` steps. -/
theorem C5_exhaustion_reported_with_unpinned_frame :
    Reachable onePinned ∧ (onePinned.bufDescTable 1).valid = true ∧
      (onePinned.bufDescTable 1).pinCnt = 0 ∧
      (allocBuf onePinned).1 = Except.error Exc.BufferExceededException :=
  ⟨onePinned_reachable, by decide, by decide, rfl⟩

/-- C6 as stated fails: on `bothPinned` the call `allocBuf` fails with
`BufferExceededException`, yet it has moved the clock hand and cleared the reference flag
of frame 0, so the state is not what it was. -/
theorem C6_failed_allocBuf_changes_state :
    (allocBuf bothPinned).1 = Except.error Exc.BufferExceededException ∧
      (allocBuf bothPinned).2 ≠ bothPinned ∧
      (allocBuf bothPinned).2.clockHand ≠ bothPinned.clockHand ∧
      ((allocBuf bothPinned).2.bufDescTable 0).refbit ≠ (bothPinned.bufDescTable 0).refbit := by
  have hh : (allocBuf bothPinned).2.clockHand ≠ bothPinned.clockHand := by decide
  exact ⟨rfl, fun e => hh (congrArg BufMgr.clockHand e), hh, by decide⟩

/-- C6, amended: whenever `allocBuf` fails with `BufferExceededException`, the frame pool
contents, the page index, the storage and, in every descriptor, the identity and the
valid, dirty and pin-count fields are unchanged; reference flags are at most cleared, and
the clock hand has advanced by `numBufs + 1` positions, wrapping. -/
theorem C6_failed_allocBuf_only_sweeps (s : BufMgr) (hc : 1 ≤ s.numBufs)
    (hh : s.clockHand < s.numBufs)
    (hf : (allocBuf s).1 = Except.error Exc.BufferExceededException) :
    (allocBuf s).2.numBufs = s.numBufs ∧
    (allocBuf s).2.bufPool = s.bufPool ∧
    (allocBuf s).2.hashTable = s.hashTable ∧
    (allocBuf s).2.disk = s.disk ∧
    (∀ i, ((allocBuf s).2.bufDescTable i).file = (s.bufDescTable i).file ∧
      ((allocBuf s).2.bufDescTable i).pageNo = (s.bufDescTable i).pageNo ∧
      ((allocBuf s).2.bufDescTable i).frameNo = (s.bufDescTable i).frameNo ∧
      ((allocBuf s).2.bufDescTable i).valid = (s.bufDescTable i).valid ∧
      ((allocBuf s).2.bufDescTable i).dirty = (s.bufDescTable i).dirty ∧
      ((allocBuf s).2.bufDescTable i).pinCnt = (s.bufDescTable i).pinCnt ∧
      (((allocBuf s).2.bufDescTable i).refbit = true → (s.bufDescTable i).refbit = true)) ∧
    (allocBuf s).2.clockHand = (s.clockHand + (s.numBufs + 1)) % s.numBufs := by
  have hl := allocBuf_exceeded hc hf
  obtain ⟨s1, hR, hcase⟩ := allocBufLoop_cases _ s _ _ hc hl
  have hs : (allocBuf s).2 = s1 := by
    rcases hcase with ⟨_, hs⟩ | ⟨hr, _, _⟩ | ⟨_, _, _, hx⟩
    · exact hs
    · cases hr
    · cases hfl : flushFile s1 (s1.bufDescTable s1.clockHand).file with
      | mk r1 s3 =>
        rw [hfl] at hx
        cases r1 with
        | ok u => simp [foundAfterFlush] at hx
        | error e1 => simp [foundAfterFlush] at hx
  have hhand := allocBufLoop_hand _ s _ hl
  rw [hs] at hhand ⊢
  refine ⟨hR.numBufs, hR.pool, hR.hash, hR.disk, ?_, ?_⟩
  · intro i
    obtain ⟨hd, hrb⟩ := hR.desc i
    refine ⟨?_, ?_, ?_, ?_, ?_, ?_, hrb⟩ <;> rw [hd]
  · rw [← hhand]
    exact (Nat.mod_eq_of_lt (hR.hand hc hh)).symm

/-- C6, amended, at a concrete state: the failing `allocBuf` on `bothPinned`. -/
theorem C6_failed_allocBuf_only_sweeps_witness :
    (allocBuf bothPinned).2.hashTable = bothPinned.hashTable ∧
      (allocBuf bothPinned).2.clockHand = (bothPinned.clockHand + (bothPinned.numBufs + 1)) %
        bothPinned.numBufs :=
  ⟨(C6_failed_allocBuf_only_sweeps bothPinned (by decide) (by decide) rfl).2.2.1,
    (C6_failed_allocBuf_only_sweeps bothPinned (by decide) (by decide) rfl).2.2.2.2.2⟩

/-- C7, evaluated at the failing input: capacity 2 and the pages A = (1, 1), B = (1, 2),
C = (1, 3) of one file, all present in storage. The fetches of A and B succeed, the fetch
of C fails with `BufferExceededException`, the release of A succeeds, and then the fetch
of C fails with `PagePinnedException`: evicting A flushes the whole file, and B is
pinned. Afterwards frame 0 is empty and C is not resident. -/
theorem C7_fetch_after_unpin_fails_within_one_file :
    (readPage (BufMgr.new 2 stubDisk) 1 1).1 = Except.ok 0 ∧
    (readPage (readPage (BufMgr.new 2 stubDisk) 1 1).2 1 2).1 = Except.ok 1 ∧
    (readPage (readPage (readPage (BufMgr.new 2 stubDisk) 1 1).2 1 2).2 1 3).1 =
      Except.error Exc.BufferExceededException ∧
    (unPinPage (readPage (readPage (readPage (BufMgr.new 2 stubDisk) 1 1).2 1 2).2 1 3).2
      1 1 false).1 = Except.ok () ∧
    (readPage sameFileScenario 1 3).1 = Except.error Exc.PagePinnedException ∧
    (readPage sameFileScenario 1 3).2.hashTable 1 3 = none ∧
    ((readPage sameFileScenario 1 3).2.bufDescTable 0).valid = false :=
  ⟨rfl, rfl, rfl, rfl, rfl, by decide, by decide⟩

/-- C8: when (file, pageNo) is resident in frame `f`, `readPage` returns frame `f`, sets its
reference flag and increases its pin count by exactly one; the identity, valid and dirty
fields of `f`, every other descriptor, the page index, the frame pool, the clock hand and
the storage (contents and call log: no read, no write) are unchanged. -/
theorem C8_readPage_hit (s : BufMgr) (file pageNo f : Nat)
    (hres : s.hashTable file pageNo = some f) :
    (readPage s file pageNo).1 = Except.ok f ∧
    ((readPage s file pageNo).2.bufDescTable f).refbit = true ∧
    ((readPage s file pageNo).2.bufDescTable f).pinCnt = (s.bufDescTable f).pinCnt + 1 ∧
    ((readPage s file pageNo).2.bufDescTable f).file = (s.bufDescTable f).file ∧
    ((readPage s file pageNo).2.bufDescTable f).pageNo = (s.bufDescTable f).pageNo ∧
    ((readPage s file pageNo).2.bufDescTable f).frameNo = (s.bufDescTable f).frameNo ∧
    ((readPage s file pageNo).2.bufDescTable f).valid = (s.bufDescTable f).valid ∧
    ((readPage s file pageNo).2.bufDescTable f).dirty = (s.bufDescTable f).dirty ∧
    (∀ j, j ≠ f → (readPage s file pageNo).2.bufDescTable j = s.bufDescTable j) ∧
    (readPage s file pageNo).2.hashTable = s.hashTable ∧
    (readPage s file pageNo).2.bufPool = s.bufPool ∧
    (readPage s file pageNo).2.clockHand = s.clockHand ∧
    (readPage s file pageNo).2.numBufs = s.numBufs ∧
    (readPage s file pageNo).2.disk = s.disk := by
  rw [readPage_hit hres]
  refine ⟨rfl, ?_, ?_, ?_, ?_, ?_, ?_, ?_, ?_, rfl, rfl, rfl, rfl, rfl⟩
  · simp [BufMgr.setDesc]
  · simp [BufMgr.setDesc]
  · simp [BufMgr.setDesc]
  · simp [BufMgr.setDesc]
  · simp [BufMgr.setDesc]
  · simp [BufMgr.setDesc]
  · simp [BufMgr.setDesc]
  · intro j hj
    simp [BufMgr.setDesc, hj]

/-- C8 at a concrete state: page 1 of file 1 is resident in frame 0 of `bothPinned`; a
second fetch returns frame 0 and leaves the storage untouched. -/
theorem C8_readPage_hit_witness :
    (readPage bothPinned 1 1).1 = Except.ok 0 ∧
      (readPage bothPinned 1 1).2.disk = bothPinned.disk :=
  ⟨(C8_readPage_hit bothPinned 1 1 0 rfl).1,
    (C8_readPage_hit bothPinned 1 1 0 rfl).2.2.2.2.2.2.2.2.2.2.2.2.2⟩

/-- C9: when (file, pageNo) is not resident and `readPage` succeeds with frame `f`, then
`f` is the frame `allocBuf` returned, the pool entry of `f` is exactly the page the storage
returned for (file, pageNo) when it was read, that is after `allocBuf`, the index maps
(file, pageNo) to `f`, and descriptor `f` is valid with identity (file, pageNo), pin count
exactly 1, reference flag set and dirty flag clear. -/
theorem C9_readPage_miss (s : BufMgr) (file pageNo f : Nat)
    (hmiss : s.hashTable file pageNo = none)
    (hok : (readPage s file pageNo).1 = Except.ok f) :
    (allocBuf s).1 = Except.ok f ∧
    (allocBuf s).2.disk.pages file pageNo = some ((readPage s file pageNo).2.bufPool f) ∧
    (readPage s file pageNo).2.disk.pages file pageNo =
      some ((readPage s file pageNo).2.bufPool f) ∧
    (readPage s file pageNo).2.hashTable file pageNo = some f ∧
    ((readPage s file pageNo).2.bufDescTable f).valid = true ∧
    ((readPage s file pageNo).2.bufDescTable f).file = file ∧
    ((readPage s file pageNo).2.bufDescTable f).pageNo = pageNo ∧
    ((readPage s file pageNo).2.bufDescTable f).pinCnt = 1 ∧
    ((readPage s file pageNo).2.bufDescTable f).refbit = true ∧
    ((readPage s file pageNo).2.bufDescTable f).dirty = false := by
  cases ha : allocBuf s with
  | mk r s1 =>
    cases r with
    | error e =>
      rw [readPage_miss_fail hmiss ha] at hok
      cases hok
    | ok frame =>
      cases hd : s1.disk.pages file pageNo with
      | none =>
        rw [readPage_miss_noPage hmiss ha hd] at hok
        cases hok
      | some pg =>
        cases hn : s1.hashTable file pageNo with
        | some N =>
          rw [readPage_miss_dup hmiss ha hd hn] at hok
          cases hok
        | none =>
          rw [readPage_miss_ok hmiss ha hd hn] at hok ⊢
          simp only [Except.ok.injEq] at hok
          subst hok
          simp [install, loadPage, BufDesc.Set, Disk.readPage, hd]

/-- C9 at a concrete state: fetching page 2 of file 2 into the manager that holds only
page 1 of file 1. -/
theorem C9_readPage_miss_witness :
    ((readPage (readPage (BufMgr.new 2 stubDisk) 1 1).2 2 2).2.bufDescTable 1).pinCnt = 1 :=
  (C9_readPage_miss (readPage (BufMgr.new 2 stubDisk) 1 1).2 2 2 1 rfl rfl).2.2.2.2.2.2.2.1

/-- C10: for a page resident in frame `f`, `unPinPage` fails with `PageNotPinnedException`
exactly when the pin count of `f` is 0, and then leaves the state as it was, whatever
`markDirty`; otherwise it succeeds, the pin count decreases by exactly 1, the dirty flag
becomes (old dirty OR `markDirty`), and nothing else changes. For a page that is not
resident it fails with `HashNotFoundException` and changes nothing. -/
theorem C10_unPinPage (s : BufMgr) (file pageNo : Nat) (markDirty : Bool) :
    (∀ f, s.hashTable file pageNo = some f →
      ((unPinPage s file pageNo markDirty).1 = Except.error Exc.PageNotPinnedException ↔
        (s.bufDescTable f).pinCnt = 0) ∧
      ((s.bufDescTable f).pinCnt = 0 → (unPinPage s file pageNo markDirty).2 = s) ∧
      ((s.bufDescTable f).pinCnt ≠ 0 →
        (unPinPage s file pageNo markDirty).1 = Except.ok () ∧
        ((unPinPage s file pageNo markDirty).2.bufDescTable f).pinCnt + 1 =
          (s.bufDescTable f).pinCnt ∧
        ((unPinPage s file pageNo markDirty).2.bufDescTable f).dirty =
          ((s.bufDescTable f).dirty || markDirty) ∧
        (unPinPage s file pageNo markDirty).2 =
          s.setDesc f { s.bufDescTable f with
            pinCnt := (s.bufDescTable f).pinCnt - 1
            dirty := (s.bufDescTable f).dirty || markDirty })) ∧
    (s.hashTable file pageNo = none →
      unPinPage s file pageNo markDirty = (Except.error Exc.HashNotFoundException, s)) := by
  refine ⟨fun f hres => ?_, fun hmiss => unPinPage_miss markDirty hmiss⟩
  by_cases hp : (s.bufDescTable f).pinCnt = 0
  · rw [unPinPage_zero markDirty hres hp]
    exact ⟨⟨fun _ => hp, fun _ => rfl⟩, fun _ => rfl, fun hne => absurd hp hne⟩
  · rw [unPinPage_ok markDirty hres (Nat.pos_of_ne_zero hp)]
    refine ⟨⟨fun hc => (by cases hc), fun h0 => absurd h0 hp⟩, fun h0 => absurd h0 hp,
      fun _ => ⟨rfl, ?_, ?_, rfl⟩⟩
    · simp only [BufMgr.setDesc, if_true]
      exact Nat.sub_add_cancel (Nat.pos_of_ne_zero hp)
    · simp [BufMgr.setDesc]

/-- C10 at a concrete state: releasing the unpinned page 2 of file 2 of `onePinned` with
`markDirty` fails and leaves the state as it was. -/
theorem C10_unPinPage_witness :
    (unPinPage onePinned 2 2 true).1 = Except.error Exc.PageNotPinnedException ∧
      (unPinPage onePinned 2 2 true).2 = onePinned :=
  ⟨((C10_unPinPage onePinned 2 2 true).1 1 rfl).1.2 (by decide),
    ((C10_unPinPage onePinned 2 2 true).1 1 rfl).2.1 (by decide)⟩

/-- C11: for every sequence of `readPage` and `unPinPage` calls applied to a freshly
constructed manager of capacity ≥ 1, in the state after the sequence the pin count of every
resident page plus the number of successful `unPinPage` calls for it equals the number of
successful `readPage` calls for it (so the difference is the pin count, and is never
negative), a page that is not resident has as many successful releases as fetches, and an
`unPinPage` call for a page whose successful fetches do not exceed its successful releases
fails with `PageNotPinnedException` or with the index's `HashNotFoundException`. -/
theorem C11_pin_count_is_fetches_minus_releases (N : Nat) (hN : 1 ≤ N) (disk : Disk)
    (calls : List Call) (file pageNo : Nat) :
    (∀ fr, (runCalls (BufMgr.new N disk) calls).hashTable file pageNo = some fr →
      ((runCalls (BufMgr.new N disk) calls).bufDescTable fr).pinCnt +
          unpinCount (BufMgr.new N disk) calls file pageNo =
        fetchCount (BufMgr.new N disk) calls file pageNo) ∧
    ((runCalls (BufMgr.new N disk) calls).hashTable file pageNo = none →
      unpinCount (BufMgr.new N disk) calls file pageNo =
        fetchCount (BufMgr.new N disk) calls file pageNo) ∧
    (fetchCount (BufMgr.new N disk) calls file pageNo ≤
        unpinCount (BufMgr.new N disk) calls file pageNo →
      ∀ dirty,
        (unPinPage (runCalls (BufMgr.new N disk) calls) file pageNo dirty).1 =
            Except.error Exc.PageNotPinnedException ∨
          (unPinPage (runCalls (BufMgr.new N disk) calls) file pageNo dirty).1 =
            Except.error Exc.HashNotFoundException) := by
  have hb0 : Balanced (BufMgr.new N disk) (fun _ _ => 0) := by
    intro f p
    constructor
    · intro M hM
      simp [BufMgr.new] at hM
    · intro _
      rfl
  obtain ⟨_, b1, hb1, he⟩ := runCalls_balanced calls (BufMgr.new N disk) (fun _ _ => 0)
    (BufMgr.new_Inv N disk hN) hb0
  have e := he file pageNo
  simp only [Nat.zero_add] at e
  refine ⟨?_, ?_, ?_⟩
  · intro fr hfr
    rw [(hb1 file pageNo).1 fr hfr]
    exact e
  · intro hn
    rw [(hb1 file pageNo).2 hn] at e
    simpa using e
  · intro hle dirty
    cases hh : (runCalls (BufMgr.new N disk) calls).hashTable file pageNo with
    | none =>
      right
      rw [unPinPage_miss dirty hh]
    | some fr =>
      left
      have hp := (hb1 file pageNo).1 fr hh
      rw [unPinPage_zero dirty hh (by omega)]

/-- C11 at a concrete sequence on a manager of capacity 2: fetch (1, 1) twice, release it
once, attempt to release (2, 2), which was never fetched. Page (1, 1) sits in frame 0 with
pin count 1 = 2 fetches - 1 release. -/
theorem C11_pin_count_is_fetches_minus_releases_witness :
    ((runCalls (BufMgr.new 2 stubDisk)
        [Call.read 1 1, Call.read 1 1, Call.unpin 1 1 false, Call.unpin 2 2 false]).bufDescTable
        0).pinCnt +
      unpinCount (BufMgr.new 2 stubDisk)
        [Call.read 1 1, Call.read 1 1, Call.unpin 1 1 false, Call.unpin 2 2 false] 1 1 =
    fetchCount (BufMgr.new 2 stubDisk)
      [Call.read 1 1, Call.read 1 1, Call.unpin 1 1 false, Call.unpin 2 2 false] 1 1 :=
  (C11_pin_count_is_fetches_minus_releases 2 (by decide) stubDisk
    [Call.read 1 1, Call.read 1 1, Call.unpin 1 1 false, Call.unpin 2 2 false] 1 1).1 0 rfl

/-- C12: in every reachable state and for every (non-null) file none of whose resident pages
is pinned, `flushFile` succeeds; afterwards no descriptor is valid with that file, the
index has no key of that file, the storage has received exactly one `writePage` per frame
of the file that was dirty, carrying that frame's contents, in frame order, and no other
call, every frame that held a page of the file is in the empty state, and the descriptors
of all other frames, the index entries and storage pages of all other files and the whole
frame pool are unchanged. -/
theorem C12_flushFile_evicts_the_file (s : BufMgr) (hs : Reachable s) (file : Nat)
    (hfile : file ≠ 0)
    (hpin : ∀ i, i < s.numBufs → (s.bufDescTable i).valid = true →
      (s.bufDescTable i).file = file → (s.bufDescTable i).pinCnt = 0) :
    (flushFile s file).1 = Except.ok () ∧
    (∀ i, ((flushFile s file).2.bufDescTable i).valid = true →
      ((flushFile s file).2.bufDescTable i).file ≠ file) ∧
    (∀ p, (flushFile s file).2.hashTable file p = none) ∧
    (flushFile s file).2.disk.log =
      s.disk.log ++ (dirtyFrames s file s.numBufs).map
        (fun j => DiskOp.write file (s.bufPool j)) ∧
    (dirtyFrames s file s.numBufs).Nodup ∧
    (∀ j, j ∈ dirtyFrames s file s.numBufs ↔
      (j < s.numBufs ∧ (s.bufDescTable j).file = file ∧ (s.bufDescTable j).valid = true ∧
        (s.bufDescTable j).dirty = true)) ∧
    (∀ i, (s.bufDescTable i).valid = true → (s.bufDescTable i).file = file →
      (flushFile s file).2.bufDescTable i = BufDesc.empty i) ∧
    (∀ i, ¬ ((s.bufDescTable i).valid = true ∧ (s.bufDescTable i).file = file) →
      (flushFile s file).2.bufDescTable i = s.bufDescTable i) ∧
    (∀ f p, f ≠ file → (flushFile s file).2.hashTable f p = s.hashTable f p) ∧
    (∀ f p, f ≠ file → (flushFile s file).2.disk.pages f p = s.disk.pages f p) ∧
    (flushFile s file).2.bufPool = s.bufPool := by
  have h := hs.has_inv
  have hnb : ∀ j, j < s.numBufs → ¬ s.blocks file j := by
    intro j hj hb
    obtain ⟨hf, hv, hp⟩ := h.blocks_pinned hfile hb
    have := hpin j hj hv hf
    omega
  rw [flushFile_ok_of_no_block h file hnb]
  have hempty : ∀ i, (s.bufDescTable i).valid = true → (s.bufDescTable i).file = file →
      (flushedUpTo s file s.numBufs).bufDescTable i = BufDesc.empty i :=
    fun i hv hf => flushedUpTo_desc_owned h (h.valid_lt hv) hf hv
  have hother : ∀ i, ¬ ((s.bufDescTable i).valid = true ∧ (s.bufDescTable i).file = file) →
      (flushedUpTo s file s.numBufs).bufDescTable i = s.bufDescTable i :=
    fun i hn => flushedUpTo_desc_other s (fun hc => hn ⟨hc.2.2, hc.2.1⟩)
  refine ⟨rfl, ?_, ?_, flushedUpTo_log h file _, nodup_dirtyFrames _ _ _,
    mem_dirtyFrames _ _ _, hempty, hother, ?_, ?_, rfl⟩
  · intro i hv hf
    by_cases hc : (s.bufDescTable i).valid = true ∧ (s.bufDescTable i).file = file
    · rw [hempty i hc.1 hc.2] at hv
      cases hv
    · rw [hother i hc] at hv hf
      exact hc ⟨hv, hf⟩
  · intro p
    cases hh : s.hashTable file p with
    | none => exact flushedUpTo_hash_none s hh
    | some N =>
      obtain ⟨hN, hv, hf, _⟩ := (h.index file p N).1 hh
      exact flushedUpTo_hash_removed s hh ⟨hN, hf, hv⟩
  · intro f p hf
    cases hh : s.hashTable f p with
    | none => exact flushedUpTo_hash_none s hh
    | some N =>
      obtain ⟨_, _, hfN, _⟩ := (h.index f p N).1 hh
      exact flushedUpTo_hash_kept s hh (fun hc => hf (hfN ▸ hc.2.1))
  · intro f p hf
    exact Disk.writeAll_pages_other file _ s.disk f p hf

/-- C12 at a concrete state: flushing file 2 of `onePinned`, whose page 2 is resident and
not pinned. -/
theorem C12_flushFile_evicts_the_file_witness :
    (flushFile onePinned 2).1 = Except.ok () ∧ (flushFile onePinned 2).2.hashTable 2 2 = none :=
  ⟨(C12_flushFile_evicts_the_file onePinned onePinned_reachable 2 (by decide)
      (by decide)).1,
    (C12_flushFile_evicts_the_file onePinned onePinned_reachable 2 (by decide)
      (by decide)).2.2.1 2⟩

/-- C13: in every reachable state and for every (non-null) file, `flushFile` fails with
`PagePinnedException` exactly when some valid frame of the file has pin count > 0, and
never with `BadBufferException`; when `m` is the lowest pinned frame of the file, the
state it leaves is `flushedUpTo s file m`: every frame of the file below `m` has been
written back if dirty, unmapped and reset, while frame `m`, the frames above it, the frames
of other files and the pool are unchanged. In any state, the loop body throws
`BadBufferException` at a descriptor that names the file and is invalid, and so does
`flushFile` when no lower frame names the file. -/
theorem C13_flushFile_failures (s : BufMgr) (hs : Reachable s) (file : Nat)
    (hfile : file ≠ 0) :
    ((flushFile s file).1 = Except.error Exc.PagePinnedException ↔
      ∃ i, i < s.numBufs ∧ (s.bufDescTable i).valid = true ∧
        (s.bufDescTable i).file = file ∧ 0 < (s.bufDescTable i).pinCnt) ∧
    (flushFile s file).1 ≠ Except.error Exc.BadBufferException ∧
    (∀ m, m < s.numBufs →
      ((s.bufDescTable m).valid = true ∧ (s.bufDescTable m).file = file ∧
        0 < (s.bufDescTable m).pinCnt) →
      (∀ j, j < m → ¬ ((s.bufDescTable j).valid = true ∧ (s.bufDescTable j).file = file ∧
        0 < (s.bufDescTable j).pinCnt)) →
      flushFile s file = (Except.error Exc.PagePinnedException, flushedUpTo s file m) ∧
      (∀ j, j < m → (s.bufDescTable j).valid = true → (s.bufDescTable j).file = file →
        (flushFile s file).2.bufDescTable j = BufDesc.empty j ∧
        (flushFile s file).2.hashTable file (s.bufDescTable j).pageNo = none) ∧
      (flushFile s file).2.disk.log =
        s.disk.log ++ (dirtyFrames s file m).map (fun j => DiskOp.write file (s.bufPool j)) ∧
      (∀ j, m ≤ j → (flushFile s file).2.bufDescTable j = s.bufDescTable j) ∧
      (∀ j, (s.bufDescTable j).file ≠ file →
        (flushFile s file).2.bufDescTable j = s.bufDescTable j) ∧
      (∀ f p N, s.hashTable f p = some N → (m ≤ N ∨ f ≠ file) →
        (flushFile s file).2.hashTable f p = some N) ∧
      (flushFile s file).2.bufPool = s.bufPool) ∧
    (∀ (t : BufMgr) (i : Nat), (t.bufDescTable i).file = file →
      (t.bufDescTable i).valid = false →
      flushFileBody file i t = (Except.error Exc.BadBufferException, t)) ∧
    (∀ (t : BufMgr) (m : Nat), m < t.numBufs → (t.bufDescTable m).file = file →
      (t.bufDescTable m).valid = false → (∀ j, j < m → (t.bufDescTable j).file ≠ file) →
      flushFile t file = (Except.error Exc.BadBufferException, t)) := by
  have h := hs.has_inv
  have hbody : ∀ (t : BufMgr) (i : Nat), (t.bufDescTable i).file = file →
      (t.bufDescTable i).valid = false →
      flushFileBody file i t = (Except.error Exc.BadBufferException, t) := by
    intro t i hf hv
    rcases flushFileBody_cases file i t with ⟨_, hv', _⟩ | ⟨_, hv', _⟩ | ⟨_, hv', _⟩ |
      ⟨_, _, e⟩ | ⟨hf', _⟩
    · rw [hv] at hv'; cases hv'
    · rw [hv] at hv'; cases hv'
    · rw [hv] at hv'; cases hv'
    · exact e
    · exact absurd hf hf'
  have hstop : ∀ m, m < s.numBufs → s.blocks file m → (∀ j, j < m → ¬ s.blocks file j) →
      flushFile s file = (Except.error Exc.PagePinnedException, flushedUpTo s file m) := by
    intro m hm hbm hlow
    rw [flushFile_stops_at h file m hm hbm hlow, if_pos (h.blocks_pinned hfile hbm).2.1]
  refine ⟨?_, ?_, ?_, hbody, ?_⟩
  · rcases first_block s file with hnone | ⟨m, hm, hbm, hlow⟩
    · rw [flushFile_ok_of_no_block h file hnone]
      constructor
      · intro hc; cases hc
      · rintro ⟨i, hi, hv, hf, hp⟩
        exact absurd ⟨hf, Or.inr hp⟩ (hnone i hi)
    · rw [hstop m hm hbm hlow]
      obtain ⟨hf, hv, hp⟩ := h.blocks_pinned hfile hbm
      exact ⟨fun _ => ⟨m, hm, hv, hf, hp⟩, fun _ => rfl⟩
  · rcases first_block s file with hnone | ⟨m, hm, hbm, hlow⟩
    · rw [flushFile_ok_of_no_block h file hnone]
      intro hc; cases hc
    · rw [hstop m hm hbm hlow]
      intro hc; cases hc
  · intro m hm hpm hlow
    have hbm : s.blocks file m := ⟨hpm.2.1, Or.inr hpm.2.2⟩
    have hlow' : ∀ j, j < m → ¬ s.blocks file j := by
      intro j hj hb
      obtain ⟨hf, hv, hp⟩ := h.blocks_pinned hfile hb
      exact hlow j hj ⟨hv, hf, hp⟩
    rw [hstop m hm hbm hlow']
    refine ⟨rfl, ?_, flushedUpTo_log h file m, ?_, ?_, ?_, rfl⟩
    · intro j hj hv hf
      exact ⟨flushedUpTo_desc_owned h hj hf hv,
        flushedUpTo_hash_removed s (hf ▸ h.lookup_of_valid hv) ⟨hj, hf, hv⟩⟩
    · intro j hj
      exact flushedUpTo_desc_other s (fun hc => by omega)
    · intro j hf
      exact flushedUpTo_desc_other s (fun hc => hf hc.2.1)
    · intro f p N hh hor
      apply flushedUpTo_hash_kept s hh
      rintro ⟨h1, h2, _⟩
      rcases hor with h3 | h3
      · omega
      · exact h3 (((h.index f p N).1 hh).2.2.1 ▸ h2)
  · intro t m hm hf hv hlow
    have hsplit : t.numBufs = m + ((t.numBufs - m - 1) + 1) := by omega
    unfold flushFile
    rw [hsplit, flushFileLoop_split file m _ 0 t,
      flushFileLoop_skip file m 0 t (fun j _ hj => hlow j (by omega))]
    simp only [Nat.zero_add, flushFileLoop, hbody t m hf hv]

/-- C13 at a concrete state: flushing file 1 of `bothPinned`, whose page 1 is pinned. -/
theorem C13_flushFile_failures_witness :
    (flushFile bothPinned 1).1 = Except.error Exc.PagePinnedException :=
  (C13_flushFile_failures bothPinned bothPinned_reachable 1 (by decide)).1.2
    ⟨0, by decide, by decide, by decide, by decide⟩

/-- C14: round trip through storage, over the storage model in which `writePage` stores a
page under the page number embedded in it. First part: from every state `s` a manager can
reach (capacity ≥ 1, an initial storage whose pages bear their page numbers, any calls of
the public operations, callers overwriting cached data while keeping the page number), for
every non-null file `F`, page `P` and data `D`: when `readPage(F, P)` returns frame `f`,
and after overwriting the cached contents with `D` under page number `P` and
`unPinPage(F, P, true)` the call `flushFile(F)` returns and the last `readPage(F, P)`
returns frame `g`, then the round trip went through storage (`ThroughStorage`):
`unPinPage` returned, `flushFile` wrote frame `f` holding `D`, afterwards storage holds `D`
under `(F, P)` and the page is no longer in the page index, the last `readPage` missed,
read the page from storage into frame `g`, and the page it hands back holds `D`. Second
part: on a fresh manager of any capacity ≥ 1 over any storage in which page `P` of `F`
exists, all four calls return (frames `0` and `1 % N`) and the same holds. -/
theorem C14_round_trip :
    (∀ (s : BufMgr) (F P D f g : Nat), ReachableWF s → F ≠ 0 →
      (readPage s F P).1 = Except.ok f →
      (flushFile (released s F P D f) F).1 = Except.ok () →
      (readPage (flushed s F P D f) F P).1 = Except.ok g →
      ThroughStorage s F P D f g) ∧
    (∀ (N : Nat) (disk : Disk) (F P D : Nat) (pg : Page), 1 ≤ N → F ≠ 0 →
      disk.pages F P = some pg →
      ThroughStorage (BufMgr.new N disk) F P D 0 (1 % N)) := by
  constructor
  · intro s F P D f g hs _ h1 h4 h5
    exact ThroughStorage.of_run hs.wf.inv hs.wf.pool h1 h4 h5
  · intro N disk F P D pg hN hF hpg
    obtain ⟨h1, h4, h5⟩ := fresh_round_trip_runs N hN disk F P D hF pg hpg
    exact ThroughStorage.of_run (BufMgr.new_Inv N disk hN)
      (by
        intro j hv
        simp [BufMgr.new] at hv) h1 h4 h5

/-- C14 at concrete inputs: from the reachable state `onePinnedSwept` (capacity 2, frame 0
pinned), page 5 of file 3 with data 42 goes through frame 1 both times; on a fresh manager
of capacity 2 over `stubDisk`, page 5 of file 1 with data 42 goes through frames 0 and 1. -/
theorem C14_round_trip_witness :
    ThroughStorage onePinnedSwept 3 5 42 1 1 ∧
    ThroughStorage (BufMgr.new 2 stubDisk) 1 5 42 0 1 :=
  ⟨C14_round_trip.1 onePinnedSwept 3 5 42 1 1 onePinnedSwept_reachableWF (by decide)
      rfl rfl rfl,
    C14_round_trip.2 2 stubDisk 1 5 42 { page_number := 5, data := 7 } (by decide)
      (by decide) rfl⟩

theorem dirtyReleased_reachable : Reachable dirtyReleased :=
  Reachable.unPinPage _ 1 1 true (Reachable.readPage _ 1 1 (Reachable.init 1 stubDisk (by decide)))

/-- C15: no modified page is silently dropped by replacement. In every reachable state,
when a successful `readPage` (on a miss) or `allocPage` hands back a frame `f` that held a
dirty page A, that page was not pinned and the storage calls of the operation are: for
`readPage`, one `writePage` for each dirty frame of A's file, in frame order, carrying the
contents the frame had before the call, followed by the read of the new page; for
`allocPage`, the allocation of the new page followed by the same writes. Frame `f` occurs
exactly once among the frames written, so exactly one `writePage` is issued for A, with
A's contents as cached before the frame is reused. -/
theorem C15_dirty_victim_written_once (s : BufMgr) (hs : Reachable s) (f : Nat)
    (hv : (s.bufDescTable f).valid = true) (hd : (s.bufDescTable f).dirty = true) :
    (dirtyFrames s (s.bufDescTable f).file s.numBufs).count f = 1 ∧
    (∀ file pageNo, s.hashTable file pageNo = none →
      (readPage s file pageNo).1 = Except.ok f →
      (s.bufDescTable f).pinCnt = 0 ∧
      (readPage s file pageNo).2.disk.log =
        s.disk.log ++
          (dirtyFrames s (s.bufDescTable f).file s.numBufs).map
            (fun j => DiskOp.write (s.bufDescTable f).file (s.bufPool j)) ++
          [DiskOp.read file pageNo]) ∧
    (∀ file n, (allocPage s file).1 = Except.ok (n, f) →
      (s.bufDescTable f).pinCnt = 0 ∧
      (allocPage s file).2.disk.log =
        s.disk.log ++ [DiskOp.alloc file n] ++
          (dirtyFrames s (s.bufDescTable f).file s.numBufs).map
            (fun j => DiskOp.write (s.bufDescTable f).file (s.bufPool j))) := by
  have h := hs.has_inv
  refine ⟨?_, ?_, ?_⟩
  · apply List.count_eq_one_of_mem (nodup_dirtyFrames _ _ _)
    exact (mem_dirtyFrames _ _ _ _).2 ⟨h.valid_lt hv, rfl, hv, hd⟩
  · intro file pageNo hmiss hok
    cases ha : allocBuf s with
    | mk r s1 =>
      cases r with
      | error e =>
        rw [readPage_miss_fail hmiss ha] at hok
        cases hok
      | ok frame =>
        cases hdk : s1.disk.pages file pageNo with
        | none =>
          rw [readPage_miss_noPage hmiss ha hdk] at hok
          cases hok
        | some pg =>
          cases hn : s1.hashTable file pageNo with
          | some M =>
            rw [readPage_miss_dup hmiss ha hdk hn] at hok
            cases hok
          | none =>
            rw [readPage_miss_ok hmiss ha hdk hn] at hok ⊢
            simp only [Except.ok.injEq] at hok
            subst hok
            obtain ⟨hp, hlog⟩ := allocBuf_ok_log h ha hv
            refine ⟨hp, ?_⟩
            show (s1.disk.readPage file pageNo).2.log = _
            simp only [Disk.readPage]
            rw [hlog]
  · intro file n hok
    have h0 : Inv (afterAllocate s file) := h.congr rfl rfl rfl rfl
    cases ha : allocBuf (afterAllocate s file) with
    | mk r s1 =>
      cases r with
      | error e =>
        rw [allocPage_fail ha] at hok
        cases hok
      | ok frame =>
        cases hn : s1.hashTable file (s.disk.allocatePage file).1.page_number with
        | some M =>
          rw [allocPage_dup ha hn] at hok
          cases hok
        | none =>
          rw [allocPage_ok ha hn] at hok ⊢
          simp only [Except.ok.injEq, Prod.mk.injEq] at hok
          obtain ⟨hn', hfr⟩ := hok
          subst hfr
          obtain ⟨hp, hlog⟩ := allocBuf_ok_log h0 ha hv
          refine ⟨hp, ?_⟩
          show s1.disk.log = _
          rw [hlog, ← hn']
          rfl

/-- C15 at the scenario of the claim: capacity 1, fetch A = (1, 1), release it with
`markDirty`, fetch B = (2, 2). The storage sees the read of A, one write of A's contents,
and the read of B. -/
theorem C15_dirty_victim_written_once_witness :
    (readPage dirtyReleased 2 2).1 = Except.ok 0 ∧
    (readPage dirtyReleased 2 2).2.disk.log =
      dirtyReleased.disk.log ++
        (dirtyFrames dirtyReleased (dirtyReleased.bufDescTable 0).file
          dirtyReleased.numBufs).map
          (fun j => DiskOp.write (dirtyReleased.bufDescTable 0).file
            (dirtyReleased.bufPool j)) ++
        [DiskOp.read 2 2] ∧
    (readPage dirtyReleased 2 2).2.disk.log =
      [DiskOp.read 1 1, DiskOp.write 1 { page_number := 1, data := 7 }, DiskOp.read 2 2] :=
  ⟨rfl,
    ((C15_dirty_victim_written_once dirtyReleased dirtyReleased_reachable 0 (by decide)
      (by decide)).2.1 2 2 rfl rfl).2,
    by decide⟩

/-- C16: for a page resident in frame `f`, whatever its pin count and dirty flag,
`disposePage` succeeds; afterwards descriptor `f` is in the empty state, the index has no
entry for the key, the storage has received exactly one call, `deletePage(pageNo)` on that
file, hence no `writePage`, and every other descriptor, every other index entry, the pool
and the clock hand are unchanged. -/
theorem C16_disposePage_resident (s : BufMgr) (file pageNo f : Nat)
    (hres : s.hashTable file pageNo = some f) :
    (disposePage s file pageNo).1 = Except.ok () ∧
    (disposePage s file pageNo).2.bufDescTable f = (s.bufDescTable f).Clear ∧
    ((disposePage s file pageNo).2.bufDescTable f).valid = false ∧
    ((disposePage s file pageNo).2.bufDescTable f).pinCnt = 0 ∧
    ((disposePage s file pageNo).2.bufDescTable f).dirty = false ∧
    ((disposePage s file pageNo).2.bufDescTable f).refbit = false ∧
    (disposePage s file pageNo).2.hashTable file pageNo = none ∧
    (disposePage s file pageNo).2.disk.log = s.disk.log ++ [DiskOp.delete file pageNo] ∧
    (disposePage s file pageNo).2.disk.pages file pageNo = none ∧
    (∀ j, j ≠ f → (disposePage s file pageNo).2.bufDescTable j = s.bufDescTable j) ∧
    (∀ f1 p1, ¬ (f1 = file ∧ p1 = pageNo) →
      (disposePage s file pageNo).2.hashTable f1 p1 = s.hashTable f1 p1) ∧
    (disposePage s file pageNo).2.bufPool = s.bufPool ∧
    (disposePage s file pageNo).2.clockHand = s.clockHand := by
  rw [disposePage_hit hres]
  refine ⟨rfl, ?_, ?_, ?_, ?_, ?_, ?_, rfl, ?_, ?_, ?_, rfl, rfl⟩
  · simp
  · simp [BufDesc.Clear]
  · simp [BufDesc.Clear]
  · simp [BufDesc.Clear]
  · simp [BufDesc.Clear]
  · simp
  · simp [Disk.deletePage]
  · intro j hj
    simp [hj]
  · intro f1 p1 hk
    simp [hk]

/-- C16 at a concrete state: page 1 of file 1 of `dirtyPinned` is pinned and dirty;
disposing of it succeeds and the storage receives the delete and no write. -/
theorem C16_disposePage_resident_witness :
    (disposePage dirtyPinned 1 1).1 = Except.ok () ∧
      (disposePage dirtyPinned 1 1).2.disk.log =
        dirtyPinned.disk.log ++ [DiskOp.delete 1 1] :=
  ⟨(C16_disposePage_resident dirtyPinned 1 1 0 rfl).1,
    (C16_disposePage_resident dirtyPinned 1 1 0 rfl).2.2.2.2.2.2.2.1⟩

/-- C17: when `allocPage` succeeds with page number `n` and frame `f`, `n` is the number
the storage assigned to the page it allocated, the pool entry of `f` is that new page, the
index maps (file, `n`) to `f`, and descriptor `f` is valid with identity (file, `n`), pin
count exactly 1, reference flag set and dirty flag clear, as after a `readPage` miss. -/
theorem C17_allocPage_success (s : BufMgr) (file n f : Nat)
    (hok : (allocPage s file).1 = Except.ok (n, f)) :
    n = (s.disk.allocatePage file).1.page_number ∧
    (allocBuf (afterAllocate s file)).1 = Except.ok f ∧
    (allocPage s file).2.bufPool f = (s.disk.allocatePage file).1 ∧
    (allocPage s file).2.hashTable file n = some f ∧
    ((allocPage s file).2.bufDescTable f).valid = true ∧
    ((allocPage s file).2.bufDescTable f).file = file ∧
    ((allocPage s file).2.bufDescTable f).pageNo = n ∧
    ((allocPage s file).2.bufDescTable f).pinCnt = 1 ∧
    ((allocPage s file).2.bufDescTable f).refbit = true ∧
    ((allocPage s file).2.bufDescTable f).dirty = false := by
  cases ha : allocBuf (afterAllocate s file) with
  | mk r s1 =>
    cases r with
    | error e =>
      rw [allocPage_fail ha] at hok
      cases hok
    | ok frame =>
      cases hn : s1.hashTable file (s.disk.allocatePage file).1.page_number with
      | some M =>
        rw [allocPage_dup ha hn] at hok
        cases hok
      | none =>
        rw [allocPage_ok ha hn] at hok ⊢
        simp only [Except.ok.injEq, Prod.mk.injEq] at hok
        obtain ⟨hn', hfr⟩ := hok
        subst hfr
        subst hn'
        simp [install, storePage, BufDesc.Set]

/-- C17 at a concrete state: allocating a page of file 1 in the manager that holds page 1
of file 1 in frame 0. -/
theorem C17_allocPage_success_witness :
    (allocPage (readPage (BufMgr.new 2 stubDisk) 1 1).2 1).2.hashTable 1 100 = some 1 :=
  (C17_allocPage_success (readPage (BufMgr.new 2 stubDisk) 1 1).2 1 100 1 rfl).2.2.2.1

theorem twoOfOneFile_reachable : Reachable twoOfOneFile :=
  Reachable.unPinPage _ 1 2 false (Reachable.unPinPage _ 1 1 false
    (Reachable.readPage _ 2 1 (Reachable.readPage _ 1 2 (Reachable.readPage _ 1 1
      (Reachable.init 3 stubDisk (by decide))))))

theorem dirtyPinned_reachable : Reachable dirtyPinned :=
  Reachable.unPinPage _ 1 1 true (Reachable.readPage _ 1 1 (Reachable.readPage _ 1 1
    (Reachable.init 1 stubDisk (by decide))))

/-- C18 as stated fails: in the reachable state `twoOfOneFile` (capacity 3; pages 1 and 2
of file 1 in frames 0 and 1, released; page 1 of file 2 in frame 2) `allocBuf` succeeds
and returns frame 0, yet page 2 of file 1, resident in frame 1 before the call, is no
longer resident: descriptor 1 has been reset and its index entry removed. -/
theorem C18_allocBuf_evicts_sibling_frames :
    (allocBuf twoOfOneFile).1 = Except.ok 0 ∧
    (twoOfOneFile.bufDescTable 1).valid = true ∧
    twoOfOneFile.hashTable 1 2 = some 1 ∧
    ((allocBuf twoOfOneFile).2.bufDescTable 1).valid = false ∧
    (allocBuf twoOfOneFile).2.hashTable 1 2 = none :=
  ⟨rfl, by decide, by decide, by decide, by decide⟩

/-- C18, amended: in a reachable state, a successful `allocBuf` returning frame `f` leaves
the pool untouched and changes the descriptor table only by clearing reference flags and,
when `f` held a page, by resetting every frame that held a page of the file of that
page (`f` among them; all had pin count 0) and removing those pages from the index. Every
page resident before the call in a frame holding a page of another file, or in any frame
when `f` was free, is still resident in the same frame with the same identity, valid,
dirty and pin-count fields and the same index entry; a free frame stays as it was. -/
theorem C18_allocBuf_evicts_one_file (s : BufMgr) (hs : Reachable s) (f : Nat)
    (hok : (allocBuf s).1 = Except.ok f) :
    (allocBuf s).2.bufPool = s.bufPool ∧
    (∀ i, (s.bufDescTable i).valid = true →
      ((s.bufDescTable f).valid = true ∧ (s.bufDescTable i).file = (s.bufDescTable f).file) →
      (s.bufDescTable i).pinCnt = 0 ∧
      (allocBuf s).2.bufDescTable i = BufDesc.empty i ∧
      (allocBuf s).2.hashTable (s.bufDescTable i).file (s.bufDescTable i).pageNo = none) ∧
    (∀ i, (s.bufDescTable i).valid = true →
      ¬ ((s.bufDescTable f).valid = true ∧
        (s.bufDescTable i).file = (s.bufDescTable f).file) →
      (allocBuf s).2.bufDescTable i =
        { s.bufDescTable i with refbit := ((allocBuf s).2.bufDescTable i).refbit } ∧
      (((allocBuf s).2.bufDescTable i).refbit = true → (s.bufDescTable i).refbit = true) ∧
      (allocBuf s).2.hashTable (s.bufDescTable i).file (s.bufDescTable i).pageNo = some i) ∧
    (∀ i, (s.bufDescTable i).valid = false →
      (allocBuf s).2.bufDescTable i = s.bufDescTable i) := by
  have h := hs.has_inv
  have ha : allocBuf s = (Except.ok f, (allocBuf s).2) := Prod.ext hok rfl
  obtain ⟨s1, hR, _, _, hcase⟩ := allocBuf_ok_cases h ha
  have hI1 := hR.keeps_inv h
  have hfree : ∀ i, (s.bufDescTable i).valid = false → s1.bufDescTable i = s.bufDescTable i := by
    intro i hv
    have h1 : (s1.bufDescTable i).valid = false := by
      rw [(hR.desc i).1]; exact hv
    rw [hI1.empty i h1, h.empty i hv]
  rcases hcase with ⟨hv1, hs'⟩ | ⟨hv1, _, _, hnb, hs'⟩
  · have hvf : (s.bufDescTable f).valid = false := by
      rw [(hR.desc f).1] at hv1; exact hv1
    rw [hs']
    refine ⟨hR.pool, ?_, ?_, hfree⟩
    · intro i _ hc
      rw [hvf] at hc
      cases hc.1
    · intro i hv _
      refine ⟨(hR.desc i).1, (hR.desc i).2, ?_⟩
      rw [hR.hash]
      exact h.lookup_of_valid hv
  · have hvf : (s.bufDescTable f).valid = true := by
      rw [(hR.desc f).1] at hv1; exact hv1
    have hfile : (s1.bufDescTable f).file = (s.bufDescTable f).file := by
      rw [(hR.desc f).1]
    have hval : ∀ i, (s1.bufDescTable i).valid = (s.bufDescTable i).valid := by
      intro i; rw [(hR.desc i).1]
    have hfl : ∀ i, (s1.bufDescTable i).file = (s.bufDescTable i).file := by
      intro i; rw [(hR.desc i).1]
    rw [hs', hfile]
    refine ⟨hR.pool, ?_, ?_, ?_⟩
    · intro i hv hc
      have hlt : i < s1.numBufs := by rw [hR.numBufs]; exact h.valid_lt hv
      have hv' : (s1.bufDescTable i).valid = true := by rw [hval]; exact hv
      have hf' : (s1.bufDescTable i).file = (s.bufDescTable f).file := by rw [hfl]; exact hc.2
      refine ⟨?_, flushedUpTo_desc_owned hI1 hlt hf' hv', ?_⟩
      · by_contra hp
        apply hnb i hlt
        rw [hfile]
        refine ⟨hf', Or.inr ?_⟩
        rw [(hR.desc i).1]
        exact Nat.pos_of_ne_zero hp
      · apply flushedUpTo_hash_removed s1 _ ⟨hlt, hf', hv'⟩
        rw [hR.hash]
        exact h.lookup_of_valid hv
    · intro i hv hc
      have hno : ¬ (i < s1.numBufs ∧ (s1.bufDescTable i).file = (s.bufDescTable f).file ∧
          (s1.bufDescTable i).valid = true) := by
        rintro ⟨_, h2, _⟩
        rw [hfl] at h2
        exact hc ⟨hvf, h2⟩
      rw [flushedUpTo_desc_other s1 hno]
      refine ⟨(hR.desc i).1, (hR.desc i).2, ?_⟩
      apply flushedUpTo_hash_kept s1 _ hno
      rw [hR.hash]
      exact h.lookup_of_valid hv
    · intro i hv
      have hno : ¬ (i < s1.numBufs ∧ (s1.bufDescTable i).file = (s.bufDescTable f).file ∧
          (s1.bufDescTable i).valid = true) := by
        rintro ⟨_, _, h3⟩
        rw [hval, hv] at h3
        cases h3
      rw [flushedUpTo_desc_other s1 hno]
      exact hfree i hv

/-- C18, amended, at the concrete state `twoOfOneFile`: the page of file 2 in frame 2 is
still resident after the call that evicted both pages of file 1. -/
theorem C18_allocBuf_evicts_one_file_witness :
    (allocBuf twoOfOneFile).2.hashTable (twoOfOneFile.bufDescTable 2).file
      (twoOfOneFile.bufDescTable 2).pageNo = some 2 :=
  ((C18_allocBuf_evicts_one_file twoOfOneFile twoOfOneFile_reachable 0 rfl).2.2.1 2
    (by decide) (by decide)).2.2

/-- C19, evaluated at the failing input: `dirtyPinned` is reachable (capacity 1; fetch page
1 of file 1 twice, release it once with `markDirty`) and its frame 0 is valid and dirty
with pin count 1. The destructor throws `PagePinnedException` out of `flushFile`, the
storage receives no `writePage`, and the frame is left dirty. -/
theorem C19_destructor_throws_on_pinned_dirty_frame :
    Reachable dirtyPinned ∧
    (dirtyPinned.bufDescTable 0).valid = true ∧
    (dirtyPinned.bufDescTable 0).dirty = true ∧
    (dirtyPinned.bufDescTable 0).pinCnt = 1 ∧
    (destroy dirtyPinned).1 = Except.error Exc.PagePinnedException ∧
    (destroy dirtyPinned).2.disk.log = dirtyPinned.disk.log ∧
    ((destroy dirtyPinned).2.bufDescTable 0).dirty = true :=
  ⟨dirtyPinned_reachable, by decide, by decide, by decide, rfl, by decide, by decide⟩

/-- C20, evaluated at the failing input: on a fresh manager of capacity 2 over `stubDisk`,
where page 1 of file 1 exists in storage and is not resident, `disposePage` throws
`HashNotFoundException` from the index lookup; the storage receives no call and still
holds the page. -/
theorem C20_disposePage_of_absent_page_deletes_nothing :
    (BufMgr.new 2 stubDisk).hashTable 1 1 = none ∧
    stubDisk.pages 1 1 = some { page_number := 1, data := 7 } ∧
    (disposePage (BufMgr.new 2 stubDisk) 1 1).1 = Except.error Exc.HashNotFoundException ∧
    (disposePage (BufMgr.new 2 stubDisk) 1 1).2.disk.log = [] ∧
    (disposePage (BufMgr.new 2 stubDisk) 1 1).2.disk.pages 1 1 =
      some { page_number := 1, data := 7 } :=
  ⟨rfl, rfl, rfl, by decide, by decide⟩

end badgerdb
